import Mathlib

/-!
# Verification of the instrument-workflow simulation engine

A shallow embedding, in Lean 4, of the core of the
instrument-workflow-sim repository:

* `src/simulation/timing.py`  — the timing-distribution sampler;
* `src/simulation/models.py`  — event / summary data models and their
  construction-time validation;
* `src/simulation/core.py`    — the `SimulationEngine` (entry-time cohort
  generation, the per-sample SimPy process, the run loop, and the
  statistics aggregation in `_compute_summary`).

Python floats are modelled as `ℚ`, Python ints as `ℤ`/`ℕ`, Python dicts
(which preserve insertion order) as association lists with
overwrite-on-existing-key update, and exceptions as `Except String`.

The SimPy library itself is not part of the repository; its documented
semantics (FIFO `Resource` queues, an event queue ordered by
(time, insertion order), processes resumed at their scheduled times) is
embedded here as an explicit future-event-list scheduler, following the
description of the resource/scheduler model in the repository's own
design notes.  NumPy's Mersenne-Twister generator is likewise external;
it is modelled as a deterministic state machine (`Rng`) producing values
in `[0,1)` — the property the engine relies on is that `np.random.seed`
makes the stream a pure function of the seed, which the model captures.
-/

namespace InstrumentSim

/-! ## Pseudorandom generator (models NumPy's seeded global generator)

`np.random` is external library code.  What matters to the engine is:
the generator is a deterministic state machine; `np.random.seed n`
replaces its state by one computed from `n` alone; each draw consumes
state and returns a value, here a rational in `[0,1)`.  The concrete
numeric distribution of the draws is abstracted (a linear-congruential
step stands in for the Mersenne Twister). -/

structure Rng where
  state : ℕ
deriving DecidableEq, Repr

/-- One uniform draw in `[0,1)` together with the successor state. -/
def rngNext (g : Rng) : ℚ × Rng :=
  let s := (g.state * 1103515245 + 12345) % 2147483648
  (((s : ℚ) / 2147483648), ⟨s⟩)

/-- `set_random_seed` (timing.py): calls `np.random.seed(seed)`, which
discards the generator's current state and reinitializes it from the
seed alone. -/
def set_random_seed (_g : Rng) (seed : ℕ) : Rng :=
  ⟨seed⟩

/-! ## Timing models and the sampler (`src/simulation/timing.py`) -/

/-- The `timing_model` dictionaries dispatched on by `sample_timing`.
A dict whose `"type"` tag is none of the three supported ones is
represented by `unsupported`. -/
inductive TimingModel where
  | fixed (value : ℚ)
  | triangular (min mode max : ℚ)
  | exponential (mean : ℚ)
  | unsupported (ty : String)
deriving DecidableEq, Repr

/-- `sample_fixed`: returns the value unchanged; negative values raise. -/
def sample_fixed (value : ℚ) : Except String ℚ :=
  if value < 0 then
    Except.error ("Fixed timing value must be non-negative")
  else
    Except.ok value

/-- `sample_triangular`: validates each parameter non-negative, then the
ordering `min <= mode <= max`; if `min == max` returns `min` without
drawing; otherwise draws once from the generator (the draw is mapped
into `[min, max]`; the exact triangular shape of `np.random.triangular`
is abstracted). -/
def sample_triangular (min_val mode max_val : ℚ) (g : Rng) :
    Except String (ℚ × Rng) :=
  if min_val < 0 then
    Except.error ("Triangular min must be non-negative")
  else if mode < 0 then
    Except.error ("Triangular mode must be non-negative")
  else if max_val < 0 then
    Except.error ("Triangular max must be non-negative")
  else if ¬ (min_val ≤ mode ∧ mode ≤ max_val) then
    Except.error ("Triangular parameters must satisfy min <= mode <= max")
  else if min_val = max_val then
    Except.ok (min_val, g)
  else
    let (u, g2) := rngNext g
    Except.ok (min_val + u * (max_val - min_val), g2)

/-- `sample_exponential`: mean must be strictly positive; draws once
(the exponential shape of `np.random.exponential` is abstracted as a
non-negative multiple of the mean). -/
def sample_exponential (mean : ℚ) (g : Rng) : Except String (ℚ × Rng) :=
  if mean ≤ 0 then
    Except.error ("Exponential mean must be positive")
  else
    let (u, g2) := rngNext g
    Except.ok (mean * u, g2)

/-- `sample_timing`: dispatch on the timing model's type tag. -/
def sample_timing (timing_model : TimingModel) (g : Rng) :
    Except String (ℚ × Rng) :=
  match timing_model with
  | TimingModel.fixed value =>
      (sample_fixed value).map (fun v => (v, g))
  | TimingModel.triangular mn md mx => sample_triangular mn md mx g
  | TimingModel.exponential mean => sample_exponential mean g
  | TimingModel.unsupported _ =>
      Except.error ("Unsupported timing type")

/-- Drawing a sequence of values: thread the generator through a list of
timing specs, stopping at the first error (a raised exception aborts the
run in the source). -/
def sample_seq (specs : List TimingModel) (g : Rng) :
    Except String (List ℚ × Rng) :=
  match specs with
  | [] => Except.ok ([], g)
  | tm :: rest =>
      match sample_timing tm g with
      | Except.error e => Except.error e
      | Except.ok (v, g2) =>
          match sample_seq rest g2 with
          | Except.error e => Except.error e
          | Except.ok (vs, g3) => Except.ok (v :: vs, g3)

/-! ## Data models (`src/simulation/models.py`) -/

/-- `SimulationEvent` dataclass.  `event_type` is kept as the Python
string tag (one of `QUEUED`, `START`, `COMPLETE`, `RELEASED`), because
the dataclass validates it against that list of strings. -/
structure SimulationEvent where
  timestamp : ℚ
  event_type : String
  sample_id : String
  operation_id : String
  device_id : String
  duration : ℚ
  wait_time : ℚ
  device_queue_length : ℤ
  notes : String
deriving DecidableEq, Repr

/-- `SimulationEvent.__post_init__`: dataclass construction followed by
validation; any violated invariant raises (checked in source order). -/
def mkSimulationEvent (timestamp : ℚ) (event_type : String)
    (sample_id : String) (operation_id : String) (device_id : String)
    (duration : ℚ) (wait_time : ℚ) (device_queue_length : ℤ)
    (notes : String) : Except String SimulationEvent :=
  if timestamp < 0 then
    Except.error ("timestamp must be non-negative")
  else if event_type ∉ (["QUEUED", "START", "COMPLETE", "RELEASED"] : List String) then
    Except.error ("event_type must be one of QUEUED, START, COMPLETE, RELEASED")
  else if duration < 0 then
    Except.error ("duration must be non-negative")
  else if wait_time < 0 then
    Except.error ("wait_time must be non-negative")
  else if device_queue_length < 0 then
    Except.error ("device_queue_length must be non-negative")
  else
    Except.ok
      { timestamp := timestamp, event_type := event_type,
        sample_id := sample_id, operation_id := operation_id,
        device_id := device_id, duration := duration,
        wait_time := wait_time,
        device_queue_length := device_queue_length, notes := notes }

/-- `DeviceQueueStats` dataclass. -/
structure DeviceQueueStats where
  max_queue_length : ℤ := 0
  avg_queue_time : ℚ := 0
  total_queue_time : ℚ := 0
  queue_events : ℕ := 0
deriving DecidableEq, Repr

/-- `OperationStats` dataclass.  `np.std`'s square root is irrational in
general, so `stdev_sq_duration` holds the population variance (the
square of what the source stores); no other part of the model reads it. -/
structure OperationStats where
  mean_duration : ℚ := 0
  stdev_sq_duration : ℚ := 0
  min_duration : ℚ := 0
  max_duration : ℚ := 0
  median_duration : ℚ := 0
  sample_count : ℕ := 0
deriving DecidableEq, Repr

/-- `OperationWaitStats` dataclass. -/
structure OperationWaitStats where
  mean_wait : ℚ := 0
  total_wait : ℚ := 0
  wait_events : ℕ := 0
deriving DecidableEq, Repr

/-- `SimulationSummary` dataclass fields.  The per-device and
per-operation maps are Python dicts built by inserting keys in workflow
list order; they are modelled as association lists in insertion order. -/
structure SimulationSummary where
  total_simulation_time : ℚ
  num_samples_completed : ℤ
  num_samples_failed : ℤ
  device_utilization : List (String × ℚ)
  device_queue_stats : List (String × DeviceQueueStats)
  operation_stats : List (String × OperationStats)
  operation_wait_times : List (String × OperationWaitStats)
  total_throughput : ℚ
  mean_sample_cycle_time : ℚ
  min_sample_cycle_time : ℚ
  max_sample_cycle_time : ℚ
  bottleneck_device : String
  bottleneck_utilization : ℚ
  bottleneck_queue_delay : ℚ := 0
deriving DecidableEq, Repr

/-- `SimulationSummary.__post_init__`: the dataclass is constructed and
then validated; the utilization loop raises at the first device whose
utilization lies outside `[0.0, 1.0]`.  On success the summary is
returned exactly as constructed (nothing is clamped or rewritten). -/
def mkSimulationSummary (s : SimulationSummary) :
    Except String SimulationSummary :=
  if s.total_simulation_time < 0 then
    Except.error ("total_simulation_time must be non-negative")
  else if s.num_samples_completed < 0 then
    Except.error ("num_samples_completed must be non-negative")
  else if s.num_samples_failed < 0 then
    Except.error ("num_samples_failed must be non-negative")
  else if s.total_throughput < 0 then
    Except.error ("total_throughput must be non-negative")
  else
    match s.device_utilization.find? (fun p => ¬ (0 ≤ p.2 ∧ p.2 ≤ 1)) with
    | some _ =>
        Except.error ("device_utilization must be between 0.0 and 1.0")
    | none => Except.ok s

/-! ## Workflow and scenario inputs

These mirror the validated JSON dictionaries consumed by
`SimulationEngine.__init__` (fields listed in the validators and the
design document).  Optional keys read with `.get(...)` are `Option`s. -/

structure Device where
  device_id : String
  device_name : String
  resource_capacity : ℕ
  scheduling_policy : String
deriving DecidableEq, Repr

structure Operation where
  operation_id : String
  operation_name : String
  device_id : String
  timing : TimingModel
  operation_type : String
deriving DecidableEq, Repr

structure SequenceStep where
  sequence_id : String
  operation_id : String
  predecessors : List String
deriving DecidableEq, Repr

structure Workflow where
  workflow_id : String
  devices : List Device
  operations : List Operation
  base_sequence : List SequenceStep
deriving DecidableEq, Repr

/-- `sample_entry_pattern`; `num_samples` is read with
`pattern.get('num_samples', 1)`, so it may be absent. -/
structure EntryPattern where
  pattern_type : String
  num_samples : Option ℕ
deriving DecidableEq, Repr

/-- `simulation_config`; both keys are read with `.get(...)`. -/
structure SimulationConfig where
  random_seed : Option ℕ
  max_simulation_time : Option ℚ
deriving DecidableEq, Repr

structure Scenario where
  scenario_id : String
  workflow_id : String
  sample_entry_pattern : EntryPattern
  simulation_config : SimulationConfig
deriving DecidableEq, Repr

/-! ## Association-list model of Python dicts

Python dicts preserve insertion order; assignment overwrites an existing
key in place and otherwise appends. -/

/-- Dict lookup (`d[k]` / `d.get(k)`). -/
def alookup {α : Type} (l : List (String × α)) (k : String) : Option α :=
  match l with
  | [] => none
  | (k2, v2) :: rest => if k2 = k then some v2 else alookup rest k

/-- Dict assignment `d[k] = v`: overwrite in place, else append. -/
def aset {α : Type} (l : List (String × α)) (k : String) (v : α) :
    List (String × α) :=
  match l with
  | [] => [(k, v)]
  | (k2, v2) :: rest =>
      if k2 = k then (k, v) :: rest else (k2, v2) :: aset rest k v

/-! ## Sample identifiers

`f"SAMPLE_{i:03d}"`: the decimal digits of `i`, left-padded with zeros
to at least three characters, after the fixed prefix. -/

/-- Little-endian decimal digits, by structural recursion on a fuel
argument (so that concrete values reduce definitionally); agrees with
`Nat.digits 10` (see `decimalDigitsAux_eq_digits`). -/
def decimalDigitsAux : ℕ → ℕ → List ℕ
  | 0, _ => []
  | _ + 1, 0 => []
  | fuel + 1, n + 1 => ((n + 1) % 10) :: decimalDigitsAux fuel ((n + 1) / 10)

def decimalDigits (n : ℕ) : List ℕ :=
  decimalDigitsAux n n

/-- Decimal digit characters of `n`, most significant first (empty for
`0`, which the padding below turns into `000` exactly as `{0:03d}`
does). -/
def digitsStr (n : ℕ) : List Char :=
  ((decimalDigits n).map Nat.digitChar).reverse

def pad3 (n : ℕ) : String :=
  String.mk (List.replicate (3 - (digitsStr n).length) '0' ++ digitsStr n)

def sampleIdOf (i : ℕ) : String :=
  String.mk (("SAMPLE_").data ++ (pad3 i).data)

/-- `SimulationEngine._compute_entry_times`: for `synchronized` and
`single` alike, `num_samples` (defaulting to 1) samples all entering at
time 0; any other pattern type raises `ValueError`. -/
def computeEntryTimes (sc : Scenario) : Except String (List (String × ℚ)) :=
  let pattern := sc.sample_entry_pattern
  let pattern_type := pattern.pattern_type
  let num_samples := pattern.num_samples.getD 1
  if pattern_type = "synchronized" ∨ pattern_type = "single" then
    Except.ok ((List.range num_samples).map (fun i => (sampleIdOf i, (0 : ℚ))))
  else
    Except.error ("Pattern type '" ++ pattern_type ++
      "' not supported in Phase 1a. Supported types: synchronized, single")

/-! ## The discrete-event scheduler

`SimulationEngine` drives one SimPy process per sample
(`_sample_process`).  SimPy's event loop pops the pending event with the
least `(time, insertion order)` key, advances the clock to its time and
resumes the owning process, which runs until its next `yield`.  The
suspension points of `_sample_process` are: the optional entry timeout,
`yield req` (resource acquisition) and `yield timeout(duration)`
(operation execution); resource grants — immediate or on release — are
delivered through the same event queue at the current instant.  The
embedding makes those suspension points explicit as `Activation`s kept
in a future-event list sorted by `(time, seq)`. -/

/-- Resumption points of a `_sample_process` coroutine. -/
inductive Activation where
  | init (pid : ℕ)
  | entered (pid : ℕ)
  | acquired (pid : ℕ)
  | opDone (pid : ℕ)
deriving DecidableEq, Repr

structure FelEntry where
  time : ℚ
  seq : ℕ
  act : Activation
deriving DecidableEq, Repr

/-- Where a sample-process currently stands between suspension points. -/
inductive ProcPhase where
  | entering
  | queued
  | granted
  | executing
  | finished
deriving DecidableEq, Repr

/-- The per-process control state: the loop index into `base_sequence`
plus the live local variables of `_sample_process`'s loop body
(`operation_id`, `op_def`, `queue_start_time`, `wait_time`,
`duration`). -/
structure ProcState where
  sample_id : String
  entry_time : ℚ
  stepIdx : ℕ
  queue_start : ℚ
  wait_time : ℚ
  duration : ℚ
  cur_opid : String
  cur_op : Operation
  phase : ProcPhase
deriving DecidableEq, Repr

/-- A SimPy `Resource`: a capacity, the set of current holders (their
count), and the FIFO queue of waiting requests (process ids). -/
structure ResourceState where
  capacity : ℕ
  users : ℕ
  queue : List ℕ
deriving DecidableEq, Repr

structure EngineState where
  clock : ℚ
  seqCounter : ℕ
  fel : List FelEntry
  resources : List (String × ResourceState)
  procs : List ProcState
  event_log : List SimulationEvent
  sample_start_times : List (String × ℚ)
  sample_end_times : List (String × ℚ)
  rng : Rng
deriving DecidableEq, Repr

/-- Insert an entry into the future-event list, keeping it sorted by
time; insertion after all entries of equal time preserves the
`(time, seq)` order because `seq` only ever increases. -/
def felInsert (e : FelEntry) : List FelEntry → List FelEntry
  | [] => [e]
  | f :: rest =>
      if f.time ≤ e.time then f :: felInsert e rest else e :: f :: rest

/-- Schedule an activation at absolute time `t`. -/
def schedule (st : EngineState) (t : ℚ) (a : Activation) : EngineState :=
  { st with
    fel := felInsert { time := t, seq := st.seqCounter, act := a } st.fel,
    seqCounter := st.seqCounter + 1 }

/-- Append to the event log (`self.event_log.append(...)`). -/
def pushEvent (st : EngineState) (ev : SimulationEvent) : EngineState :=
  { st with event_log := st.event_log ++ [ev] }

def defaultOperation : Operation :=
  { operation_id := "", operation_name := "", device_id := "",
    timing := TimingModel.fixed 0, operation_type := "" }

def defaultProc : ProcState :=
  { sample_id := "", entry_time := 0, stepIdx := 0, queue_start := 0,
    wait_time := 0, duration := 0, cur_opid := "",
    cur_op := defaultOperation, phase := ProcPhase.entering }

def getProc (st : EngineState) (pid : ℕ) : ProcState :=
  st.procs.getD pid defaultProc

def setProc (st : EngineState) (pid : ℕ) (p : ProcState) : EngineState :=
  { st with procs := st.procs.set pid p }

def setRes (st : EngineState) (d : String) (r : ResourceState) : EngineState :=
  { st with resources := aset st.resources d r }

/-- `initialize_resources`: one SimPy `Resource` per device, keyed by
`device_id`, with the device's `resource_capacity`. -/
def init_resources (w : Workflow) : List (String × ResourceState) :=
  w.devices.foldl
    (fun acc d =>
      aset acc d.device_id
        { capacity := d.resource_capacity, users := 0, queue := [] })
    []

/-- The generator-expression lookup
`next((op for op in workflow['operations'] if op['operation_id'] == operation_id), None)`. -/
def findOp (w : Workflow) (opId : String) : Option Operation :=
  w.operations.find? (fun op => op.operation_id = opId)

/-- Record the sample's end time and terminate the process (the code
after the loop in `_sample_process`). -/
def finishSample (st : EngineState) (pid : ℕ) : EngineState :=
  let p := getProc st pid
  let st := { st with
    sample_end_times := aset st.sample_end_times p.sample_id st.clock }
  setProc st pid { p with phase := ProcPhase.finished }

/-- One iteration head of the `for step in base_sequence` loop: resolve
the operation (raising if absent), emit the `QUEUED` event stamped with
the device's current waiter count, then request the device resource —
granted immediately when holders are below capacity (the resumption is
scheduled at the current instant), otherwise appended to the FIFO
queue. -/
def beginStep (w : Workflow) (st : EngineState) (pid : ℕ) :
    Except String EngineState :=
  let p := getProc st pid
  match w.base_sequence.get? p.stepIdx with
  | none => Except.error ("internal: step index out of range")
  | some step =>
    let operation_id := step.operation_id
    match findOp w operation_id with
    | none =>
        Except.error ("Operation '" ++ operation_id ++
          "' not found in workflow definition")
    | some op_def =>
      let device_id := op_def.device_id
      match alookup st.resources device_id with
      | none => Except.error ("KeyError: '" ++ device_id ++ "'")
      | some res =>
        match mkSimulationEvent st.clock ("QUEUED") p.sample_id
            operation_id device_id 0 0 (res.queue.length : ℤ) ("") with
        | Except.error e => Except.error e
        | Except.ok ev =>
          let st := pushEvent st ev
          let p2 := { p with queue_start := st.clock,
                             cur_opid := operation_id, cur_op := op_def }
          if res.users < res.capacity then
            let st := setRes st device_id { res with users := res.users + 1 }
            let st := setProc st pid { p2 with phase := ProcPhase.granted }
            Except.ok (schedule st st.clock (Activation.acquired pid))
          else
            let st := setRes st device_id
              { res with queue := res.queue ++ [pid] }
            Except.ok (setProc st pid { p2 with phase := ProcPhase.queued })

/-- Continue the sample-process after finishing a step (or on entry):
begin the next step if one remains, otherwise record the end
timestamp. -/
def advanceProc (w : Workflow) (st : EngineState) (pid : ℕ) :
    Except String EngineState :=
  if (getProc st pid).stepIdx < w.base_sequence.length then
    beginStep w st pid
  else
    Except.ok (finishSample st pid)

/-- The code at the top of `_sample_process` once the entry delay has
elapsed: record the sample start timestamp, then enter the loop. -/
def procBegin (w : Workflow) (st : EngineState) (pid : ℕ) :
    Except String EngineState :=
  let p := getProc st pid
  let st := { st with
    sample_start_times := aset st.sample_start_times p.sample_id st.clock }
  advanceProc w st pid

/-- Resume a sample-process at one of its suspension points. -/
def handleActivation (w : Workflow) (a : Activation) (st : EngineState) :
    Except String EngineState :=
  match a with
  | Activation.init pid =>
      let p := getProc st pid
      if p.entry_time > 0 then
        Except.ok (schedule st (st.clock + p.entry_time)
          (Activation.entered pid))
      else
        procBegin w st pid
  | Activation.entered pid => procBegin w st pid
  | Activation.acquired pid =>
      let p := getProc st pid
      let wait_time := st.clock - p.queue_start
      match mkSimulationEvent st.clock ("START") p.sample_id p.cur_opid
          p.cur_op.device_id 0 wait_time 0 ("") with
      | Except.error e => Except.error e
      | Except.ok ev =>
        let st := pushEvent st ev
        match sample_timing p.cur_op.timing st.rng with
        | Except.error e => Except.error e
        | Except.ok (duration, g2) =>
          if duration < 0 then
            Except.error ("Negative delay")
          else
            let st := { st with rng := g2 }
            let st := setProc st pid
              { p with wait_time := wait_time, duration := duration,
                       phase := ProcPhase.executing }
            Except.ok (schedule st (st.clock + duration)
              (Activation.opDone pid))
  | Activation.opDone pid =>
      let p := getProc st pid
      match mkSimulationEvent st.clock ("COMPLETE") p.sample_id p.cur_opid
          p.cur_op.device_id p.duration p.wait_time 0 ("") with
      | Except.error e => Except.error e
      | Except.ok ev =>
        let st := pushEvent st ev
        match alookup st.resources p.cur_op.device_id with
        | none => Except.error ("KeyError: '" ++ p.cur_op.device_id ++ "'")
        | some res =>
          let st :=
            match res.queue with
            | [] =>
                setRes st p.cur_op.device_id
                  { res with users := res.users - 1 }
            | h :: t =>
                -- release frees the slot and immediately grants the FIFO
                -- head, whose resumption is scheduled at this instant
                let st := setRes st p.cur_op.device_id
                  { res with queue := t }
                let hp := getProc st h
                let st := setProc st h { hp with phase := ProcPhase.granted }
                schedule st st.clock (Activation.acquired h)
          let st := setProc st pid { (getProc st pid) with
            stepIdx := p.stepIdx + 1 }
          advanceProc w st pid

/-- The SimPy event loop (`env.run()` / `env.run(until=max_time)`),
with explicit fuel (the loop in the source is bounded by the number of
events each process can generate; `runLoop_fuel_bound` below shows the
fuel the engine supplies is never exhausted).  With a cutoff `t`, events
scheduled strictly before `t` are processed and the clock then advances
to `t` itself (the `until` event has priority over normal events at the
same time); without one, the loop drains the event list. -/
def runLoop (w : Workflow) (cutoff : Option ℚ) :
    ℕ → EngineState → Except String EngineState
  | 0, _ => Except.error ("internal: fuel exhausted")
  | Nat.succ fuel, st =>
    match st.fel with
    | [] =>
        match cutoff with
        | some t => Except.ok { st with clock := t }
        | none => Except.ok st
    | e :: rest =>
        match cutoff with
        | some t =>
            if t ≤ e.time then Except.ok { st with clock := t }
            else
              match handleActivation w e.act
                  { st with clock := e.time, fel := rest } with
              | Except.error msg => Except.error msg
              | Except.ok st2 => runLoop w cutoff fuel st2
        | none =>
            match handleActivation w e.act
                { st with clock := e.time, fel := rest } with
            | Except.error msg => Except.error msg
            | Except.ok st2 => runLoop w cutoff fuel st2

/-- Fuel sufficient for any run: each sample-process injects at most
`2 * (number of steps) + 2` activations into the event list. -/
def engineFuel (w : Workflow) (numProcs : ℕ) : ℕ :=
  numProcs * (2 * w.base_sequence.length + 2) + 1

/-- Truthiness of `max_simulation_time` in `if max_time:`. -/
def pyTruthyTime (o : Option ℚ) : Bool :=
  match o with
  | none => false
  | some v => decide (v ≠ 0)

/-- `SimulationEngine.run()` up to the end of the SimPy event loop:
seed the generator (if a seed is configured), build the resources,
compute the entry cohort, start one process per sample (their initial
activations are queued at time 0 in launch order) and run the loop.
`g0` is the ambient state of NumPy's process-wide generator at the time
of the call (used unchanged when no seed is configured). -/
def runEngine (w : Workflow) (sc : Scenario) (g0 : Rng) :
    Except String EngineState :=
  let sim_config := sc.simulation_config
  let g := match sim_config.random_seed with
    | some seed => set_random_seed g0 seed
    | none => g0
  let resources := init_resources w
  match computeEntryTimes sc with
  | Except.error e => Except.error e
  | Except.ok entry_times =>
    let procs := entry_times.map (fun q => { defaultProc with
      sample_id := q.1, entry_time := q.2 })
    let st0 : EngineState :=
      { clock := 0, seqCounter := procs.length,
        fel := (List.range procs.length).map
          (fun i => { time := 0, seq := i, act := Activation.init i }),
        resources := resources, procs := procs, event_log := [],
        sample_start_times := [], sample_end_times := [], rng := g }
    let fuel := engineFuel w procs.length
    match sim_config.max_simulation_time with
    | some t =>
        -- `if max_time:` — a nonzero value is truthy; `env.run(until=t)`
        -- additionally rejects a cutoff not beyond the current time 0
        if t ≠ 0 then
          if t ≤ 0 then
            Except.error ("until must be greater than the current simulation time")
          else runLoop w (some t) fuel st0
        else runLoop w none fuel st0
    | none => runLoop w none fuel st0

/-! ## Statistics aggregation (`SimulationEngine._compute_summary`) -/

def npMean (xs : List ℚ) : ℚ := xs.sum / (xs.length : ℚ)

/-- `np.min` on a non-empty list (the caller guards emptiness). -/
def npMinNE (xs : List ℚ) : ℚ :=
  match xs with
  | [] => 0
  | x :: rest => rest.foldl min x

/-- `np.max` on a non-empty list (the caller guards emptiness). -/
def npMaxNE (xs : List ℚ) : ℚ :=
  match xs with
  | [] => 0
  | x :: rest => rest.foldl max x

/-- Population variance — the square of what `np.std` returns (see
`OperationStats.stdev_sq_duration`). -/
def npVariance (xs : List ℚ) : ℚ :=
  npMean (xs.map (fun x => (x - npMean xs) ^ 2))

/-- `np.median`: middle element of the sorted list, or the average of
the two middle elements. -/
def npMedian (xs : List ℚ) : ℚ :=
  let s := xs.insertionSort (fun a b => a ≤ b)
  let n := s.length
  if n = 0 then 0
  else if n % 2 = 1 then s.getD (n / 2) 0
  else (s.getD (n / 2 - 1) 0 + s.getD (n / 2) 0) / 2

/-- `max(gen, default=0)`: the default is used only when the sequence is
empty. -/
def pyMaxDefault0 (xs : List ℤ) : ℤ :=
  match xs with
  | [] => 0
  | x :: rest => rest.foldl max x

/-- `max(device_utilization.items(), key=lambda x: x[1])`: the first
maximal item wins ties (later items replace only on strictly greater
values). -/
def pyMaxByVal (l : List (String × ℚ)) : Option (String × ℚ) :=
  match l with
  | [] => none
  | p :: rest =>
      some (rest.foldl (fun best q => if q.2 > best.2 then q else best) p)

/-- Per-device utilization: summed `COMPLETE` durations over
`capacity * total_time` (0 when that denominator is not positive). -/
def deviceUtilizationFor (log : List SimulationEvent) (device_id : String)
    (capacity : ℕ) (total_time : ℚ) : ℚ :=
  let device_events := log.filter
    (fun e => e.device_id = device_id ∧ e.event_type = "COMPLETE")
  let total_busy_time := (device_events.map (fun e => e.duration)).sum
  let max_possible_time := (capacity : ℚ) * total_time
  if max_possible_time > 0 then total_busy_time / max_possible_time else 0

/-- Per-device queue statistics: `max_queue_length` over the device's
`QUEUED` events; the average/total/count over the device's `START`
events restricted to those with `wait_time > 0`. -/
def deviceQueueStatsFor (log : List SimulationEvent) (device_id : String) :
    DeviceQueueStats :=
  let queued_events := log.filter
    (fun e => e.device_id = device_id ∧ e.event_type = "QUEUED")
  let start_events := log.filter
    (fun e => e.device_id = device_id ∧ e.event_type = "START")
  let wait_times :=
    (start_events.filter (fun e => e.wait_time > 0)).map
      (fun e => e.wait_time)
  { max_queue_length :=
      pyMaxDefault0 (queued_events.map (fun e => e.device_queue_length)),
    avg_queue_time := if wait_times = [] then 0 else npMean wait_times,
    total_queue_time := wait_times.sum,
    queue_events := wait_times.length }

/-- Per-operation duration statistics over its `COMPLETE` events. -/
def operationStatsFor (log : List SimulationEvent) (op_id : String) :
    OperationStats :=
  let complete_events := log.filter
    (fun e => e.operation_id = op_id ∧ e.event_type = "COMPLETE")
  let durations := complete_events.map (fun e => e.duration)
  if durations = [] then {}
  else
    { mean_duration := npMean durations,
      stdev_sq_duration := npVariance durations,
      min_duration := npMinNE durations,
      max_duration := npMaxNE durations,
      median_duration := npMedian durations,
      sample_count := durations.length }

/-- Per-operation wait statistics over its `START` events with
`wait_time > 0` (the same zero-wait exclusion as the queue stats). -/
def operationWaitStatsFor (log : List SimulationEvent) (op_id : String) :
    OperationWaitStats :=
  let start_events := log.filter
    (fun e => e.operation_id = op_id ∧ e.event_type = "START")
  let wait_times :=
    (start_events.filter (fun e => e.wait_time > 0)).map
      (fun e => e.wait_time)
  { mean_wait := if wait_times = [] then 0 else npMean wait_times,
    total_wait := wait_times.sum,
    wait_events := wait_times.length }

/-- `_compute_summary`, followed by the dataclass validation of the
constructed `SimulationSummary`. -/
def computeSummary (w : Workflow) (st : EngineState) :
    Except String SimulationSummary :=
  let total_time := st.clock
  let num_completed : ℤ := (st.sample_end_times.length : ℤ)
  let cycle_times := st.sample_end_times.filterMap
    (fun q => (alookup st.sample_start_times q.1).map (fun s => q.2 - s))
  let mean_cycle_time := if cycle_times = [] then 0 else npMean cycle_times
  let min_cycle_time := if cycle_times = [] then 0 else npMinNE cycle_times
  let max_cycle_time := if cycle_times = [] then 0 else npMaxNE cycle_times
  let throughput :=
    if total_time > 0 then (num_completed : ℚ) / total_time else 0
  let device_utilization := w.devices.foldl
    (fun acc d => aset acc d.device_id
      (deviceUtilizationFor st.event_log d.device_id d.resource_capacity
        total_time))
    []
  let device_queue_stats := w.devices.foldl
    (fun acc d => aset acc d.device_id
      (deviceQueueStatsFor st.event_log d.device_id))
    []
  let operation_stats := w.operations.foldl
    (fun acc op => aset acc op.operation_id
      (operationStatsFor st.event_log op.operation_id))
    []
  let operation_wait_times := w.operations.foldl
    (fun acc op => aset acc op.operation_id
      (operationWaitStatsFor st.event_log op.operation_id))
    []
  let bn := pyMaxByVal device_utilization
  let bottleneck_device := match bn with
    | some q => q.1
    | none => ""
  let bottleneck_utilization := match bn with
    | some q => q.2
    | none => 0
  -- `device_queue_stats[bottleneck_device].avg_queue_time`; the key is
  -- always present, both dicts being keyed by the same device list
  let bottleneck_queue_delay := match bn with
    | some q => ((alookup device_queue_stats q.1).getD {}).avg_queue_time
    | none => 0
  mkSimulationSummary
    { total_simulation_time := total_time,
      num_samples_completed := num_completed,
      num_samples_failed := 0,
      device_utilization := device_utilization,
      device_queue_stats := device_queue_stats,
      operation_stats := operation_stats,
      operation_wait_times := operation_wait_times,
      total_throughput := throughput,
      mean_sample_cycle_time := mean_cycle_time,
      min_sample_cycle_time := min_cycle_time,
      max_sample_cycle_time := max_cycle_time,
      bottleneck_device := bottleneck_device,
      bottleneck_utilization := bottleneck_utilization,
      bottleneck_queue_delay := bottleneck_queue_delay }

/-- `SimulationEngine.run()`: the event loop followed by the statistics
aggregation; returns the event log and the summary, or propagates the
first raised error (in which case the caller receives no result). -/
def run (w : Workflow) (sc : Scenario) (g0 : Rng) :
    Except String (List SimulationEvent × SimulationSummary) :=
  match runEngine w sc g0 with
  | Except.error e => Except.error e
  | Except.ok st =>
      match computeSummary w st with
      | Except.error e => Except.error e
      | Except.ok summary => Except.ok (st.event_log, summary)

/-! ## Concrete inputs used by witnesses and counterexamples -/

/-- One device of capacity 1. -/
def devFixed : Device :=
  { device_id := "DEV1", device_name := "Device 1",
    resource_capacity := 1, scheduling_policy := "FIFO" }

/-- One operation on that device with a fixed 10-second duration. -/
def opFixed10 : Operation :=
  { operation_id := "OP1", operation_name := "Fixed op",
    device_id := "DEV1", timing := TimingModel.fixed 10,
    operation_type := "generic" }

def stepOf (sid opid : String) : SequenceStep :=
  { sequence_id := sid, operation_id := opid, predecessors := [] }

/-- One device, one fixed-10s operation, one step — the design
document's end-to-end example workflow. -/
def wfOneOp : Workflow :=
  { workflow_id := "WF", devices := [devFixed], operations := [opFixed10],
    base_sequence := [stepOf ("S1") ("OP1")] }

/-- `single` pattern with `num_samples = 1`, seed 42, no cutoff. -/
def scSingle : Scenario :=
  { scenario_id := "SC", workflow_id := "WF",
    sample_entry_pattern :=
      { pattern_type := "single", num_samples := some 1 },
    simulation_config :=
      { random_seed := some 42, max_simulation_time := none } }

/-- `single` pattern with `num_samples = 3` (rejected by the scenario
validator, but fed here straight to the engine). -/
def scSingle3 : Scenario :=
  { scSingle with sample_entry_pattern :=
      { pattern_type := "single", num_samples := some 3 } }

/-- A workflow whose second step references an operation id that is not
in the operations list. -/
def wfDangling : Workflow :=
  { wfOneOp with
    base_sequence := [stepOf ("S1") ("OP1"), stepOf ("S2") ("MISSING")] }

/-- No seed, `max_simulation_time = 5`: the cutoff strikes during the
first 10-second operation. -/
def scSingleCut5 : Scenario :=
  { scSingle with simulation_config :=
      { random_seed := none, max_simulation_time := some 5 } }

/-- `max_simulation_time = 0` (falsy in `if max_time:`). -/
def scSingleZeroCut : Scenario :=
  { scSingle with simulation_config :=
      { random_seed := some 42, max_simulation_time := some 0 } }

/-- A summary whose only device utilization is `3/2`, outside `[0,1]`. -/
def badSummary : SimulationSummary :=
  { total_simulation_time := 10, num_samples_completed := 1,
    num_samples_failed := 0, device_utilization := [("DEV1", 3 / 2)],
    device_queue_stats := [], operation_stats := [],
    operation_wait_times := [], total_throughput := 0,
    mean_sample_cycle_time := 0, min_sample_cycle_time := 0,
    max_sample_cycle_time := 0, bottleneck_device := "DEV1",
    bottleneck_utilization := 3 / 2, bottleneck_queue_delay := 0 }

/-- A `START` event with a strictly positive wait. -/
def startEvWait5 : SimulationEvent :=
  { timestamp := 5, event_type := "START", sample_id := "SAMPLE_000",
    operation_id := "OP1", device_id := "DEV1", duration := 0,
    wait_time := 5, device_queue_length := 0, notes := "" }

/-- A `START` event with zero wait. -/
def startEvWait0 : SimulationEvent :=
  { timestamp := 7, event_type := "START", sample_id := "SAMPLE_001",
    operation_id := "OP1", device_id := "DEV1", duration := 0,
    wait_time := 0, device_queue_length := 0, notes := "" }

/-! ## Invariants of the scheduler state -/

/-- The process an activation resumes. -/
def actPid : Activation → ℕ
  | Activation.init i => i
  | Activation.entered i => i
  | Activation.acquired i => i
  | Activation.opDone i => i

/-- A process that is working on a step holds consistent loop locals:
its step exists, `cur_opid` is that step's operation id and `cur_op` is
the operation the lookup resolved. -/
def StepOk (w : Workflow) (p : ProcState) : Prop :=
  ∃ step, w.base_sequence.get? p.stepIdx = some step ∧
    p.cur_opid = step.operation_id ∧
    findOp w step.operation_id = some p.cur_op

/-- Each pending activation is consistent with its process's phase and
recorded locals. -/
def ActMatches (w : Workflow) (st : EngineState) (e : FelEntry) : Prop :=
  actPid e.act < st.procs.length ∧
  (let p := st.procs.getD (actPid e.act) defaultProc
   match e.act with
   | Activation.init _ => p.phase = ProcPhase.entering ∧ p.stepIdx = 0
   | Activation.entered _ => p.phase = ProcPhase.entering ∧ p.stepIdx = 0
   | Activation.acquired _ =>
       p.phase = ProcPhase.granted ∧ p.queue_start ≤ e.time ∧
       StepOk w p ∧ p.stepIdx < w.base_sequence.length
   | Activation.opDone _ =>
       p.phase = ProcPhase.executing ∧
       e.time = p.queue_start + p.wait_time + p.duration ∧
       0 ≤ p.wait_time ∧ 0 ≤ p.duration ∧
       StepOk w p ∧ p.stepIdx < w.base_sequence.length)

/-- Number of pending tokens (future-event entries plus queue slots)
held by process `i`. -/
def pidCount (st : EngineState) (i : ℕ) : ℕ :=
  (st.fel.map (fun e => actPid e.act)).count i +
    (st.resources.map (fun dr => dr.2.queue.count i)).sum

/-- Number of processes currently holding device `d` (granted or
executing on it) — what SimPy's `Resource.users` tracks. -/
def activeCount (procs : List ProcState) (d : String) : ℕ :=
  (procs.map (fun p =>
    if (p.phase = ProcPhase.granted ∨ p.phase = ProcPhase.executing) ∧
        p.cur_op.device_id = d then 1 else 0)).sum

/-- Total busy time charged to device `d` in the log (summed `COMPLETE`
durations, as `_compute_summary` reads it). -/
def busySum (log : List SimulationEvent) (d : String) : ℚ :=
  ((log.filter (fun e => e.device_id = d ∧ e.event_type = "COMPLETE")).map
    (fun e => e.duration)).sum

/-- Busy time accrued so far by operations still executing on `d`. -/
def execSum (clock : ℚ) (procs : List ProcState) (d : String) : ℚ :=
  (procs.map (fun p =>
    if p.phase = ProcPhase.executing ∧ p.cur_op.device_id = d then
      clock - (p.queue_start + p.wait_time)
    else 0)).sum

/-- Number of processes currently executing an operation on `d`. -/
def execCount (procs : List ProcState) (d : String) : ℕ :=
  (procs.map (fun p =>
    if p.phase = ProcPhase.executing ∧ p.cur_op.device_id = d then 1
    else 0)).sum

/-- The full scheduler invariant: resource accounting, pending-token
accounting, per-phase process facts, bookkeeping of the start/end maps
and the device busy-time bound. -/
structure EngInv (w : Workflow) (st : EngineState) : Prop where
  res_keys_nodup : (st.resources.map Prod.fst).Nodup
  res_cover : ∀ dev ∈ w.devices,
    (alookup st.resources dev.device_id).isSome
  res_entries : ∀ d r, (d, r) ∈ st.resources →
    ∃ dev ∈ w.devices, d = dev.device_id ∧
      r.capacity = dev.resource_capacity
  res_cap_pos : ∀ d r, (d, r) ∈ st.resources → 1 ≤ r.capacity
  res_users_le : ∀ d r, (d, r) ∈ st.resources → r.users ≤ r.capacity
  res_queue_full : ∀ d r, (d, r) ∈ st.resources → r.queue ≠ [] →
    r.users = r.capacity
  res_users_eq : ∀ d r, (d, r) ∈ st.resources →
    r.users = activeCount st.procs d
  queue_elems : ∀ d r, (d, r) ∈ st.resources → ∀ i ∈ r.queue,
    i < st.procs.length ∧
    (st.procs.getD i defaultProc).phase = ProcPhase.queued ∧
    (st.procs.getD i defaultProc).cur_op.device_id = d ∧
    (st.procs.getD i defaultProc).queue_start ≤ st.clock ∧
    StepOk w (st.procs.getD i defaultProc) ∧
    (st.procs.getD i defaultProc).stepIdx < w.base_sequence.length
  act_matches : ∀ e ∈ st.fel, ActMatches w st e
  tok_count : ∀ i, i < st.procs.length →
    pidCount st i =
      (if (st.procs.getD i defaultProc).phase = ProcPhase.finished
       then 0 else 1)
  steps_resolvable : ∀ i, i < st.procs.length →
    ∀ k, k < (st.procs.getD i defaultProc).stepIdx →
      ∃ step, w.base_sequence.get? k = some step ∧
        (findOp w step.operation_id).isSome
  finished_idx : ∀ i, i < st.procs.length →
    (st.procs.getD i defaultProc).phase = ProcPhase.finished →
    (st.procs.getD i defaultProc).stepIdx = w.base_sequence.length
  proc_sid : ∀ i, i < st.procs.length →
    (st.procs.getD i defaultProc).sample_id = sampleIdOf i
  start_mem : ∀ k, (alookup st.sample_start_times k).isSome ↔
    ∃ i, i < st.procs.length ∧
      (st.procs.getD i defaultProc).phase ≠ ProcPhase.entering ∧
      k = sampleIdOf i
  end_mem : ∀ k, (alookup st.sample_end_times k).isSome ↔
    ∃ i, i < st.procs.length ∧
      (st.procs.getD i defaultProc).phase = ProcPhase.finished ∧
      k = sampleIdOf i
  end_keys_nodup : (st.sample_end_times.map Prod.fst).Nodup
  log_dur_nonneg : ∀ ev ∈ st.event_log, 0 ≤ ev.duration
  util_bound : ∀ d r, (d, r) ∈ st.resources →
    busySum st.event_log d + execSum st.clock st.procs d ≤
      (r.capacity : ℚ) * st.clock

/-- The invariant at the two points where a sample-process is between
steps (right before `advanceProc` runs for process `i`): process `i`
holds no pending token and is not counted against any resource, and all
other clauses of `EngInv` hold with `i` masked out. -/
structure MidInv (w : Workflow) (st : EngineState) (i : ℕ) : Prop where
  hi : i < st.procs.length
  res_keys_nodup : (st.resources.map Prod.fst).Nodup
  res_cover : ∀ dev ∈ w.devices,
    (alookup st.resources dev.device_id).isSome
  res_entries : ∀ d r, (d, r) ∈ st.resources →
    ∃ dev ∈ w.devices, d = dev.device_id ∧
      r.capacity = dev.resource_capacity
  res_cap_pos : ∀ d r, (d, r) ∈ st.resources → 1 ≤ r.capacity
  res_users_le : ∀ d r, (d, r) ∈ st.resources → r.users ≤ r.capacity
  res_queue_full : ∀ d r, (d, r) ∈ st.resources → r.queue ≠ [] →
    r.users = r.capacity
  res_users_eq : ∀ d r, (d, r) ∈ st.resources →
    r.users = activeCount (st.procs.set i defaultProc) d
  queue_elems : ∀ d r, (d, r) ∈ st.resources → ∀ j ∈ r.queue,
    j ≠ i ∧ j < st.procs.length ∧
    (st.procs.getD j defaultProc).phase = ProcPhase.queued ∧
    (st.procs.getD j defaultProc).cur_op.device_id = d ∧
    (st.procs.getD j defaultProc).queue_start ≤ st.clock ∧
    StepOk w (st.procs.getD j defaultProc) ∧
    (st.procs.getD j defaultProc).stepIdx < w.base_sequence.length
  act_matches : ∀ e ∈ st.fel, actPid e.act ≠ i ∧ ActMatches w st e
  tok_i : pidCount st i = 0
  tok_m : ∀ j, j < st.procs.length → j ≠ i →
    pidCount st j =
      (if (st.procs.getD j defaultProc).phase = ProcPhase.finished
       then 0 else 1)
  steps_resolvable : ∀ j, j < st.procs.length →
    ∀ k, k < (st.procs.getD j defaultProc).stepIdx →
      ∃ step, w.base_sequence.get? k = some step ∧
        (findOp w step.operation_id).isSome
  step_le : (st.procs.getD i defaultProc).stepIdx ≤ w.base_sequence.length
  finished_m : ∀ j, j < st.procs.length → j ≠ i →
    (st.procs.getD j defaultProc).phase = ProcPhase.finished →
    (st.procs.getD j defaultProc).stepIdx = w.base_sequence.length
  proc_sid : ∀ j, j < st.procs.length →
    (st.procs.getD j defaultProc).sample_id = sampleIdOf j
  start_mem : ∀ k, (alookup st.sample_start_times k).isSome ↔
    (k = sampleIdOf i ∨
      ∃ j, j < st.procs.length ∧ j ≠ i ∧
        (st.procs.getD j defaultProc).phase ≠ ProcPhase.entering ∧
        k = sampleIdOf j)
  end_mem : ∀ k, (alookup st.sample_end_times k).isSome ↔
    ∃ j, j < st.procs.length ∧ j ≠ i ∧
      (st.procs.getD j defaultProc).phase = ProcPhase.finished ∧
      k = sampleIdOf j
  end_keys_nodup : (st.sample_end_times.map Prod.fst).Nodup
  log_dur_nonneg : ∀ ev ∈ st.event_log, 0 ≤ ev.duration
  util_bound : ∀ d r, (d, r) ∈ st.resources →
    busySum st.event_log d +
      execSum st.clock (st.procs.set i defaultProc) d ≤
      (r.capacity : ℚ) * st.clock

/-- Token weight of a process that still has `S - idx` steps to run. -/
def tokW (S idx : ℕ) : ℕ := 2 * (S - idx)

/-- Weight of a pending activation (strictly decreasing along each
process's lifecycle). -/
def actW (S : ℕ) (procs : List ProcState) : Activation → ℕ
  | Activation.init i => tokW S (procs.getD i defaultProc).stepIdx + 2
  | Activation.entered i => tokW S (procs.getD i defaultProc).stepIdx + 1
  | Activation.acquired i => tokW S (procs.getD i defaultProc).stepIdx
  | Activation.opDone i => tokW S (procs.getD i defaultProc).stepIdx - 1

/-- The termination measure: total weight of all pending tokens.  Every
loop iteration strictly decreases it. -/
def Phi (w : Workflow) (st : EngineState) : ℕ :=
  (st.fel.map (fun e => actW w.base_sequence.length st.procs e.act)).sum +
    (st.resources.map (fun dr =>
      (dr.2.queue.map (fun i =>
        tokW w.base_sequence.length
          (st.procs.getD i defaultProc).stepIdx)).sum)).sum

/-- Tokens of process `i` pending in a future-event list. -/
def felTokens (fel : List FelEntry) (i : ℕ) : ℕ :=
  (fel.map (fun e => actPid e.act)).count i

/-- Tokens of process `i` sitting in resource queues. -/
def queueTokens (res : List (String × ResourceState)) (i : ℕ) : ℕ :=
  (res.map (fun dr => dr.2.queue.count i)).sum

/-- Total weight of the pending activations of a future-event list. -/
def felW (S : ℕ) (procs : List ProcState) (fel : List FelEntry) : ℕ :=
  (fel.map (fun e => actW S procs e.act)).sum

/-- Total weight of the queued requests of a resource table. -/
def queueW (S : ℕ) (procs : List ProcState)
    (res : List (String × ResourceState)) : ℕ :=
  (res.map (fun dr =>
    (dr.2.queue.map (fun i =>
      tokW S (procs.getD i defaultProc).stepIdx)).sum)).sum

/-- Indicator of a process holding device `d` (granted or executing). -/
def activeInd (d : String) (p : ProcState) : ℕ :=
  if (p.phase = ProcPhase.granted ∨ p.phase = ProcPhase.executing) ∧
      p.cur_op.device_id = d then 1 else 0

/-- Indicator of a process executing on device `d`. -/
def execInd (d : String) (p : ProcState) : ℕ :=
  if p.phase = ProcPhase.executing ∧ p.cur_op.device_id = d then 1 else 0

/-- Busy time accrued on `d` so far by one process at clock `c`. -/
def execAcc (c : ℚ) (d : String) (p : ProcState) : ℚ :=
  if p.phase = ProcPhase.executing ∧ p.cur_op.device_id = d then
    c - (p.queue_start + p.wait_time)
  else 0

/-- Validity of a timing spec, as the upstream workflow validator
enforces it (`_validate_timing_models`). -/
def TimingValid : TimingModel → Prop
  | TimingModel.fixed v => 0 ≤ v
  | TimingModel.triangular mn md mx => 0 ≤ mn ∧ mn ≤ md ∧ md ≤ mx
  | TimingModel.exponential m => 0 < m
  | TimingModel.unsupported _ => False

/-- A workflow that passed the upstream validator: every sequence step
resolves to an operation, every operation's device exists, capacities
are positive, timing specs are valid, and device ids are unique. -/
def WfWorkflow (w : Workflow) : Prop :=
  (∀ step ∈ w.base_sequence, (findOp w step.operation_id).isSome) ∧
  (∀ op ∈ w.operations, ∃ dev ∈ w.devices, dev.device_id = op.device_id) ∧
  (∀ dev ∈ w.devices, 1 ≤ dev.resource_capacity) ∧
  (∀ op ∈ w.operations, TimingValid op.timing) ∧
  (w.devices.map Device.device_id).Nodup

/-- The process record the engine creates for sample `i`. -/
def initProc (i : ℕ) : ProcState :=
  { sample_id := sampleIdOf i, entry_time := 0, stepIdx := 0,
    queue_start := 0, wait_time := 0, duration := 0, cur_opid := "",
    cur_op := defaultOperation, phase := ProcPhase.entering }

/-- Decimal parser folding over characters; leading `'0'`s contribute
nothing, so it is a left inverse of zero-padded decimal printing. -/
def unDigits (l : List Char) : ℕ :=
  l.foldl (fun a c => a * 10 + (c.toNat - 48)) 0

/-- Time coherence: the clock is non-negative; the future-event list is
sorted by time and never earlier than the clock; the event log is
ordered by timestamp and never later than the clock. -/
def TimeInv (st : EngineState) : Prop :=
  0 ≤ st.clock ∧
  st.fel.Pairwise (fun a b => a.time ≤ b.time) ∧
  (∀ e ∈ st.fel, st.clock ≤ e.time) ∧
  st.event_log.Pairwise (fun a b => a.timestamp ≤ b.timestamp) ∧
  ∀ ev ∈ st.event_log, ev.timestamp ≤ st.clock

/-- The event log of the design document's end-to-end example (one
sample through one fixed-10s operation). -/
def exRunEvents : List SimulationEvent :=
  [{ timestamp := 0, event_type := "QUEUED", sample_id := "SAMPLE_000",
     operation_id := "OP1", device_id := "DEV1", duration := 0,
     wait_time := 0, device_queue_length := 0, notes := "" },
   { timestamp := 0, event_type := "START", sample_id := "SAMPLE_000",
     operation_id := "OP1", device_id := "DEV1", duration := 0,
     wait_time := 0, device_queue_length := 0, notes := "" },
   { timestamp := 10, event_type := "COMPLETE", sample_id := "SAMPLE_000",
     operation_id := "OP1", device_id := "DEV1", duration := 10,
     wait_time := 0, device_queue_length := 0, notes := "" }]

/-- The summary of the same example run. -/
def exRunSummary : SimulationSummary :=
  { total_simulation_time := 10, num_samples_completed := 1,
    num_samples_failed := 0, device_utilization := [("DEV1", 1)],
    device_queue_stats := [("DEV1", {})],
    operation_stats := [("OP1",
      { mean_duration := 10, stdev_sq_duration := 0, min_duration := 10,
        max_duration := 10, median_duration := 10, sample_count := 1 })],
    operation_wait_times := [("OP1", {})],
    total_throughput := 1 / 10, mean_sample_cycle_time := 10,
    min_sample_cycle_time := 10, max_sample_cycle_time := 10,
    bottleneck_device := "DEV1", bottleneck_utilization := 1,
    bottleneck_queue_delay := 0 }

/-! ## Theorems

First a toolbox of lemmas about the dict model, the `max` models and
the summary constructor, shared by the claim theorems below. -/

theorem alookup_append {α : Type} (l1 l2 : List (String × α)) (k : String) :
    alookup (l1 ++ l2) k =
      match alookup l1 k with
      | some v => some v
      | none => alookup l2 k := by
  induction l1 with
  | nil => rfl
  | cons p rest ih =>
      by_cases hk : p.1 = k
      · simp [alookup, hk]
      · simpa [alookup, hk] using ih

theorem alookup_eq_none {α : Type} (l : List (String × α)) (k : String) :
    alookup l k = none ↔ k ∉ l.map Prod.fst := by
  induction l with
  | nil => simp [alookup]
  | cons p rest ih =>
      by_cases hk : p.1 = k
      · simp [alookup, hk]
      · simp [alookup, hk, ih, Ne.symm hk]

theorem aset_of_not_mem {α : Type} (l : List (String × α)) (k : String)
    (v : α) (h : k ∉ l.map Prod.fst) : aset l k v = l ++ [(k, v)] := by
  induction l with
  | nil => rfl
  | cons p rest ih =>
      simp only [List.map_cons, List.mem_cons, not_or] at h
      simp [aset, Ne.symm h.1, ih h.2]

theorem foldl_aset_acc {β : Type} (key : β → String) (val : β → α)
    (l : List β) (acc : List (String × α))
    (hdisj : ∀ d ∈ l, key d ∉ acc.map Prod.fst)
    (hn : (l.map key).Nodup) :
    l.foldl (fun a d => aset a (key d) (val d)) acc =
      acc ++ l.map (fun d => (key d, val d)) := by
  induction l generalizing acc with
  | nil => simp
  | cons d rest ih =>
      simp only [List.map_cons, List.nodup_cons] at hn
      rw [List.foldl_cons,
        aset_of_not_mem acc (key d) (val d) (hdisj d (List.mem_cons_self d rest)),
        ih (acc ++ [(key d, val d)]) ?_ hn.2]
      · simp
      · intro d2 hd2
        simp only [List.map_append, List.mem_append, List.map_cons,
          List.map_nil, List.mem_singleton, not_or]
        refine ⟨hdisj d2 (List.mem_cons_of_mem d hd2), ?_⟩
        intro hcontra
        exact hn.1 (hcontra ▸ List.mem_map_of_mem key hd2)

theorem foldl_aset_eq_map {β : Type} (key : β → String) (val : β → α)
    (l : List β) (hn : (l.map key).Nodup) :
    l.foldl (fun a d => aset a (key d) (val d)) [] =
      l.map (fun d => (key d, val d)) := by
  simpa using foldl_aset_acc key val l [] (by simp) hn

theorem alookup_of_mem_nodup {α : Type} (l : List (String × α))
    (k : String) (v : α) (h : (k, v) ∈ l)
    (hn : (l.map Prod.fst).Nodup) : alookup l k = some v := by
  induction l with
  | nil => simp at h
  | cons p rest ih =>
      simp only [List.map_cons, List.nodup_cons] at hn
      rcases List.mem_cons.mp h with h1 | h1
      · simp [alookup, ← h1]
      · have hkp : p.1 ≠ k := by
          intro hc
          exact hn.1 (hc ▸ (List.mem_map_of_mem Prod.fst h1))
        simp [alookup, hkp, ih h1 hn.2]

/-- The accumulator characterization of Python's
`max(..., key=lambda x: x[1])`: the result is either the starting value
(when nothing beats it strictly) or the first element that strictly
exceeds everything before it and is not strictly exceeded after. -/
theorem pymax_fold (rest : List (String × ℚ)) (best r : String × ℚ)
    (hr : rest.foldl (fun b q => if q.2 > b.2 then q else b) best = r) :
    (r = best ∧ ∀ q ∈ rest, q.2 ≤ best.2) ∨
    (best.2 < r.2 ∧ ∃ l1 l2, rest = l1 ++ r :: l2 ∧
      (∀ q ∈ l1, q.2 < r.2) ∧ (∀ q ∈ l2, q.2 ≤ r.2)) := by
  induction rest generalizing best with
  | nil => exact Or.inl ⟨hr.symm, by simp⟩
  | cons q rest ih =>
      rw [List.foldl_cons] at hr
      by_cases hq : q.2 > best.2
      · rw [if_pos hq] at hr
        rcases ih q hr with ⟨heq, hall⟩ | ⟨hlt, l1, l2, hsplit, hpre, hsuf⟩
        · refine Or.inr ⟨?_, [], rest, by simp [heq], by simp, ?_⟩
          · rw [heq]; exact hq
          · intro x hx
            rw [heq]
            exact hall x hx
        · refine Or.inr ⟨lt_trans hq hlt, q :: l1, l2, by simp [hsplit], ?_,
            hsuf⟩
          intro x hx
          rcases List.mem_cons.mp hx with h2 | h2
          · rw [h2]; exact hlt
          · exact hpre x h2
      · rw [if_neg hq] at hr
        rcases ih best hr with ⟨heq, hall⟩ | ⟨hlt, l1, l2, hsplit, hpre, hsuf⟩
        · refine Or.inl ⟨heq, ?_⟩
          intro x hx
          rcases List.mem_cons.mp hx with h2 | h2
          · rw [h2]; exact le_of_not_lt hq
          · exact hall x h2
        · refine Or.inr ⟨hlt, q :: l1, l2, by simp [hsplit], ?_, hsuf⟩
          intro x hx
          rcases List.mem_cons.mp hx with h2 | h2
          · rw [h2]; exact lt_of_le_of_lt (le_of_not_lt hq) hlt
          · exact hpre x h2

/-- `max(items, key=...)` returns the first maximal item: everything
before it in the list is strictly smaller, everything after is no
larger. -/
theorem pyMaxByVal_first_max (l : List (String × ℚ)) (r : String × ℚ)
    (h : pyMaxByVal l = some r) :
    ∃ l1 l2, l = l1 ++ r :: l2 ∧ (∀ q ∈ l1, q.2 < r.2) ∧
      ∀ q ∈ l2, q.2 ≤ r.2 := by
  match l with
  | [] => exact absurd h (by simp [pyMaxByVal])
  | p :: rest =>
    have hr : rest.foldl (fun b q => if q.2 > b.2 then q else b) p = r := by
      simpa [pyMaxByVal] using h
    rcases pymax_fold rest p r hr with ⟨heq, hall⟩ |
        ⟨hlt, l1, l2, hsplit, hpre, hsuf⟩
    · refine ⟨[], rest, by simp [heq], by simp, ?_⟩
      intro q hq
      rw [heq]
      exact hall q hq
    · refine ⟨p :: l1, l2, by simp [hsplit], ?_, hsuf⟩
      intro q hq
      rcases List.mem_cons.mp hq with h2 | h2
      · rw [h2]; exact hlt
      · exact hpre q h2

theorem mkSimulationSummary_ok_eq (x s : SimulationSummary)
    (hok : mkSimulationSummary x = Except.ok s) : s = x := by
  unfold mkSimulationSummary at hok
  split_ifs at hok
  rcases hf : x.device_utilization.find?
      (fun p => ¬ (0 ≤ p.2 ∧ p.2 ≤ 1)) with _ | q
  · rw [hf] at hok
    injection hok with h2
    exact h2.symm
  · rw [hf] at hok
    exact absurd hok (by simp)

theorem mkSimulationSummary_eq_ok_self (x : SimulationSummary)
    (h1 : ¬ x.total_simulation_time < 0)
    (h2 : ¬ x.num_samples_completed < 0)
    (h3 : ¬ x.num_samples_failed < 0)
    (h4 : ¬ x.total_throughput < 0)
    (h5 : x.device_utilization.find?
      (fun p => ¬ (0 ≤ p.2 ∧ p.2 ≤ 1)) = none) :
    mkSimulationSummary x = Except.ok x := by
  unfold mkSimulationSummary
  rw [if_neg h1, if_neg h2, if_neg h3, if_neg h4, h5]

/-- C2: for every seed `n`, any two runs that call `set_seed(n)` and
then draw through the same sequence of distribution specs obtain the
identical value sequence (and identical final generator state),
whatever generator state either run had beforehand. -/
theorem seeded_stream_deterministic (g1 g2 : Rng) (n : ℕ)
    (specs : List TimingModel) :
    sample_seq specs (set_random_seed g1 n) =
      sample_seq specs (set_random_seed g2 n) := rfl

/-- C7: the triangular sampler errors whenever some parameter is
negative or `min <= mode <= max` fails; under valid parameters with
`min = max` it returns exactly `min` and leaves the generator untouched
(no random draw). -/
theorem triangular_validation_and_degenerate
    (min_val mode max_val : ℚ) (g : Rng) :
    ((min_val < 0 ∨ mode < 0 ∨ max_val < 0 ∨
        ¬ (min_val ≤ mode ∧ mode ≤ max_val)) →
      ∃ e, sample_triangular min_val mode max_val g = Except.error e) ∧
    (0 ≤ min_val → min_val ≤ mode → mode ≤ max_val → min_val = max_val →
      sample_triangular min_val mode max_val g = Except.ok (min_val, g)) := by
  constructor
  · intro h
    rcases hr : sample_triangular min_val mode max_val g with e | v
    · exact ⟨e, rfl⟩
    · exfalso
      unfold sample_triangular at hr
      split_ifs at hr with h1 h2 h3 h4 h5 <;>
        first | exact Except.noConfusion hr | tauto
  · intro h0 hm1 hm2 heq
    unfold sample_triangular
    rw [if_neg (by linarith), if_neg (by linarith), if_neg (by linarith),
      if_neg (not_not_intro ⟨hm1, hm2⟩), if_pos heq]

/-- Witness for C7 at concrete inputs: a negative `min` errors, and the
degenerate `min = mode = max = 2` case returns 2 with the generator
state unchanged. -/
theorem triangular_validation_and_degenerate_witness :
    (∃ e, sample_triangular (-1) 0 5 ⟨0⟩ = Except.error e) ∧
    sample_triangular 2 2 2 ⟨7⟩ = Except.ok (2, ⟨7⟩) :=
  ⟨(triangular_validation_and_degenerate (-1) 0 5 ⟨0⟩).1
      (Or.inl (by norm_num)),
    (triangular_validation_and_degenerate 2 2 2 ⟨7⟩).2
      (by norm_num) (le_refl 2) (le_refl 2) rfl⟩

/-- C5: constructing a `SimulationSummary` whose device-utilization map
contains a value outside `[0, 1]` raises; and a successful construction
returns the summary exactly as given — nothing is clamped. -/
theorem summary_rejects_bad_utilization (s : SimulationSummary) :
    ((∃ p ∈ s.device_utilization, p.2 < 0 ∨ 1 < p.2) →
      ∃ e, mkSimulationSummary s = Except.error e) ∧
    (∀ s2, mkSimulationSummary s = Except.ok s2 → s2 = s) := by
  constructor
  · intro h
    rcases hr : mkSimulationSummary s with e | s2
    · exact ⟨e, rfl⟩
    · exfalso
      obtain ⟨p, hp, hbad⟩ := h
      unfold mkSimulationSummary at hr
      split_ifs at hr
      rcases hf : s.device_utilization.find?
          (fun p => ¬ (0 ≤ p.2 ∧ p.2 ≤ 1)) with _ | q
      · have hall := List.find?_eq_none.mp hf p hp
        simp only [decide_eq_true_eq, not_not] at hall
        rcases hbad with hb | hb
        · exact absurd hall.1 (not_le.mpr hb)
        · exact absurd hall.2 (not_le.mpr hb)
      · rw [hf] at hr
        simp at hr
  · exact fun s2 => mkSimulationSummary_ok_eq s s2

/-- Witness for C5: a summary with utilization `3/2` is rejected. -/
theorem summary_rejects_bad_utilization_witness :
    ∃ e, mkSimulationSummary badSummary = Except.error e :=
  (summary_rejects_bad_utilization badSummary).1
    ⟨("DEV1", 3 / 2), by simp [badSummary], Or.inr (by norm_num)⟩

/-- C1 (counterexample): with pattern type `single` and `num_samples: 3`
the engine creates and completes three sample-processes — it does not
create exactly one sample regardless of `num_samples`. -/
theorem single_pattern_ignores_num_samples_counterexample :
    (run wfOneOp scSingle3 ⟨0⟩).map
        (fun r => (r.2.num_samples_completed,
          (r.1.map (fun e => e.sample_id)).dedup)) =
      Except.ok (3, ["SAMPLE_000", "SAMPLE_001", "SAMPLE_002"]) := by
  with_unfolding_all rfl

/-- C1 (amended): for pattern types `single` and `synchronized` alike,
the engine creates `num_samples` (defaulting to 1 when absent)
sample-processes, each entering at time 0 — so `single` yields exactly
one sample only when `num_samples` is 1 or absent, which the upstream
scenario validator enforces; any other pattern type is a fatal error. -/
theorem entry_times_of_supported_patterns (sc : Scenario)
    (h : sc.sample_entry_pattern.pattern_type = "single" ∨
      sc.sample_entry_pattern.pattern_type = "synchronized") :
    ∃ l, computeEntryTimes sc = Except.ok l ∧
      l.length = sc.sample_entry_pattern.num_samples.getD 1 ∧
      ∀ q ∈ l, q.2 = 0 := by
  refine ⟨(List.range (sc.sample_entry_pattern.num_samples.getD 1)).map
    (fun i => (sampleIdOf i, (0 : ℚ))), ?_, ?_, ?_⟩
  · unfold computeEntryTimes
    rw [if_pos h.symm]
  · simp
  · intro q hq
    simp only [List.mem_map, List.mem_range] at hq
    obtain ⟨i, _, rfl⟩ := hq
    rfl

/-- Witness for the amended C1 at the `single` scenario with
`num_samples = 1`. -/
theorem entry_times_of_supported_patterns_witness :
    ∃ l, computeEntryTimes scSingle = Except.ok l ∧
      l.length = scSingle.sample_entry_pattern.num_samples.getD 1 ∧
      ∀ q ∈ l, q.2 = 0 :=
  entry_times_of_supported_patterns scSingle (Or.inl rfl)

/-- C9: a `max_simulation_time` equal to 0 is falsy in `if max_time:`,
so the engine runs with no time limit — the whole run behaves exactly
as if no cutoff had been configured. -/
theorem zero_max_time_means_no_limit (w : Workflow) (sc : Scenario)
    (g0 : Rng)
    (h : sc.simulation_config.max_simulation_time = some 0) :
    run w sc g0 =
      run w { sc with simulation_config :=
        { sc.simulation_config with max_simulation_time := none } } g0 := by
  obtain ⟨sid, wid, pat, cfg⟩ := sc
  obtain ⟨rs, mst⟩ := cfg
  simp only at h
  subst h
  with_unfolding_all rfl

/-- Witness for C9 at a concrete scenario with `max_simulation_time = 0`
(the two runs are literally the same value). -/
theorem zero_max_time_means_no_limit_witness :
    run wfOneOp scSingleZeroCut ⟨0⟩ =
      run wfOneOp { scSingleZeroCut with simulation_config :=
        { scSingleZeroCut.simulation_config with
          max_simulation_time := none } } ⟨0⟩ :=
  zero_max_time_means_no_limit wfOneOp scSingleZeroCut ⟨0⟩ rfl

/-- C6: the per-device queue statistics are computed only over that
device's `START` events with `wait_time > 0`: appending a zero-wait
`START` event leaves them untouched, while a positive-wait `START`
event is counted (incrementing `queue_events` and adding its wait to
`total_queue_time`). -/
theorem queue_stats_exclude_zero_wait (log : List SimulationEvent)
    (device_id : String) (ev : SimulationEvent)
    (hty : ev.event_type = "START") (hdev : ev.device_id = device_id) :
    (ev.wait_time = 0 →
      deviceQueueStatsFor (log ++ [ev]) device_id =
        deviceQueueStatsFor log device_id) ∧
    (0 < ev.wait_time →
      (deviceQueueStatsFor (log ++ [ev]) device_id).queue_events =
        (deviceQueueStatsFor log device_id).queue_events + 1 ∧
      (deviceQueueStatsFor (log ++ [ev]) device_id).total_queue_time =
        (deviceQueueStatsFor log device_id).total_queue_time +
          ev.wait_time) := by
  constructor
  · intro h0
    unfold deviceQueueStatsFor
    simp [List.filter_append, hty, hdev, h0]
  · intro hpos
    unfold deviceQueueStatsFor
    simp [List.filter_append, hty, hdev, hpos, ne_of_gt hpos]

/-- Witness for C6: a zero-wait `START` event leaves the stats of a
one-event log unchanged. -/
theorem queue_stats_exclude_zero_wait_witness :
    deviceQueueStatsFor ([startEvWait5] ++ [startEvWait0]) ("DEV1") =
      deviceQueueStatsFor [startEvWait5] ("DEV1") :=
  (queue_stats_exclude_zero_wait [startEvWait5] ("DEV1") startEvWait0
    rfl rfl).1 rfl

/-- C8: the summary's device-utilization map lists the workflow's
devices in list order; `bottleneck_device` is the first device attaining
the maximal utilization (strictly greater than everything before it, no
smaller than anything after), `bottleneck_utilization` is its
utilization, and `bottleneck_queue_delay` is its average queue time;
with zero devices the bottleneck fields default to `""`/`0`/`0` and the
aggregation still succeeds. -/
theorem bottleneck_is_first_max (w : Workflow) (st : EngineState)
    (hn : (w.devices.map Device.device_id).Nodup) :
    (w.devices = [] → 0 ≤ st.clock →
      ∃ s, computeSummary w st = Except.ok s ∧
        s.bottleneck_device = "" ∧ s.bottleneck_utilization = 0 ∧
        s.bottleneck_queue_delay = 0) ∧
    (∀ s, computeSummary w st = Except.ok s →
      s.device_utilization = w.devices.map (fun d => (d.device_id,
        deviceUtilizationFor st.event_log d.device_id d.resource_capacity
          st.clock)) ∧
      (w.devices ≠ [] →
        ∃ l1 l2 du,
          s.device_utilization =
            l1 ++ (s.bottleneck_device, du) :: l2 ∧
          s.bottleneck_utilization = du ∧
          (∀ q ∈ l1, q.2 < du) ∧ (∀ q ∈ l2, q.2 ≤ du) ∧
          s.bottleneck_queue_delay =
            (deviceQueueStatsFor st.event_log
              s.bottleneck_device).avg_queue_time)) := by
  constructor
  · intro hdev hclock
    obtain ⟨wid, devs, ops, seq⟩ := w
    simp only at hdev
    subst hdev
    unfold computeSummary
    refine ⟨_, mkSimulationSummary_eq_ok_self _ ?_ ?_ ?_ ?_ ?_, rfl, rfl, rfl⟩
    · exact not_lt.mpr hclock
    · exact not_lt.mpr (Int.ofNat_nonneg _)
    · exact not_lt.mpr (le_refl 0)
    · refine not_lt.mpr ?_
      show (0 : ℚ) ≤ if st.clock > 0 then
        (((st.sample_end_times.length : ℤ) : ℚ)) / st.clock else 0
      split_ifs with hpos
      · exact div_nonneg (by positivity) (le_of_lt hpos)
      · exact le_refl 0
    · rfl
  · intro s hs
    unfold computeSummary at hs
    have hsr := mkSimulationSummary_ok_eq _ _ hs
    subst hsr
    have hdu : (w.devices.foldl
        (fun acc d => aset acc d.device_id
          (deviceUtilizationFor st.event_log d.device_id d.resource_capacity
            st.clock)) []) =
        w.devices.map (fun d => (d.device_id,
          deviceUtilizationFor st.event_log d.device_id d.resource_capacity
            st.clock)) :=
      foldl_aset_eq_map _ _ _ hn
    have hdq : (w.devices.foldl
        (fun acc d => aset acc d.device_id
          (deviceQueueStatsFor st.event_log d.device_id)) []) =
        w.devices.map (fun d => (d.device_id,
          deviceQueueStatsFor st.event_log d.device_id)) :=
      foldl_aset_eq_map _ _ _ hn
    refine ⟨by simpa using hdu, ?_⟩
    intro hne
    rcases hbn : pyMaxByVal (w.devices.foldl
        (fun acc d => aset acc d.device_id
          (deviceUtilizationFor st.event_log d.device_id d.resource_capacity
            st.clock)) []) with _ | r
    · exfalso
      rw [hdu] at hbn
      rcases hd : w.devices with _ | ⟨d, rest⟩
      · exact hne hd
      · rw [hd] at hbn
        simp [pyMaxByVal] at hbn
    · obtain ⟨l1, l2, hsplit, hpre, hsuf⟩ := pyMaxByVal_first_max _ _ hbn
      refine ⟨l1, l2, r.2, ?_, ?_, hpre, hsuf, ?_⟩
      · simp only [hbn]
        exact hsplit
      · simp only [hbn]
      · simp only [hbn]
        have hr_mem : r ∈ w.devices.map (fun d => (d.device_id,
            deviceUtilizationFor st.event_log d.device_id d.resource_capacity
              st.clock)) := by
          rw [← hdu, hsplit]
          exact List.mem_append_right _ (List.mem_cons_self _ _)
        obtain ⟨d, hd_mem, hd_eq⟩ := List.mem_map.mp hr_mem
        have hkey : r.1 = d.device_id := by rw [← hd_eq]
        have hpair : (r.1, deviceQueueStatsFor st.event_log r.1) ∈
            w.devices.map (fun d => (d.device_id,
              deviceQueueStatsFor st.event_log d.device_id)) := by
          rw [hkey]
          exact List.mem_map_of_mem _ hd_mem
        have hlook := alookup_of_mem_nodup _ _ _
          (by rw [← hdq] at hpair; exact hpair)
          (by rw [hdq, List.map_map]
              simpa [Function.comp] using hn)
        rw [hlook]
        rfl

/-- Witness for C8 at a one-device run state: the empty-devices default
case instantiated with an empty workflow, via the theorem itself. -/
theorem bottleneck_is_first_max_witness :
    ∃ s, computeSummary
        { workflow_id := "W0", devices := [], operations := [],
          base_sequence := [] }
        { clock := 0, seqCounter := 0, fel := [], resources := [],
          procs := [], event_log := [], sample_start_times := [],
          sample_end_times := [], rng := ⟨0⟩ } = Except.ok s ∧
      s.bottleneck_device = "" ∧ s.bottleneck_utilization = 0 ∧
      s.bottleneck_queue_delay = 0 :=
  (bottleneck_is_first_max
    { workflow_id := "W0", devices := [], operations := [],
      base_sequence := [] }
    { clock := 0, seqCounter := 0, fel := [], resources := [],
      procs := [], event_log := [], sample_start_times := [],
      sample_end_times := [], rng := ⟨0⟩ }
    (by simp)).1 rfl (le_refl 0)

/-! ### Time coherence of the scheduler (toward the log-monotonicity
claim): every helper of the engine preserves `TimeInv`, the run loop
only ever advances the clock, and events are stamped with the clock. -/

theorem mem_felInsert (x e : FelEntry) (l : List FelEntry) :
    x ∈ felInsert e l ↔ x = e ∨ x ∈ l := by
  induction l with
  | nil => simp [felInsert]
  | cons f rest ih =>
      by_cases hf : f.time ≤ e.time
      · simp only [felInsert, if_pos hf, List.mem_cons, ih]
        try tauto
      · simp only [felInsert, if_neg hf, List.mem_cons]
        try tauto

theorem felInsert_pairwise (e : FelEntry) (l : List FelEntry)
    (hl : l.Pairwise (fun a b => a.time ≤ b.time)) :
    (felInsert e l).Pairwise (fun a b => a.time ≤ b.time) := by
  induction l with
  | nil => simp [felInsert]
  | cons f rest ih =>
      rcases List.pairwise_cons.mp hl with ⟨hf_rest, hrest⟩
      by_cases hf : f.time ≤ e.time
      · rw [felInsert, if_pos hf]
        refine List.pairwise_cons.mpr ⟨?_, ih hrest⟩
        intro x hx
        rcases (mem_felInsert x e rest).mp hx with h2 | h2
        · rw [h2]; exact hf
        · exact hf_rest x h2
      · rw [felInsert, if_neg hf]
        refine List.pairwise_cons.mpr ⟨?_, hl⟩
        intro x hx
        rcases List.mem_cons.mp hx with h2 | h2
        · rw [h2]; exact le_of_lt (lt_of_not_le hf)
        · exact le_trans (le_of_lt (lt_of_not_le hf)) (hf_rest x h2)

theorem pairwise_of_total {α : Type} {R : α → α → Prop}
    (h : ∀ a b, R a b) (l : List α) : l.Pairwise R := by
  induction l with
  | nil => exact List.Pairwise.nil
  | cons a rest ih => exact List.Pairwise.cons (fun b _ => h a b) ih

/-- A successful event construction returns exactly the record built
from the arguments. -/
theorem mkSimulationEvent_ok_eq (t : ℚ) (ty sid oid did : String)
    (du wt : ℚ) (ql : ℤ) (no : String) (ev : SimulationEvent)
    (h : mkSimulationEvent t ty sid oid did du wt ql no = Except.ok ev) :
    ev = { timestamp := t, event_type := ty, sample_id := sid,
           operation_id := oid, device_id := did, duration := du,
           wait_time := wt, device_queue_length := ql, notes := no } := by
  unfold mkSimulationEvent at h
  split_ifs at h
  injection h with h2
  exact h2.symm

theorem TimeInv_pushEvent (st : EngineState) (ev : SimulationEvent)
    (h : TimeInv st) (hts : ev.timestamp = st.clock) :
    TimeInv (pushEvent st ev) := by
  obtain ⟨h0, h1, h2, h3, h4⟩ := h
  refine ⟨h0, h1, h2, ?_, ?_⟩
  · refine List.pairwise_append.mpr ⟨h3, List.pairwise_singleton _ _, ?_⟩
    intro a ha b hb
    rw [List.mem_singleton.mp hb, hts]
    exact h4 a ha
  · intro x hx
    rcases List.mem_append.mp hx with h5 | h5
    · exact h4 x h5
    · rw [List.mem_singleton.mp h5, hts]
      exact le_refl _

theorem TimeInv_schedule (st : EngineState) (t : ℚ) (a : Activation)
    (h : TimeInv st) (ht : st.clock ≤ t) : TimeInv (schedule st t a) := by
  obtain ⟨h0, h1, h2, h3, h4⟩ := h
  refine ⟨h0, felInsert_pairwise _ _ h1, ?_, h3, h4⟩
  intro e he
  rcases (mem_felInsert e _ _).mp he with h5 | h5
  · rw [h5]; exact ht
  · exact h2 e h5

theorem beginStep_TimeInv (w : Workflow) (st : EngineState) (pid : ℕ)
    (st2 : EngineState) (hb : beginStep w st pid = Except.ok st2)
    (h : TimeInv st) :
    TimeInv st2 ∧ st2.clock = st.clock := by
  unfold beginStep at hb
  dsimp only at hb
  rcases hstep : w.base_sequence.get? (getProc st pid).stepIdx with _ | step
  · simp only [hstep] at hb
    exact absurd hb (by simp)
  simp only [hstep] at hb
  rcases hop : findOp w step.operation_id with _ | op_def
  · simp only [hop] at hb
    exact absurd hb (by simp)
  simp only [hop] at hb
  rcases hres : alookup st.resources op_def.device_id with _ | res
  · simp only [hres] at hb
    exact absurd hb (by simp)
  simp only [hres] at hb
  rcases hmk : mkSimulationEvent st.clock ("QUEUED")
      (getProc st pid).sample_id step.operation_id op_def.device_id 0 0
      (res.queue.length : ℤ) ("") with e | ev
  · simp only [hmk] at hb
    exact absurd hb (by simp)
  simp only [hmk] at hb
  have hts : ev.timestamp = st.clock := by
    rw [mkSimulationEvent_ok_eq _ _ _ _ _ _ _ _ _ _ hmk]
  have hA : TimeInv (pushEvent st ev) := TimeInv_pushEvent st ev h hts
  by_cases hcap : res.users < res.capacity
  · rw [if_pos hcap] at hb
    injection hb with hb2
    subst hb2
    exact ⟨TimeInv_schedule _ _ _ hA (le_refl _), rfl⟩
  · rw [if_neg hcap] at hb
    injection hb with hb2
    subst hb2
    exact ⟨hA, rfl⟩

theorem advanceProc_TimeInv (w : Workflow) (st : EngineState) (pid : ℕ)
    (st2 : EngineState) (hb : advanceProc w st pid = Except.ok st2)
    (h : TimeInv st) :
    TimeInv st2 ∧ st2.clock = st.clock := by
  unfold advanceProc at hb
  by_cases hlt : (getProc st pid).stepIdx < w.base_sequence.length
  · rw [if_pos hlt] at hb
    exact beginStep_TimeInv w st pid st2 hb h
  · rw [if_neg hlt] at hb
    injection hb with hb2
    subst hb2
    exact ⟨h, rfl⟩

theorem procBegin_TimeInv (w : Workflow) (st : EngineState) (pid : ℕ)
    (st2 : EngineState) (hb : procBegin w st pid = Except.ok st2)
    (h : TimeInv st) :
    TimeInv st2 ∧ st2.clock = st.clock := by
  unfold procBegin at hb
  dsimp only at hb
  have h2 := advanceProc_TimeInv w _ pid st2 hb h
  exact ⟨h2.1, h2.2⟩

theorem handleActivation_TimeInv (w : Workflow) (a : Activation)
    (st st2 : EngineState)
    (hh : handleActivation w a st = Except.ok st2) (h : TimeInv st) :
    TimeInv st2 ∧ st2.clock = st.clock := by
  cases a with
  | init pid =>
      unfold handleActivation at hh
      dsimp only at hh
      by_cases he : (getProc st pid).entry_time > 0
      · rw [if_pos he] at hh
        injection hh with hh2
        subst hh2
        exact ⟨TimeInv_schedule _ _ _ h
          (le_add_of_nonneg_right (le_of_lt he)), rfl⟩
      · rw [if_neg he] at hh
        exact procBegin_TimeInv w st pid st2 hh h
  | entered pid =>
      unfold handleActivation at hh
      exact procBegin_TimeInv w st pid st2 hh h
  | acquired pid =>
      unfold handleActivation at hh
      dsimp only at hh
      rcases hmk : mkSimulationEvent st.clock ("START")
          (getProc st pid).sample_id (getProc st pid).cur_opid
          (getProc st pid).cur_op.device_id 0
          (st.clock - (getProc st pid).queue_start) 0 ("") with e | ev
      · simp only [hmk] at hh
        exact absurd hh (by simp)
      simp only [hmk] at hh
      have hts : ev.timestamp = st.clock := by
        rw [mkSimulationEvent_ok_eq _ _ _ _ _ _ _ _ _ _ hmk]
      have hA : TimeInv (pushEvent st ev) := TimeInv_pushEvent st ev h hts
      rcases hsamp : sample_timing (getProc st pid).cur_op.timing
          (pushEvent st ev).rng with e | vg
      · simp only [hsamp] at hh
        exact absurd hh (by simp)
      obtain ⟨duration, g2⟩ := vg
      simp only [hsamp] at hh
      by_cases hneg : duration < 0
      · rw [if_pos hneg] at hh; exact absurd hh (by simp)
      rw [if_neg hneg] at hh
      injection hh with hh2
      subst hh2
      exact ⟨TimeInv_schedule _ _ _ hA
        (le_add_of_nonneg_right (not_lt.mp hneg)), rfl⟩
  | opDone pid =>
      unfold handleActivation at hh
      dsimp only at hh
      rcases hmk : mkSimulationEvent st.clock ("COMPLETE")
          (getProc st pid).sample_id (getProc st pid).cur_opid
          (getProc st pid).cur_op.device_id (getProc st pid).duration
          (getProc st pid).wait_time 0 ("") with e | ev
      · simp only [hmk] at hh
        exact absurd hh (by simp)
      simp only [hmk] at hh
      have hts : ev.timestamp = st.clock := by
        rw [mkSimulationEvent_ok_eq _ _ _ _ _ _ _ _ _ _ hmk]
      have hA : TimeInv (pushEvent st ev) := TimeInv_pushEvent st ev h hts
      rcases hres : alookup (pushEvent st ev).resources
          (getProc st pid).cur_op.device_id with _ | res
      · simp only [hres] at hh
        exact absurd hh (by simp)
      simp only [hres] at hh
      rcases hq : res.queue with _ | ⟨hd, tl⟩
      · simp only [hq] at hh
        have h2 := advanceProc_TimeInv w _ pid st2 hh hA
        exact ⟨h2.1, h2.2⟩
      · simp only [hq] at hh
        have h2 := advanceProc_TimeInv w _ pid st2 hh
          (TimeInv_schedule _ _ _ hA (le_refl _))
        exact ⟨h2.1, h2.2⟩

theorem runLoop_zero (w : Workflow) (cutoff : Option ℚ)
    (st : EngineState) :
    runLoop w cutoff 0 st =
      Except.error ("internal: fuel exhausted") := rfl

theorem runLoop_succ (w : Workflow) (cutoff : Option ℚ) (fuel : ℕ)
    (st : EngineState) :
    runLoop w cutoff (fuel + 1) st =
      match st.fel with
      | [] =>
          match cutoff with
          | some t => Except.ok { st with clock := t }
          | none => Except.ok st
      | e :: rest =>
          match cutoff with
          | some t =>
              if t ≤ e.time then Except.ok { st with clock := t }
              else
                match handleActivation w e.act
                    { st with clock := e.time, fel := rest } with
                | Except.error msg => Except.error msg
                | Except.ok st2 => runLoop w cutoff fuel st2
          | none =>
              match handleActivation w e.act
                  { st with clock := e.time, fel := rest } with
              | Except.error msg => Except.error msg
              | Except.ok st2 => runLoop w cutoff fuel st2 := rfl

theorem runLoop_log_pairwise (w : Workflow) (cutoff : Option ℚ)
    (fuel : ℕ) : ∀ (st st2 : EngineState), TimeInv st →
    runLoop w cutoff fuel st = Except.ok st2 →
    st2.event_log.Pairwise (fun a b => a.timestamp ≤ b.timestamp) := by
  induction fuel with
  | zero =>
      intro st st2 h hr
      rw [runLoop_zero] at hr
      exact absurd hr (by simp)
  | succ fuel ih =>
      intro st st2 h hr
      obtain ⟨h0, h1, h2, h3, h4⟩ := h
      obtain ⟨clk, sq, fel, res, procs, log, sst, sen, rng⟩ := st
      simp only at h0 h1 h2 h3 h4
      rcases fel with _ | ⟨e, rest⟩
      · rw [runLoop_succ] at hr
        dsimp only at hr
        rcases cutoff with _ | t
        · injection hr with hr2
          subst hr2
          exact h3
        · injection hr with hr2
          subst hr2
          exact h3
      · rw [runLoop_succ] at hr
        dsimp only at hr
        have hinv2 : TimeInv
            { clock := e.time, seqCounter := sq, fel := rest,
              resources := res, procs := procs, event_log := log,
              sample_start_times := sst, sample_end_times := sen,
              rng := rng } := by
          refine ⟨le_trans h0 (h2 e (List.mem_cons_self e rest)), ?_, ?_, h3, ?_⟩
          · exact (List.pairwise_cons.mp h1).2
          · exact (List.pairwise_cons.mp h1).1
          · intro ev hev
            exact le_trans (h4 ev hev) (h2 e (List.mem_cons_self e rest))
        rcases cutoff with _ | t
        · dsimp only at hr
          rcases hha : handleActivation w e.act
              { clock := e.time, seqCounter := sq, fel := rest,
                resources := res, procs := procs, event_log := log,
                sample_start_times := sst, sample_end_times := sen,
                rng := rng } with e2 | stA
          · rw [hha] at hr
            exact absurd hr (by simp)
          · rw [hha] at hr
            exact ih stA st2
              (handleActivation_TimeInv w e.act _ stA hha hinv2).1 hr
        · dsimp only at hr
          by_cases hts : t ≤ e.time
          · rw [if_pos hts] at hr
            injection hr with hr2
            subst hr2
            exact h3
          · rw [if_neg hts] at hr
            rcases hha : handleActivation w e.act
                { clock := e.time, seqCounter := sq, fel := rest,
                  resources := res, procs := procs, event_log := log,
                  sample_start_times := sst, sample_end_times := sen,
                  rng := rng } with e2 | stA
            · rw [hha] at hr
              exact absurd hr (by simp)
            · rw [hha] at hr
              exact ih stA st2
                (handleActivation_TimeInv w e.act _ stA hha hinv2).1 hr

theorem runEngine_log_pairwise (w : Workflow) (sc : Scenario) (g0 : Rng)
    (st : EngineState) (hre : runEngine w sc g0 = Except.ok st) :
    st.event_log.Pairwise (fun a b => a.timestamp ≤ b.timestamp) := by
  unfold runEngine at hre
  rcases hce : computeEntryTimes sc with e | entries
  · rw [hce] at hre; exact absurd hre (by simp)
  rw [hce] at hre
  dsimp only at hre
  have hinv : TimeInv
      { clock := 0,
        seqCounter := (entries.map (fun q => { defaultProc with
          sample_id := q.1, entry_time := q.2 })).length,
        fel := (List.range (entries.map (fun q => { defaultProc with
          sample_id := q.1, entry_time := q.2 })).length).map
            (fun i => { time := 0, seq := i, act := Activation.init i }),
        resources := init_resources w,
        procs := entries.map (fun q => { defaultProc with
          sample_id := q.1, entry_time := q.2 }),
        event_log := [], sample_start_times := [],
        sample_end_times := [],
        rng := match sc.simulation_config.random_seed with
          | some seed => set_random_seed g0 seed
          | none => g0 } := by
    refine ⟨le_refl 0, ?_, ?_, List.Pairwise.nil, by simp⟩
    · exact List.pairwise_map.mpr
        (pairwise_of_total (fun a b => le_refl 0) _)
    · intro f hf
      obtain ⟨i, _, rfl⟩ := List.mem_map.mp hf
      exact le_refl 0
  rcases hmst : sc.simulation_config.max_simulation_time with _ | t
  · rw [hmst] at hre
    dsimp only at hre
    exact runLoop_log_pairwise w none _ _ st hinv hre
  · rw [hmst] at hre
    dsimp only at hre
    by_cases ht0 : t ≠ 0
    · rw [if_pos ht0] at hre
      by_cases htle : t ≤ 0
      · rw [if_pos htle] at hre; exact absurd hre (by simp)
      · rw [if_neg htle] at hre
        exact runLoop_log_pairwise w (some t) _ _ st hinv hre
    · rw [if_neg ht0] at hre
      exact runLoop_log_pairwise w none _ _ st hinv hre

/-- C3: for every completed run, the returned event log's timestamps
are non-decreasing in log-index order. -/
theorem event_log_timestamps_monotone (w : Workflow) (sc : Scenario)
    (g0 : Rng) (log : List SimulationEvent) (summ : SimulationSummary)
    (h : run w sc g0 = Except.ok (log, summ)) :
    log.Pairwise (fun a b => a.timestamp ≤ b.timestamp) := by
  unfold run at h
  rcases hre : runEngine w sc g0 with e | st
  · rw [hre] at h; exact absurd h (by simp)
  rw [hre] at h
  dsimp only at h
  rcases hcs : computeSummary w st with e | s
  · rw [hcs] at h; exact absurd h (by simp)
  rw [hcs] at h
  injection h with h2
  have hl : st.event_log = log := congrArg Prod.fst h2
  rw [← hl]
  exact runEngine_log_pairwise w sc g0 st hre

/-- Witness for C3: the end-to-end example run's three-event log is
timestamp-sorted. -/
theorem event_log_timestamps_monotone_witness :
    exRunEvents.Pairwise (fun a b => a.timestamp ≤ b.timestamp) :=
  event_log_timestamps_monotone wfOneOp scSingle ⟨0⟩ exRunEvents
    exRunSummary (by with_unfolding_all rfl)

/-! ### List and dict toolbox for the scheduler invariant -/

theorem getD_set_self {α : Type} (l : List α) (i : ℕ) (hi : i < l.length)
    (a d : α) : (l.set i a).getD i d = a := by
  rw [List.getD_eq_getElem?_getD, List.getElem?_set_eq_of_lt a hi]
  rfl

theorem getD_set_ne {α : Type} (l : List α) (i j : ℕ) (hne : i ≠ j)
    (a d : α) : (l.set i a).getD j d = l.getD j d := by
  rw [List.getD_eq_getElem?_getD, List.getElem?_set_ne hne,
    ← List.getD_eq_getElem?_getD]

theorem sum_map_set {α M : Type} [AddCommMonoid M] (l : List α) (i : ℕ)
    (a : α) (f : α → M) (hi : i < l.length) (d : α) :
    ((l.set i a).map f).sum + f (l.getD i d) = (l.map f).sum + f a := by
  induction l generalizing i with
  | nil => simp at hi
  | cons x xs ih =>
      cases i with
      | zero =>
          simp only [List.set, List.map_cons, List.sum_cons, List.getD_cons_zero]
          abel
      | succ j =>
          have h2 := ih j (by simpa using hi)
          simp only [List.set, List.map_cons, List.sum_cons, List.getD_cons_succ]
          calc f x + ((xs.set j a).map f).sum + f (xs.getD j d)
              = f x + (((xs.set j a).map f).sum + f (xs.getD j d)) := by abel
            _ = f x + ((xs.map f).sum + f a) := by rw [h2]
            _ = f x + (xs.map f).sum + f a := by abel

theorem alookup_aset_self {α : Type} (l : List (String × α)) (k : String)
    (v : α) : alookup (aset l k v) k = some v := by
  induction l with
  | nil => simp [aset, alookup]
  | cons p rest ih =>
      by_cases hk : p.1 = k
      · simp [aset, hk, alookup]
      · simp [aset, hk, alookup, ih]

theorem alookup_aset_ne {α : Type} (l : List (String × α)) (k k2 : String)
    (v : α) (h : k ≠ k2) : alookup (aset l k v) k2 = alookup l k2 := by
  induction l with
  | nil =>
      show (if k = k2 then some v else none) = none
      exact if_neg h
  | cons p rest ih =>
      by_cases hk : p.1 = k
      · rw [aset, if_pos hk]
        show (if k = k2 then some v else alookup rest k2) =
          (if p.1 = k2 then some p.2 else alookup rest k2)
        rw [if_neg h, if_neg (by rw [hk]; exact h)]
      · rw [aset, if_neg hk]
        show (if p.1 = k2 then some p.2 else alookup (aset rest k v) k2) =
          (if p.1 = k2 then some p.2 else alookup rest k2)
        rw [ih]

theorem alookup_aset_isSome {α : Type} (l : List (String × α))
    (k k2 : String) (v : α) :
    (alookup (aset l k v) k2).isSome ↔
      k2 = k ∨ (alookup l k2).isSome := by
  by_cases hk : k = k2
  · subst hk
    simp [alookup_aset_self]
  · rw [alookup_aset_ne l k k2 v hk]
    constructor
    · exact Or.inr
    · intro h2
      rcases h2 with h2 | h2
      · exact absurd h2.symm hk
      · exact h2

theorem mem_aset {α : Type} (x : String × α) (l : List (String × α))
    (k : String) (v : α) (hx : x ∈ aset l k v) : x = (k, v) ∨ x ∈ l := by
  induction l with
  | nil => simpa [aset] using hx
  | cons p rest ih =>
      by_cases hk : p.1 = k
      · rw [aset, if_pos hk] at hx
        rcases List.mem_cons.mp hx with h2 | h2
        · exact Or.inl h2
        · exact Or.inr (List.mem_cons_of_mem p h2)
      · rw [aset, if_neg hk] at hx
        rcases List.mem_cons.mp hx with h2 | h2
        · exact Or.inr (h2 ▸ List.mem_cons_self p rest)
        · rcases ih h2 with h3 | h3
          · exact Or.inl h3
          · exact Or.inr (List.mem_cons_of_mem p h3)

theorem aset_keys_nodup {α : Type} (l : List (String × α)) (k : String)
    (v : α) (h : (l.map Prod.fst).Nodup) :
    ((aset l k v).map Prod.fst).Nodup := by
  induction l with
  | nil => simp [aset]
  | cons p rest ih =>
      simp only [List.map_cons, List.nodup_cons] at h
      by_cases hk : p.1 = k
      · rw [aset, if_pos hk]
        simp only [List.map_cons, List.nodup_cons]
        exact ⟨by rw [← hk]; exact h.1, h.2⟩
      · rw [aset, if_neg hk]
        simp only [List.map_cons, List.nodup_cons]
        refine ⟨?_, ih h.2⟩
        intro hc
        rcases List.mem_map.mp hc with ⟨q, hq, hq2⟩
        rcases mem_aset q rest k v hq with h3 | h3
        · exact hk (by rw [← hq2, h3])
        · exact h.1 (hq2 ▸ List.mem_map_of_mem Prod.fst h3)

theorem felInsert_perm (e : FelEntry) (l : List FelEntry) :
    List.Perm (felInsert e l) (e :: l) := by
  induction l with
  | nil => exact List.Perm.refl _
  | cons f rest ih =>
      by_cases hf : f.time ≤ e.time
      · rw [felInsert, if_pos hf]
        exact List.Perm.trans (List.Perm.cons f ih) (List.Perm.swap e f rest)
      · rw [felInsert, if_neg hf]

theorem range_filter_eq (n i : ℕ) :
    (List.range n).filter (fun j => j = i) =
      if i < n then [i] else [] := by
  induction n with
  | zero => simp
  | succ m ih =>
      rw [List.range_succ, List.filter_append, ih]
      by_cases h1 : i < m
      · rw [if_pos h1, if_pos (Nat.lt_succ_of_lt h1)]
        have : ¬ (m = i) := by omega
        simp [this]
      · by_cases h2 : i = m
        · subst h2
          simp
        · have hnm : ¬ (m = i) := fun hc => h2 hc.symm
          have hlt : ¬ (i < m + 1) := by omega
          rw [if_neg h1, if_neg hlt]
          simp [hnm]

/-! ### Decimal digits: `pad3` has a left inverse, so sample ids are
injective -/

theorem decimalDigitsAux_eq_digits (fuel n : ℕ) (h : n ≤ fuel) :
    decimalDigitsAux fuel n = Nat.digits 10 n := by
  induction fuel generalizing n with
  | zero =>
      have : n = 0 := by omega
      subst this
      show ([] : List ℕ) = Nat.digits 10 0
      rw [Nat.digits_zero]
  | succ f ih =>
      cases n with
      | zero =>
          show ([] : List ℕ) = Nat.digits 10 0
          rw [Nat.digits_zero]
      | succ m =>
          rw [decimalDigitsAux, ih ((m + 1) / 10) (by
            have := Nat.div_lt_self (Nat.succ_pos m) (by norm_num : 1 < 10)
            omega)]
          rw [Nat.digits_def' (by norm_num : 1 < 10) (Nat.succ_pos m)]

theorem decimalDigits_eq_digits (n : ℕ) :
    decimalDigits n = Nat.digits 10 n :=
  decimalDigitsAux_eq_digits n n (le_refl n)

theorem digitChar_toNat (d : ℕ) (h : d < 10) :
    (Nat.digitChar d).toNat = 48 + d := by
  interval_cases d <;> rfl

theorem foldl_digit_chars (ds : List ℕ) (a : ℕ)
    (h : ∀ d ∈ ds, d < 10) :
    ((ds.map Nat.digitChar).reverse).foldl
        (fun a c => a * 10 + (c.toNat - 48)) a =
      a * 10 ^ ds.length + Nat.ofDigits 10 ds := by
  induction ds generalizing a with
  | nil => simp
  | cons d rest ih =>
      have hd : d < 10 := h d (List.mem_cons_self d rest)
      rw [List.map_cons, List.reverse_cons, List.foldl_append]
      rw [ih a (fun x hx => h x (List.mem_cons_of_mem d hx))]
      simp only [List.foldl_cons, List.foldl_nil, Nat.ofDigits_cons,
        List.length_cons, digitChar_toNat d hd]
      have : 48 + d - 48 = d := by omega
      rw [this]
      ring

theorem foldl_zero_chars (k a : ℕ) :
    (List.replicate k ('0')).foldl
        (fun a c => a * 10 + (c.toNat - 48)) a = a * 10 ^ k := by
  induction k generalizing a with
  | zero => simp
  | succ m ih =>
      rw [List.replicate_succ, List.foldl_cons, ih]
      have : ('0').toNat - 48 = 0 := rfl
      rw [this]
      ring

theorem unDigits_pad3 (n : ℕ) : unDigits (pad3 n).data = n := by
  show (List.replicate (3 - (digitsStr n).length) ('0') ++
      digitsStr n).foldl (fun a c => a * 10 + (c.toNat - 48)) 0 = n
  rw [List.foldl_append, foldl_zero_chars]
  show ((decimalDigits n).map Nat.digitChar).reverse.foldl
      (fun a c => a * 10 + (c.toNat - 48)) (0 * 10 ^ _) = n
  rw [foldl_digit_chars _ _ (by
    intro d hd
    rw [decimalDigits_eq_digits] at hd
    exact Nat.digits_lt_base (by norm_num) hd)]
  rw [decimalDigits_eq_digits, Nat.ofDigits_digits]
  ring

theorem sampleIdOf_inj : Function.Injective sampleIdOf := by
  have hleft : ∀ n, unDigits ((sampleIdOf n).data.drop 7) = n := by
    intro n
    show unDigits ((("SAMPLE_").data ++ (pad3 n).data).drop 7) = n
    rw [show (7 : ℕ) = ("SAMPLE_").data.length from rfl, List.drop_left]
    exact unDigits_pad3 n
  intro a b hab
  have := hleft a
  rw [hab, hleft b] at this
  exact this.symm

/-! ### The invariant holds at the initial engine state -/

theorem foldl_aset_keys_nodup {β : Type} (key : β → String) (val : β → α)
    (l : List β) (acc : List (String × α))
    (hacc : (acc.map Prod.fst).Nodup) :
    ((l.foldl (fun a d => aset a (key d) (val d)) acc).map Prod.fst).Nodup := by
  induction l generalizing acc with
  | nil => exact hacc
  | cons d rest ih =>
      exact ih (aset acc (key d) (val d)) (aset_keys_nodup _ _ _ hacc)

theorem foldl_aset_mem {β : Type} (key : β → String) (val : β → α)
    (l : List β) (acc : List (String × α)) (x : String × α)
    (hx : x ∈ l.foldl (fun a d => aset a (key d) (val d)) acc) :
    x ∈ acc ∨ ∃ d ∈ l, x = (key d, val d) := by
  induction l generalizing acc with
  | nil => exact Or.inl hx
  | cons d rest ih =>
      rcases ih (aset acc (key d) (val d)) hx with h2 | h2
      · rcases mem_aset x acc (key d) (val d) h2 with h3 | h3
        · exact Or.inr ⟨d, List.mem_cons_self d rest, h3⟩
        · exact Or.inl h3
      · obtain ⟨d2, hd2, hx2⟩ := h2
        exact Or.inr ⟨d2, List.mem_cons_of_mem d hd2, hx2⟩

theorem foldl_aset_cover {β : Type} (key : β → String) (val : β → α)
    (l : List β) (acc : List (String × α)) (k : String)
    (hk : (alookup acc k).isSome ∨ ∃ d ∈ l, key d = k) :
    (alookup (l.foldl (fun a d => aset a (key d) (val d)) acc) k).isSome := by
  induction l generalizing acc with
  | nil =>
      rcases hk with h2 | h2
      · exact h2
      · obtain ⟨d, hd, -⟩ := h2
        simp at hd
  | cons d rest ih =>
      refine ih (aset acc (key d) (val d)) ?_
      rcases hk with h2 | h2
      · exact Or.inl ((alookup_aset_isSome _ _ _ _).mpr (Or.inr h2))
      · obtain ⟨d2, hd2, hk2⟩ := h2
        rcases List.mem_cons.mp hd2 with h3 | h3
        · exact Or.inl ((alookup_aset_isSome _ _ _ _).mpr
            (Or.inl (by rw [← hk2, h3])))
        · exact Or.inr ⟨d2, h3, hk2⟩

theorem init_resources_keys_nodup (w : Workflow) :
    ((init_resources w).map Prod.fst).Nodup :=
  foldl_aset_keys_nodup _ _ w.devices [] (by simp)

theorem init_resources_mem (w : Workflow) (d : String) (r : ResourceState)
    (h : (d, r) ∈ init_resources w) :
    r.users = 0 ∧ r.queue = [] ∧
      ∃ dev ∈ w.devices, d = dev.device_id ∧
        r.capacity = dev.resource_capacity := by
  rcases foldl_aset_mem _ _ w.devices [] (d, r) h with h2 | h2
  · simp at h2
  · obtain ⟨dev, hdev, heq⟩ := h2
    rw [Prod.mk.injEq] at heq
    obtain ⟨hd, hr⟩ := heq
    subst hr
    exact ⟨rfl, rfl, dev, hdev, hd, rfl⟩

theorem init_resources_cover (w : Workflow) (dev : Device)
    (h : dev ∈ w.devices) :
    (alookup (init_resources w) dev.device_id).isSome :=
  foldl_aset_cover _ _ w.devices [] dev.device_id
    (Or.inr ⟨dev, h, rfl⟩)

theorem getD_map_range {β : Type} (f : ℕ → β) (n i : ℕ) (hi : i < n)
    (d : β) : (((List.range n).map f).getD i d) = f i := by
  rw [List.getD_eq_getElem?_getD, List.getElem?_map, List.getElem?_range hi]
  rfl

theorem count_range (n i : ℕ) :
    (List.range n).count i = if i < n then 1 else 0 := by
  by_cases h : i < n
  · rw [if_pos h]
    exact List.count_eq_one_of_mem (List.nodup_range n) (List.mem_range.mpr h)
  · rw [if_neg h]
    exact List.count_eq_zero_of_not_mem (fun hc => h (List.mem_range.mp hc))

theorem EngInv_init (w : Workflow) (n sq : ℕ) (g : Rng)
    (hcap : ∀ dev ∈ w.devices, 1 ≤ dev.resource_capacity) :
    EngInv w
      { clock := 0, seqCounter := sq,
        fel := (List.range n).map
          (fun i => { time := 0, seq := i, act := Activation.init i }),
        resources := init_resources w,
        procs := (List.range n).map initProc,
        event_log := [], sample_start_times := [],
        sample_end_times := [], rng := g } := by
  have hplen : ((List.range n).map initProc).length = n := by simp
  have hgetD : ∀ i, i < n →
      ((List.range n).map initProc).getD i defaultProc = initProc i :=
    fun i hi => getD_map_range initProc n i hi defaultProc
  have hfelpid : (((List.range n).map
      (fun i => ({ time := 0, seq := i, act := Activation.init i } :
        FelEntry))).map (fun e => actPid e.act)) = List.range n := by
    rw [List.map_map]
    exact List.map_id _
  refine ⟨?_, ?_, ?_, ?_, ?_, ?_, ?_, ?_, ?_, ?_, ?_, ?_, ?_, ?_, ?_, ?_, ?_,
    ?_⟩
  · exact init_resources_keys_nodup w
  · exact fun dev hdev => init_resources_cover w dev hdev
  · intro d r h
    obtain ⟨-, -, dev, hdev, hd, hc⟩ := init_resources_mem w d r h
    exact ⟨dev, hdev, hd, hc⟩
  · intro d r h
    obtain ⟨-, -, dev, hdev, -, hc⟩ := init_resources_mem w d r h
    rw [hc]
    exact hcap dev hdev
  · intro d r h
    obtain ⟨hu, -, -⟩ := init_resources_mem w d r h
    rw [hu]
    exact Nat.zero_le _
  · intro d r h hq
    obtain ⟨-, hq0, -⟩ := init_resources_mem w d r h
    exact absurd hq0 hq
  · intro d r h
    obtain ⟨hu, -, -⟩ := init_resources_mem w d r h
    rw [hu]
    unfold activeCount
    rw [List.map_map]
    symm
    apply List.sum_eq_zero
    intro x hx
    rcases List.mem_map.mp hx with ⟨i, -, rfl⟩
    rfl
  · intro d r h i hi
    obtain ⟨-, hq0, -⟩ := init_resources_mem w d r h
    rw [hq0] at hi
    simp at hi
  · intro e he
    rcases List.mem_map.mp he with ⟨i, hi, rfl⟩
    refine ⟨by simpa using List.mem_range.mp hi, ?_⟩
    show (((List.range n).map initProc).getD i defaultProc).phase =
        ProcPhase.entering ∧
      (((List.range n).map initProc).getD i defaultProc).stepIdx = 0
    rw [hgetD i (List.mem_range.mp hi)]
    exact ⟨rfl, rfl⟩
  · intro i hi
    rw [hplen] at hi
    unfold pidCount
    rw [hfelpid, count_range, if_pos hi, hgetD i hi]
    have hzero : ((init_resources w).map
        (fun dr => dr.2.queue.count i)).sum = 0 := by
      apply List.sum_eq_zero
      intro x hx
      rcases List.mem_map.mp hx with ⟨dr, hdr, rfl⟩
      obtain ⟨-, hq0, -⟩ := init_resources_mem w dr.1 dr.2 hdr
      rw [hq0]
      rfl
    rw [hzero]
    rfl
  · intro i hi k hk
    rw [hplen] at hi
    rw [hgetD i hi] at hk
    simp [initProc] at hk
  · intro i hi hfin
    rw [hplen] at hi
    rw [hgetD i hi] at hfin
    simp [initProc] at hfin
  · intro i hi
    rw [hplen] at hi
    rw [hgetD i hi]
    rfl
  · intro k
    constructor
    · intro h2
      simp [alookup] at h2
    · intro h2
      obtain ⟨i, hi, hne, -⟩ := h2
      rw [hplen] at hi
      rw [hgetD i hi] at hne
      exact absurd rfl hne
  · intro k
    constructor
    · intro h2
      simp [alookup] at h2
    · intro h2
      obtain ⟨i, hi, hfin, -⟩ := h2
      rw [hplen] at hi
      rw [hgetD i hi] at hfin
      simp [initProc] at hfin
  · simp
  · intro ev hev
    simp at hev
  · intro d r h
    unfold busySum execSum
    have h1 : (([] : List SimulationEvent).filter
        (fun e => e.device_id = d ∧ e.event_type = "COMPLETE")) = [] := rfl
    rw [h1]
    have h2 : (((List.range n).map initProc).map
        (fun p =>
          if p.phase = ProcPhase.executing ∧ p.cur_op.device_id = d then
            (0 : ℚ) - (p.queue_start + p.wait_time)
          else 0)).sum = 0 := by
      rw [List.map_map]
      apply List.sum_eq_zero
      intro x hx
      rcases List.mem_map.mp hx with ⟨i, -, rfl⟩
      rfl
    rw [h2]
    simp

/-! ### More dict / sum bookkeeping lemmas for the preservation proof -/

theorem alookup_mem {α : Type} (l : List (String × α)) (k : String)
    (v : α) (h : alookup l k = some v) : (k, v) ∈ l := by
  induction l with
  | nil => simp [alookup] at h
  | cons p rest ih =>
      by_cases hk : p.1 = k
      · rw [alookup, if_pos hk] at h
        injection h with h2
        have hpe : p = (k, v) := by
          rw [Prod.ext_iff]
          exact ⟨hk, h2⟩
        rw [hpe]
        exact List.mem_cons_self _ _
      · rw [alookup, if_neg hk] at h
        exact List.mem_cons_of_mem p (ih h)

theorem mem_aset_nodup {α : Type} (l : List (String × α)) (k : String)
    (v : α) (x : String × α) (hnd : (l.map Prod.fst).Nodup) :
    x ∈ aset l k v ↔ x = (k, v) ∨ (x ∈ l ∧ x.1 ≠ k) := by
  induction l with
  | nil =>
      simp only [aset, List.mem_singleton, List.not_mem_nil, false_and,
        or_false]
  | cons p rest ih =>
      simp only [List.map_cons, List.nodup_cons] at hnd
      by_cases hk : p.1 = k
      · rw [aset, if_pos hk]
        constructor
        · intro hx
          rcases List.mem_cons.mp hx with h2 | h2
          · exact Or.inl h2
          · refine Or.inr ⟨List.mem_cons_of_mem p h2, ?_⟩
            intro hc
            rw [← hc] at hk
            exact hnd.1 (hk ▸ List.mem_map_of_mem Prod.fst h2)
        · intro hx
          rcases hx with h2 | h2
          · exact h2 ▸ List.mem_cons_self _ _
          · rcases List.mem_cons.mp h2.1 with h3 | h3
            · exact absurd (h3 ▸ hk) h2.2
            · exact List.mem_cons_of_mem _ h3
      · rw [aset, if_neg hk]
        constructor
        · intro hx
          rcases List.mem_cons.mp hx with h2 | h2
          · exact Or.inr ⟨h2 ▸ List.mem_cons_self p rest, h2 ▸ hk⟩
          · rcases (ih hnd.2).mp h2 with h3 | h3
            · exact Or.inl h3
            · exact Or.inr ⟨List.mem_cons_of_mem p h3.1, h3.2⟩
        · intro hx
          rcases hx with h2 | h2
          · exact List.mem_cons_of_mem p ((ih hnd.2).mpr (Or.inl h2))
          · rcases List.mem_cons.mp h2.1 with h3 | h3
            · exact h3 ▸ List.mem_cons_self p _
            · exact List.mem_cons_of_mem p
                ((ih hnd.2).mpr (Or.inr ⟨h3, h2.2⟩))

theorem sum_map_aset {α M : Type} [AddCommMonoid M]
    (l : List (String × α)) (k : String) (v old : α)
    (f : String × α → M) (hk : alookup l k = some old)
    (hnd : (l.map Prod.fst).Nodup) :
    ((aset l k v).map f).sum + f (k, old) = (l.map f).sum + f (k, v) := by
  induction l with
  | nil => simp [alookup] at hk
  | cons p rest ih =>
      simp only [List.map_cons, List.nodup_cons] at hnd
      by_cases hp : p.1 = k
      · rw [alookup, if_pos hp] at hk
        injection hk with hk2
        have hpe : p = (k, old) := by
          rw [Prod.ext_iff]
          exact ⟨hp, hk2⟩
        rw [aset, if_pos hp, hpe]
        simp only [List.map_cons, List.sum_cons]
        abel
      · rw [alookup, if_neg hp] at hk
        rw [aset, if_neg hp]
        simp only [List.map_cons, List.sum_cons]
        calc f p + ((aset rest k v).map f).sum + f (k, old)
            = f p + (((aset rest k v).map f).sum + f (k, old)) := by abel
          _ = f p + ((rest.map f).sum + f (k, v)) := by rw [ih hk hnd.2]
          _ = f p + (rest.map f).sum + f (k, v) := by abel

theorem busySum_append (log : List SimulationEvent)
    (ev : SimulationEvent) (d : String) :
    busySum (log ++ [ev]) d =
      busySum log d +
        (if ev.device_id = d ∧ ev.event_type = "COMPLETE" then ev.duration
         else 0) := by
  unfold busySum
  rw [List.filter_append]
  by_cases h : ev.device_id = d ∧ ev.event_type = "COMPLETE"
  · simp [h]
  · simp [List.filter_singleton, h]

theorem execSum_clock_shift (c c2 : ℚ) (procs : List ProcState)
    (d : String) :
    execSum c2 procs d =
      execSum c procs d + (execCount procs d : ℚ) * (c2 - c) := by
  unfold execSum execCount
  induction procs with
  | nil => simp
  | cons p rest ih =>
      simp only [List.map_cons, List.sum_cons]
      by_cases h : p.phase = ProcPhase.executing ∧ p.cur_op.device_id = d
      · rw [if_pos h, if_pos h, if_pos h, ih]
        push_cast
        ring
      · rw [if_neg h, if_neg h, if_neg h, ih]
        push_cast
        ring

theorem execCount_le_activeCount (procs : List ProcState) (d : String) :
    execCount procs d ≤ activeCount procs d := by
  unfold execCount activeCount
  induction procs with
  | nil => exact le_refl 0
  | cons p rest ih =>
      simp only [List.map_cons, List.sum_cons]
      refine Nat.add_le_add ?_ ih
      by_cases h : p.phase = ProcPhase.executing ∧ p.cur_op.device_id = d
      · rw [if_pos h, if_pos ⟨Or.inr h.1, h.2⟩]
      · rw [if_neg h]
        exact Nat.zero_le _

theorem count_map_perm {α β : Type} [DecidableEq β] (l1 l2 : List α)
    (f : α → β) (h : List.Perm l1 l2) (b : β) :
    (l1.map f).count b = (l2.map f).count b :=
  ((h.map f).count_eq b)

theorem sum_map_perm {α M : Type} [AddCommMonoid M] (l1 l2 : List α)
    (f : α → M) (h : List.Perm l1 l2) :
    (l1.map f).sum = (l2.map f).sum :=
  ((h.map f).sum_eq)

theorem count_eq_zero_of_count_sum {l : List ℕ} {i : ℕ} :
    l.count i = 0 → i ∉ l := by
  intro h hc
  rw [List.count_eq_zero] at h
  exact h hc

theorem pidCount_eq (st : EngineState) (i : ℕ) :
    pidCount st i = felTokens st.fel i + queueTokens st.resources i := rfl

theorem Phi_eq (w : Workflow) (st : EngineState) :
    Phi w st = felW w.base_sequence.length st.procs st.fel +
      queueW w.base_sequence.length st.procs st.resources := rfl

theorem felTokens_cons (e : FelEntry) (rest : List FelEntry) (i : ℕ) :
    felTokens (e :: rest) i =
      (if actPid e.act = i then 1 else 0) + felTokens rest i := by
  unfold felTokens
  rw [List.map_cons, List.count_cons]
  simp only [beq_iff_eq]
  exact Nat.add_comm _ _

theorem felTokens_felInsert (e : FelEntry) (l : List FelEntry) (i : ℕ) :
    felTokens (felInsert e l) i = felTokens (e :: l) i :=
  count_map_perm _ _ _ (felInsert_perm e l) i

theorem queueTokens_aset (res : List (String × ResourceState)) (d : String)
    (r r' : ResourceState) (i : ℕ) (hk : alookup res d = some r)
    (hnd : (res.map Prod.fst).Nodup) :
    queueTokens (aset res d r') i + r.queue.count i =
      queueTokens res i + r'.queue.count i := by
  unfold queueTokens
  exact sum_map_aset res d r' r (fun dr => dr.2.queue.count i) hk hnd

theorem felW_cons (S : ℕ) (procs : List ProcState) (e : FelEntry)
    (rest : List FelEntry) :
    felW S procs (e :: rest) = actW S procs e.act + felW S procs rest := by
  unfold felW
  rw [List.map_cons, List.sum_cons]

theorem felW_felInsert (S : ℕ) (procs : List ProcState) (e : FelEntry)
    (l : List FelEntry) :
    felW S procs (felInsert e l) = felW S procs (e :: l) := by
  unfold felW
  exact sum_map_perm _ _ _ (felInsert_perm e l)

theorem actW_congr (S : ℕ) (p1 p2 : List ProcState)
    (h : ∀ j, (p1.getD j defaultProc).stepIdx =
      (p2.getD j defaultProc).stepIdx) (a : Activation) :
    actW S p1 a = actW S p2 a := by
  cases a with
  | init i =>
      show tokW S (p1.getD i defaultProc).stepIdx + 2 =
        tokW S (p2.getD i defaultProc).stepIdx + 2
      rw [h i]
  | entered i =>
      show tokW S (p1.getD i defaultProc).stepIdx + 1 =
        tokW S (p2.getD i defaultProc).stepIdx + 1
      rw [h i]
  | acquired i =>
      show tokW S (p1.getD i defaultProc).stepIdx =
        tokW S (p2.getD i defaultProc).stepIdx
      rw [h i]
  | opDone i =>
      show tokW S (p1.getD i defaultProc).stepIdx - 1 =
        tokW S (p2.getD i defaultProc).stepIdx - 1
      rw [h i]

theorem felW_congr (S : ℕ) (p1 p2 : List ProcState) (fel : List FelEntry)
    (h : ∀ j, (p1.getD j defaultProc).stepIdx =
      (p2.getD j defaultProc).stepIdx) :
    felW S p1 fel = felW S p2 fel := by
  unfold felW
  congr 1
  exact List.map_congr_left (fun e _ => actW_congr S p1 p2 h e.act)

theorem queueW_congr (S : ℕ) (p1 p2 : List ProcState)
    (res : List (String × ResourceState))
    (h : ∀ j, (p1.getD j defaultProc).stepIdx =
      (p2.getD j defaultProc).stepIdx) :
    queueW S p1 res = queueW S p2 res := by
  unfold queueW
  congr 1
  refine List.map_congr_left (fun dr _ => ?_)
  congr 1
  exact List.map_congr_left (fun i _ => by rw [h i])

theorem queueW_aset (S : ℕ) (procs : List ProcState)
    (res : List (String × ResourceState)) (d : String)
    (r r' : ResourceState) (hk : alookup res d = some r)
    (hnd : (res.map Prod.fst).Nodup) :
    queueW S procs (aset res d r') +
      (r.queue.map (fun i =>
        tokW S (procs.getD i defaultProc).stepIdx)).sum =
      queueW S procs res +
        (r'.queue.map (fun i =>
          tokW S (procs.getD i defaultProc).stepIdx)).sum := by
  unfold queueW
  exact sum_map_aset res d r' r _ hk hnd

theorem activeCount_set (procs : List ProcState) (i : ℕ) (p' : ProcState)
    (d : String) (hi : i < procs.length) :
    activeCount (procs.set i p') d +
        activeInd d (procs.getD i defaultProc) =
      activeCount procs d + activeInd d p' := by
  unfold activeCount activeInd
  exact sum_map_set procs i p' _ hi defaultProc

theorem execCount_set (procs : List ProcState) (i : ℕ) (p' : ProcState)
    (d : String) (hi : i < procs.length) :
    execCount (procs.set i p') d + execInd d (procs.getD i defaultProc) =
      execCount procs d + execInd d p' := by
  unfold execCount execInd
  exact sum_map_set procs i p' _ hi defaultProc

theorem execSum_set (c : ℚ) (procs : List ProcState) (i : ℕ)
    (p' : ProcState) (d : String) (hi : i < procs.length) :
    execSum c (procs.set i p') d + execAcc c d (procs.getD i defaultProc) =
      execSum c procs d + execAcc c d p' := by
  unfold execSum execAcc
  exact sum_map_set procs i p' _ hi defaultProc

theorem alookup_isSome_iff {α : Type} (l : List (String × α)) (k : String) :
    (alookup l k).isSome ↔ k ∈ l.map Prod.fst := by
  induction l with
  | nil => simp [alookup]
  | cons p rest ih =>
      by_cases hk : p.1 = k
      · rw [alookup, if_pos hk]
        simp only [List.map_cons, List.mem_cons]
        exact iff_of_true rfl (Or.inl hk.symm)
      · rw [alookup, if_neg hk]
        simp only [List.map_cons, List.mem_cons]
        rw [ih]
        constructor
        · exact Or.inr
        · intro h2
          rcases h2 with h2 | h2
          · exact absurd h2.symm hk
          · exact h2

theorem TimeInv_pop (st : EngineState) (e : FelEntry) (rest : List FelEntry)
    (hfel : st.fel = e :: rest) (h : TimeInv st) :
    TimeInv { st with clock := e.time, fel := rest } := by
  obtain ⟨h0, hp, hf, hl, hc⟩ := h
  rw [hfel] at hp hf
  refine ⟨le_trans h0 (hf e (List.mem_cons_self e rest)), ?_, ?_, hl, ?_⟩
  · exact (List.pairwise_cons.mp hp).2
  · intro x hx
    exact (List.pairwise_cons.mp hp).1 x hx
  · intro ev hev
    exact le_trans (hc ev hev) (hf e (List.mem_cons_self e rest))

theorem findOp_mem (w : Workflow) (opId : String) (op : Operation)
    (h : findOp w opId = some op) :
    op ∈ w.operations ∧ op.operation_id = opId := by
  unfold findOp at h
  refine ⟨List.mem_of_find?_eq_some h, ?_⟩
  have h2 := List.find?_some h
  simpa using h2

theorem activeCount_pos_exists (procs : List ProcState) (d : String)
    (h : activeCount procs d ≠ 0) :
    ∃ j, j < procs.length ∧
      ((procs.getD j defaultProc).phase = ProcPhase.granted ∨
        (procs.getD j defaultProc).phase = ProcPhase.executing) ∧
      (procs.getD j defaultProc).cur_op.device_id = d := by
  induction procs with
  | nil => simp [activeCount] at h
  | cons p rest ih =>
      rw [activeCount, List.map_cons, List.sum_cons] at h
      by_cases hp : (p.phase = ProcPhase.granted ∨
          p.phase = ProcPhase.executing) ∧ p.cur_op.device_id = d
      · exact ⟨0, Nat.succ_pos _, hp.1, hp.2⟩
      · rw [if_neg hp, Nat.zero_add] at h
        obtain ⟨j, hj, h2, h3⟩ := ih h
        exact ⟨j + 1, Nat.succ_lt_succ hj, h2, h3⟩

theorem felTokens_eq_zero (fel : List FelEntry) (i : ℕ)
    (h : felTokens fel i = 0) : ∀ e ∈ fel, actPid e.act ≠ i := by
  intro e he hc
  unfold felTokens at h
  rw [List.count_eq_zero] at h
  exact h (hc ▸ List.mem_map_of_mem (fun e => actPid e.act) he)

theorem queueTokens_eq_zero (res : List (String × ResourceState)) (i : ℕ)
    (h : queueTokens res i = 0) :
    ∀ d r, (d, r) ∈ res → i ∉ r.queue := by
  intro d r hdr hc
  unfold queueTokens at h
  rw [List.sum_eq_zero_iff] at h
  have h2 := h (r.queue.count i)
    (List.mem_map_of_mem (fun dr => dr.2.queue.count i) hdr)
  rw [List.count_eq_zero] at h2
  exact h2 hc

theorem queueTokens_pos (res : List (String × ResourceState)) (i : ℕ)
    (h : queueTokens res i ≠ 0) : ∃ d r, (d, r) ∈ res ∧ i ∈ r.queue := by
  unfold queueTokens at h
  by_contra hc
  push_neg at hc
  apply h
  apply List.sum_eq_zero
  intro x hx
  rcases List.mem_map.mp hx with ⟨dr, hdr, rfl⟩
  rw [List.count_eq_zero]
  refine hc dr.1 dr.2 ?_
  rw [Prod.mk.eta]
  exact hdr

theorem activeInd_default (d : String) : activeInd d defaultProc = 0 := rfl

theorem execAcc_default (c : ℚ) (d : String) :
    execAcc c d defaultProc = 0 := rfl

theorem execInd_default (d : String) : execInd d defaultProc = 0 := rfl

theorem activeInd_of_inactive (d : String) (p : ProcState)
    (h1 : p.phase ≠ ProcPhase.granted)
    (h2 : p.phase ≠ ProcPhase.executing) : activeInd d p = 0 := by
  unfold activeInd
  rw [if_neg]
  rintro ⟨h3 | h3, -⟩
  · exact h1 h3
  · exact h2 h3

theorem execAcc_of_not_exec (c : ℚ) (d : String) (p : ProcState)
    (h : p.phase ≠ ProcPhase.executing) : execAcc c d p = 0 := by
  unfold execAcc
  rw [if_neg]
  rintro ⟨h2, -⟩
  exact h h2

theorem execInd_of_not_exec (d : String) (p : ProcState)
    (h : p.phase ≠ ProcPhase.executing) : execInd d p = 0 := by
  unfold execInd
  rw [if_neg]
  rintro ⟨h2, -⟩
  exact h h2

theorem activeCount_mask (procs : List ProcState) (i : ℕ) (p' : ProcState)
    (d : String) (hi : i < procs.length) (h0 : activeInd d p' = 0) :
    activeCount (procs.set i p') d =
      activeCount (procs.set i defaultProc) d := by
  have h1 := activeCount_set procs i p' d hi
  have h2 := activeCount_set procs i defaultProc d hi
  rw [h0] at h1
  rw [activeInd_default] at h2
  omega

theorem execSum_mask (c : ℚ) (procs : List ProcState) (i : ℕ)
    (p' : ProcState) (d : String) (hi : i < procs.length)
    (h0 : execAcc c d p' = 0) :
    execSum c (procs.set i p') d =
      execSum c (procs.set i defaultProc) d := by
  have h1 := execSum_set c procs i p' d hi
  have h2 := execSum_set c procs i defaultProc d hi
  rw [h0] at h1
  rw [execAcc_default] at h2
  linarith

theorem ActMatches_congr (w : Workflow) (st1 st2 : EngineState)
    (e : FelEntry) (hlen : st1.procs.length = st2.procs.length)
    (hgetD : st2.procs.getD (actPid e.act) defaultProc =
      st1.procs.getD (actPid e.act) defaultProc)
    (h : ActMatches w st1 e) : ActMatches w st2 e := by
  unfold ActMatches at h ⊢
  dsimp only at h ⊢
  obtain ⟨h1, h2⟩ := h
  rw [← hlen, hgetD]
  exact ⟨h1, h2⟩

theorem stepIdx_set_congr (procs : List ProcState) (i : ℕ) (p' : ProcState)
    (hi : i < procs.length)
    (hstep : p'.stepIdx = (procs.getD i defaultProc).stepIdx) :
    ∀ j, ((procs.set i p').getD j defaultProc).stepIdx =
      (procs.getD j defaultProc).stepIdx := by
  intro j
  by_cases hj : i = j
  · subst hj
    rw [getD_set_self procs i hi p' defaultProc, hstep]
  · rw [getD_set_ne procs i j hj p' defaultProc]

/-- `finishSample` from the between-steps invariant restores the full
invariant (the process is marked finished, its end time recorded) and
leaves the termination measure unchanged. -/
theorem finish_preserves (w : Workflow) (stX : EngineState) (i : ℕ)
    (hM : MidInv w stX i)
    (hidx : ¬ (stX.procs.getD i defaultProc).stepIdx <
      w.base_sequence.length) :
    EngInv w (finishSample stX i) ∧
      (finishSample stX i).procs.length = stX.procs.length ∧
      Phi w (finishSample stX i) = Phi w stX := by
  have hi := hM.hi
  have hstate : finishSample stX i =
      { stX with
        sample_end_times := aset stX.sample_end_times
          (stX.procs.getD i defaultProc).sample_id stX.clock,
        procs := stX.procs.set i
          { stX.procs.getD i defaultProc with
            phase := ProcPhase.finished } } := rfl
  rw [hstate]
  have hgds : (stX.procs.set i
      { stX.procs.getD i defaultProc with
        phase := ProcPhase.finished }).getD i defaultProc =
      { stX.procs.getD i defaultProc with phase := ProcPhase.finished } :=
    getD_set_self stX.procs i hi _ defaultProc
  have hgdn : ∀ j, j ≠ i →
      (stX.procs.set i
        { stX.procs.getD i defaultProc with
          phase := ProcPhase.finished }).getD j defaultProc =
        stX.procs.getD j defaultProc :=
    fun j hj => getD_set_ne stX.procs i j (fun h2 => hj h2.symm) _
      defaultProc
  have hlen2 : (stX.procs.set i
      { stX.procs.getD i defaultProc with
        phase := ProcPhase.finished }).length = stX.procs.length := by
    simp
  have hstep_eq : (stX.procs.getD i defaultProc).stepIdx =
      w.base_sequence.length :=
    Nat.le_antisymm hM.step_le (Nat.not_lt.mp hidx)
  have hscongr := stepIdx_set_congr stX.procs i
    { stX.procs.getD i defaultProc with phase := ProcPhase.finished }
    hi rfl
  have hnotg : ({ stX.procs.getD i defaultProc with
      phase := ProcPhase.finished } : ProcState).phase ≠
      ProcPhase.granted := fun hc => ProcPhase.noConfusion hc
  have hnotx : ({ stX.procs.getD i defaultProc with
      phase := ProcPhase.finished } : ProcState).phase ≠
      ProcPhase.executing := fun hc => ProcPhase.noConfusion hc
  have hnotent : ({ stX.procs.getD i defaultProc with
      phase := ProcPhase.finished } : ProcState).phase ≠
      ProcPhase.entering := fun hc => ProcPhase.noConfusion hc
  refine ⟨⟨?_, ?_, ?_, ?_, ?_, ?_, ?_, ?_, ?_, ?_, ?_, ?_, ?_, ?_, ?_, ?_,
    ?_, ?_⟩, ?_, ?_⟩
  · exact hM.res_keys_nodup
  · exact hM.res_cover
  · exact hM.res_entries
  · exact hM.res_cap_pos
  · exact hM.res_users_le
  · exact hM.res_queue_full
  · intro d r hdr
    show r.users = activeCount (stX.procs.set i _) d
    rw [activeCount_mask stX.procs i _ d hi
      (activeInd_of_inactive d _ hnotg hnotx)]
    exact hM.res_users_eq d r hdr
  · intro d r hdr j hjq
    obtain ⟨hne, hjl, hq, hdev, hqs, hSO, hlt3⟩ :=
      hM.queue_elems d r hdr j hjq
    refine ⟨?_, ?_, ?_, ?_, ?_, ?_⟩
    · show j < (stX.procs.set i _).length
      rw [hlen2]
      exact hjl
    · show ((stX.procs.set i _).getD j defaultProc).phase = _
      rw [hgdn j hne]
      exact hq
    · show ((stX.procs.set i _).getD j defaultProc).cur_op.device_id = d
      rw [hgdn j hne]
      exact hdev
    · show ((stX.procs.set i _).getD j defaultProc).queue_start ≤ stX.clock
      rw [hgdn j hne]
      exact hqs
    · show StepOk w ((stX.procs.set i _).getD j defaultProc)
      rw [hgdn j hne]
      exact hSO
    · show ((stX.procs.set i _).getD j defaultProc).stepIdx <
        w.base_sequence.length
      rw [hgdn j hne]
      exact hlt3
  · intro e he
    obtain ⟨hne, hAM⟩ := hM.act_matches e he
    exact ActMatches_congr w stX _ e hlen2.symm (hgdn _ hne) hAM
  · intro j hj
    rw [hlen2] at hj
    by_cases hji : j = i
    · subst hji
      show pidCount stX j = _
      rw [hgds]
      rw [if_pos rfl]
      exact hM.tok_i
    · show pidCount stX j = _
      rw [hgdn j hji]
      exact hM.tok_m j hj hji
  · intro j hj k hk
    rw [hlen2] at hj
    by_cases hji : j = i
    · subst hji
      rw [hgds] at hk
      exact hM.steps_resolvable j hj k hk
    · rw [hgdn j hji] at hk
      exact hM.steps_resolvable j hj k hk
  · intro j hj hfin
    rw [hlen2] at hj
    by_cases hji : j = i
    · subst hji
      rw [hgds]
      exact hstep_eq
    · rw [hgdn j hji] at hfin ⊢
      exact hM.finished_m j hj hji hfin
  · intro j hj
    rw [hlen2] at hj
    by_cases hji : j = i
    · subst hji
      rw [hgds]
      exact hM.proc_sid j hj
    · rw [hgdn j hji]
      exact hM.proc_sid j hj
  · intro k
    constructor
    · intro h2
      rcases (hM.start_mem k).mp h2 with hk | ⟨j, hjl, hjne, hph, hk⟩
      · refine ⟨i, ?_, ?_, hk⟩
        · rw [hlen2]
          exact hi
        · rw [hgds]
          exact hnotent
      · refine ⟨j, ?_, ?_, hk⟩
        · rw [hlen2]
          exact hjl
        · rw [hgdn j hjne]
          exact hph
    · rintro ⟨j, hjl, hph, hk⟩
      rw [hlen2] at hjl
      apply (hM.start_mem k).mpr
      by_cases hji : j = i
      · subst hji
        exact Or.inl hk
      · rw [hgdn j hji] at hph
        exact Or.inr ⟨j, hjl, hji, hph, hk⟩
  · intro k
    have hsid : (stX.procs.getD i defaultProc).sample_id = sampleIdOf i :=
      hM.proc_sid i hi
    show (alookup (aset stX.sample_end_times _ stX.clock) k).isSome ↔ _
    rw [alookup_aset_isSome]
    constructor
    · intro h2
      rcases h2 with hk | h2
      · refine ⟨i, ?_, ?_, by rw [hk, hsid]⟩
        · rw [hlen2]
          exact hi
        · rw [hgds]
      · obtain ⟨j, hjl, hjne, hfin, hk⟩ := (hM.end_mem k).mp h2
        refine ⟨j, ?_, ?_, hk⟩
        · rw [hlen2]
          exact hjl
        · rw [hgdn j hjne]
          exact hfin
    · rintro ⟨j, hjl, hfin, hk⟩
      rw [hlen2] at hjl
      by_cases hji : j = i
      · subst hji
        left
        rw [hk, hsid]
      · rw [hgdn j hji] at hfin
        exact Or.inr ((hM.end_mem k).mpr ⟨j, hjl, hji, hfin, hk⟩)
  · exact aset_keys_nodup _ _ _ hM.end_keys_nodup
  · exact hM.log_dur_nonneg
  · intro d r hdr
    show busySum stX.event_log d +
      execSum stX.clock (stX.procs.set i _) d ≤ _
    rw [execSum_mask stX.clock stX.procs i _ d hi
      (execAcc_of_not_exec stX.clock d _ hnotx)]
    exact hM.util_bound d r hdr
  · exact hlen2
  · show Phi w _ = Phi w stX
    rw [Phi_eq, Phi_eq]
    dsimp only
    rw [felW_congr _ _ _ _ hscongr, queueW_congr _ _ _ _ hscongr]

/-- The immediate-grant branch of `beginStep` restores the full
invariant from the between-steps one and adds exactly one token weight
to the termination measure. -/
theorem begin_grant_inv (w : Workflow) (stX st2 : EngineState) (i : ℕ)
    (step : SequenceStep) (op_def : Operation) (res : ResourceState)
    (ev : SimulationEvent) (pG : ProcState)
    (hM : MidInv w stX i)
    (hidx : (stX.procs.getD i defaultProc).stepIdx <
      w.base_sequence.length)
    (hget : w.base_sequence.get? (stX.procs.getD i defaultProc).stepIdx =
      some step)
    (hop : findOp w step.operation_id = some op_def)
    (hres : alookup stX.resources op_def.device_id = some res)
    (hcap : res.users < res.capacity)
    (hevC : ev.event_type ≠ ("COMPLETE")) (hdur : 0 ≤ ev.duration)
    (hpG : pG = { stX.procs.getD i defaultProc with
      queue_start := stX.clock, cur_opid := step.operation_id,
      cur_op := op_def, phase := ProcPhase.granted })
    (hst : st2 = { stX with
      seqCounter := stX.seqCounter + 1,
      fel := felInsert ({ time := stX.clock,
                          seq := stX.seqCounter,
                          act := Activation.acquired i } : FelEntry)
        stX.fel,
      resources := aset stX.resources op_def.device_id
        { res with users := res.users + 1 },
      procs := stX.procs.set i pG,
      event_log := stX.event_log ++ [ev] }) :
    EngInv w st2 ∧ st2.procs.length = stX.procs.length ∧
      Phi w st2 = Phi w stX +
        tokW w.base_sequence.length
          ((stX.procs.getD i defaultProc).stepIdx) := by
  subst hst
  have hi := hM.hi
  have hmem : (op_def.device_id, res) ∈ stX.resources :=
    alookup_mem stX.resources op_def.device_id res hres
  have hphase : pG.phase = ProcPhase.granted := by rw [hpG]
  have hqs0 : pG.queue_start = stX.clock := by rw [hpG]
  have hstepIdx : pG.stepIdx = (stX.procs.getD i defaultProc).stepIdx := by
    rw [hpG]
  have hsid : pG.sample_id = (stX.procs.getD i defaultProc).sample_id := by
    rw [hpG]
  have hopid : pG.cur_opid = step.operation_id := by rw [hpG]
  have hcur : pG.cur_op = op_def := by rw [hpG]
  have hnotent : pG.phase ≠ ProcPhase.entering := by
    rw [hphase]
    decide
  have hnotf : pG.phase ≠ ProcPhase.finished := by
    rw [hphase]
    decide
  have hnotx : pG.phase ≠ ProcPhase.executing := by
    rw [hphase]
    decide
  have hgds : (stX.procs.set i pG).getD i defaultProc = pG :=
    getD_set_self stX.procs i hi pG defaultProc
  have hgdn : ∀ j, j ≠ i →
      (stX.procs.set i pG).getD j defaultProc =
        stX.procs.getD j defaultProc :=
    fun j hj => getD_set_ne stX.procs i j (fun h2 => hj h2.symm) pG
      defaultProc
  have hlen2 : (stX.procs.set i pG).length = stX.procs.length := by simp
  have hscongr := stepIdx_set_congr stX.procs i pG hi hstepIdx
  have hSOG : StepOk w pG := by
    refine ⟨step, ?_, hopid, ?_⟩
    · rw [hstepIdx]
      exact hget
    · rw [hcur]
      exact hop
  have hind1 : activeInd op_def.device_id pG = 1 := by
    unfold activeInd
    rw [if_pos ⟨Or.inl hphase, by rw [hcur]⟩]
  have hbusy : ∀ d, busySum (stX.event_log ++ [ev]) d =
      busySum stX.event_log d := by
    intro d
    rw [busySum_append, if_neg (fun hc => hevC hc.2), add_zero]
  have hexec : ∀ d, execSum stX.clock (stX.procs.set i pG) d =
      execSum stX.clock (stX.procs.set i defaultProc) d :=
    fun d => execSum_mask stX.clock stX.procs i pG d hi
      (execAcc_of_not_exec stX.clock d pG hnotx)
  refine ⟨⟨?_, ?_, ?_, ?_, ?_, ?_, ?_, ?_, ?_, ?_, ?_, ?_, ?_, ?_, ?_, ?_,
    ?_, ?_⟩, hlen2, ?_⟩
  · exact aset_keys_nodup _ _ _ hM.res_keys_nodup
  · intro dev hdev
    exact (alookup_aset_isSome _ _ _ _).mpr
      (Or.inr (hM.res_cover dev hdev))
  · intro d r hdr
    rcases (mem_aset_nodup stX.resources op_def.device_id
        { res with users := res.users + 1 } (d, r)
        hM.res_keys_nodup).mp hdr with heq | ⟨hold, -⟩
    · rw [Prod.mk.injEq] at heq
      obtain ⟨rfl, rfl⟩ := heq
      obtain ⟨dev, hdev, hd, hc⟩ := hM.res_entries _ res hmem
      exact ⟨dev, hdev, hd, hc⟩
    · exact hM.res_entries d r hold
  · intro d r hdr
    rcases (mem_aset_nodup stX.resources op_def.device_id
        { res with users := res.users + 1 } (d, r)
        hM.res_keys_nodup).mp hdr with heq | ⟨hold, -⟩
    · rw [Prod.mk.injEq] at heq
      obtain ⟨rfl, rfl⟩ := heq
      exact hM.res_cap_pos _ res hmem
    · exact hM.res_cap_pos d r hold
  · intro d r hdr
    rcases (mem_aset_nodup stX.resources op_def.device_id
        { res with users := res.users + 1 } (d, r)
        hM.res_keys_nodup).mp hdr with heq | ⟨hold, -⟩
    · rw [Prod.mk.injEq] at heq
      obtain ⟨rfl, rfl⟩ := heq
      exact hcap
    · exact hM.res_users_le d r hold
  · intro d r hdr hqne
    rcases (mem_aset_nodup stX.resources op_def.device_id
        { res with users := res.users + 1 } (d, r)
        hM.res_keys_nodup).mp hdr with heq | ⟨hold, -⟩
    · rw [Prod.mk.injEq] at heq
      obtain ⟨rfl, rfl⟩ := heq
      exact absurd (hM.res_queue_full _ res hmem hqne)
        (Nat.ne_of_lt hcap)
    · exact hM.res_queue_full d r hold hqne
  · intro d r hdr
    have h1 := activeCount_set stX.procs i pG d hi
    have h2 := activeCount_set stX.procs i defaultProc d hi
    rw [activeInd_default] at h2
    rcases (mem_aset_nodup stX.resources op_def.device_id
        { res with users := res.users + 1 } (d, r)
        hM.res_keys_nodup).mp hdr with heq | ⟨hold, hne2⟩
    · rw [Prod.mk.injEq] at heq
      obtain ⟨rfl, rfl⟩ := heq
      have husers := hM.res_users_eq _ res hmem
      rw [hind1] at h1
      show res.users + 1 = activeCount (stX.procs.set i pG) op_def.device_id
      omega
    · have hind0 : activeInd d pG = 0 := by
        unfold activeInd
        rw [if_neg]
        rintro ⟨-, h3⟩
        rw [hcur] at h3
        exact hne2 h3.symm
      have husers := hM.res_users_eq d r hold
      rw [hind0] at h1
      show r.users = activeCount (stX.procs.set i pG) d
      omega
  · intro d r hdr j hjq
    rcases (mem_aset_nodup stX.resources op_def.device_id
        { res with users := res.users + 1 } (d, r)
        hM.res_keys_nodup).mp hdr with heq | ⟨hold, -⟩
    · rw [Prod.mk.injEq] at heq
      obtain ⟨rfl, rfl⟩ := heq
      obtain ⟨hne, hjl, hq, hdev2, hqs, hSO, hlt3⟩ :=
        hM.queue_elems _ res hmem j hjq
      refine ⟨?_, ?_, ?_, ?_, ?_, ?_⟩
      · show j < (stX.procs.set i pG).length
        rw [hlen2]
        exact hjl
      · show ((stX.procs.set i pG).getD j defaultProc).phase = _
        rw [hgdn j hne]
        exact hq
      · show ((stX.procs.set i pG).getD j defaultProc).cur_op.device_id = _
        rw [hgdn j hne]
        exact hdev2
      · show ((stX.procs.set i pG).getD j defaultProc).queue_start ≤
          stX.clock
        rw [hgdn j hne]
        exact hqs
      · show StepOk w ((stX.procs.set i pG).getD j defaultProc)
        rw [hgdn j hne]
        exact hSO
      · show ((stX.procs.set i pG).getD j defaultProc).stepIdx <
          w.base_sequence.length
        rw [hgdn j hne]
        exact hlt3
    · obtain ⟨hne, hjl, hq, hdev2, hqs, hSO, hlt3⟩ :=
        hM.queue_elems d r hold j hjq
      refine ⟨?_, ?_, ?_, ?_, ?_, ?_⟩
      · show j < (stX.procs.set i pG).length
        rw [hlen2]
        exact hjl
      · show ((stX.procs.set i pG).getD j defaultProc).phase = _
        rw [hgdn j hne]
        exact hq
      · show ((stX.procs.set i pG).getD j defaultProc).cur_op.device_id = _
        rw [hgdn j hne]
        exact hdev2
      · show ((stX.procs.set i pG).getD j defaultProc).queue_start ≤
          stX.clock
        rw [hgdn j hne]
        exact hqs
      · show StepOk w ((stX.procs.set i pG).getD j defaultProc)
        rw [hgdn j hne]
        exact hSO
      · show ((stX.procs.set i pG).getD j defaultProc).stepIdx <
          w.base_sequence.length
        rw [hgdn j hne]
        exact hlt3
  · intro e2 he2
    rcases (mem_felInsert e2 _ stX.fel).mp he2 with rfl | he3
    · refine ⟨?_, ?_⟩
      · show i < (stX.procs.set i pG).length
        rw [hlen2]
        exact hi
      · show ((stX.procs.set i pG).getD i defaultProc).phase =
            ProcPhase.granted ∧
          ((stX.procs.set i pG).getD i defaultProc).queue_start ≤
            stX.clock ∧
          StepOk w ((stX.procs.set i pG).getD i defaultProc) ∧
          ((stX.procs.set i pG).getD i defaultProc).stepIdx <
            w.base_sequence.length
        rw [hgds]
        refine ⟨hphase, ?_, hSOG, ?_⟩
        · rw [hqs0]
        · rw [hstepIdx]
          exact hidx
    · obtain ⟨hne, hAM⟩ := hM.act_matches e2 he3
      exact ActMatches_congr w stX _ e2 hlen2.symm (hgdn _ hne) hAM
  · intro j hj
    have hj2 : j < stX.procs.length := by simpa using hj
    show felTokens (felInsert ({ time := stX.clock,
                                 seq := stX.seqCounter,
                                 act := Activation.acquired i } : FelEntry)
        stX.fel) j +
      queueTokens (aset stX.resources op_def.device_id
        { res with users := res.users + 1 }) j =
      if ((stX.procs.set i pG).getD j defaultProc).phase =
        ProcPhase.finished then 0 else 1
    rw [felTokens_felInsert, felTokens_cons]
    have hqtok := queueTokens_aset stX.resources op_def.device_id res
      { res with users := res.users + 1 } j hres hM.res_keys_nodup
    dsimp only at hqtok ⊢
    have hred : actPid (Activation.acquired i) = i := rfl
    rw [hred]
    by_cases hji : j = i
    · rw [if_pos hji.symm, hji, hgds, if_neg hnotf]
      rw [hji] at hqtok
      have h0 := hM.tok_i
      rw [pidCount_eq] at h0
      omega
    · rw [if_neg (fun hc => hji hc.symm), hgdn j hji]
      have h0 := hM.tok_m j hj2 hji
      rw [pidCount_eq] at h0
      by_cases hfin : (stX.procs.getD j defaultProc).phase =
        ProcPhase.finished
      · rw [if_pos hfin] at h0 ⊢
        omega
      · rw [if_neg hfin] at h0 ⊢
        omega
  · intro j hj k hk
    have hj2 : j < stX.procs.length := by simpa using hj
    by_cases hji : j = i
    · subst hji
      rw [hgds] at hk
      rw [hstepIdx] at hk
      exact hM.steps_resolvable j hj2 k hk
    · rw [hgdn j hji] at hk
      exact hM.steps_resolvable j hj2 k hk
  · intro j hj hfin
    have hj2 : j < stX.procs.length := by simpa using hj
    by_cases hji : j = i
    · subst hji
      rw [hgds] at hfin
      exact absurd hfin hnotf
    · rw [hgdn j hji] at hfin ⊢
      exact hM.finished_m j hj2 hji hfin
  · intro j hj
    have hj2 : j < stX.procs.length := by simpa using hj
    by_cases hji : j = i
    · subst hji
      rw [hgds, hsid]
      exact hM.proc_sid j hj2
    · rw [hgdn j hji]
      exact hM.proc_sid j hj2
  · intro k
    constructor
    · intro h2
      rcases (hM.start_mem k).mp h2 with hk | ⟨j, hjl, hjne, hph, hk⟩
      · refine ⟨i, ?_, ?_, hk⟩
        · rw [hlen2]
          exact hi
        · rw [hgds]
          exact hnotent
      · refine ⟨j, ?_, ?_, hk⟩
        · rw [hlen2]
          exact hjl
        · rw [hgdn j hjne]
          exact hph
    · rintro ⟨j, hjl, hph, hk⟩
      rw [hlen2] at hjl
      apply (hM.start_mem k).mpr
      by_cases hji : j = i
      · subst hji
        exact Or.inl hk
      · rw [hgdn j hji] at hph
        exact Or.inr ⟨j, hjl, hji, hph, hk⟩
  · intro k
    constructor
    · intro h2
      obtain ⟨j, hjl, hjne, hfin, hk⟩ := (hM.end_mem k).mp h2
      refine ⟨j, ?_, ?_, hk⟩
      · rw [hlen2]
        exact hjl
      · rw [hgdn j hjne]
        exact hfin
    · rintro ⟨j, hjl, hfin, hk⟩
      rw [hlen2] at hjl
      by_cases hji : j = i
      · subst hji
        rw [hgds] at hfin
        exact absurd hfin hnotf
      · rw [hgdn j hji] at hfin
        exact (hM.end_mem k).mpr ⟨j, hjl, hji, hfin, hk⟩
  · exact hM.end_keys_nodup
  · intro ev2 hev2
    rcases List.mem_append.mp hev2 with h2 | h2
    · exact hM.log_dur_nonneg ev2 h2
    · rw [List.mem_singleton.mp h2]
      exact hdur
  · intro d r hdr
    rcases (mem_aset_nodup stX.resources op_def.device_id
        { res with users := res.users + 1 } (d, r)
        hM.res_keys_nodup).mp hdr with heq | ⟨hold, -⟩
    · rw [Prod.mk.injEq] at heq
      obtain ⟨rfl, rfl⟩ := heq
      show busySum (stX.event_log ++ [ev]) op_def.device_id +
        execSum stX.clock (stX.procs.set i pG) op_def.device_id ≤
        (res.capacity : ℚ) * stX.clock
      rw [hbusy, hexec]
      exact hM.util_bound _ res hmem
    · show busySum (stX.event_log ++ [ev]) d +
        execSum stX.clock (stX.procs.set i pG) d ≤
        (r.capacity : ℚ) * stX.clock
      rw [hbusy, hexec]
      exact hM.util_bound d r hold
  · show Phi w _ = Phi w stX + _
    rw [Phi_eq, Phi_eq]
    dsimp only
    rw [felW_felInsert, felW_cons]
    dsimp only
    have hactW : actW w.base_sequence.length (stX.procs.set i pG)
        (Activation.acquired i) =
        tokW w.base_sequence.length
          ((stX.procs.getD i defaultProc).stepIdx) := by
      show tokW w.base_sequence.length
        ((stX.procs.set i pG).getD i defaultProc).stepIdx = _
      rw [hgds, hstepIdx]
    rw [hactW, felW_congr _ _ _ _ hscongr,
      queueW_congr _ _ _ _ hscongr]
    have hq := queueW_aset w.base_sequence.length stX.procs
      stX.resources op_def.device_id res
      { res with users := res.users + 1 } hres hM.res_keys_nodup
    dsimp only at hq
    omega

/-- The FIFO-enqueue branch of `beginStep` restores the full invariant
from the between-steps one and adds exactly one token weight to the
termination measure. -/
theorem begin_queue_inv (w : Workflow) (stX st2 : EngineState) (i : ℕ)
    (step : SequenceStep) (op_def : Operation) (res : ResourceState)
    (ev : SimulationEvent) (pQ : ProcState)
    (hM : MidInv w stX i)
    (hidx : (stX.procs.getD i defaultProc).stepIdx <
      w.base_sequence.length)
    (hget : w.base_sequence.get? (stX.procs.getD i defaultProc).stepIdx =
      some step)
    (hop : findOp w step.operation_id = some op_def)
    (hres : alookup stX.resources op_def.device_id = some res)
    (hncap : ¬ res.users < res.capacity)
    (hevC : ev.event_type ≠ ("COMPLETE")) (hdur : 0 ≤ ev.duration)
    (hpQ : pQ = { stX.procs.getD i defaultProc with
      queue_start := stX.clock, cur_opid := step.operation_id,
      cur_op := op_def, phase := ProcPhase.queued })
    (hst : st2 = { stX with
      resources := aset stX.resources op_def.device_id
        { res with queue := res.queue ++ [i] },
      procs := stX.procs.set i pQ,
      event_log := stX.event_log ++ [ev] }) :
    EngInv w st2 ∧ st2.procs.length = stX.procs.length ∧
      Phi w st2 = Phi w stX +
        tokW w.base_sequence.length
          ((stX.procs.getD i defaultProc).stepIdx) := by
  subst hst
  have hi := hM.hi
  have hmem : (op_def.device_id, res) ∈ stX.resources :=
    alookup_mem stX.resources op_def.device_id res hres
  have hphase : pQ.phase = ProcPhase.queued := by rw [hpQ]
  have hqs0 : pQ.queue_start = stX.clock := by rw [hpQ]
  have hstepIdx : pQ.stepIdx = (stX.procs.getD i defaultProc).stepIdx := by
    rw [hpQ]
  have hsid : pQ.sample_id = (stX.procs.getD i defaultProc).sample_id := by
    rw [hpQ]
  have hopid : pQ.cur_opid = step.operation_id := by rw [hpQ]
  have hcur : pQ.cur_op = op_def := by rw [hpQ]
  have hnotent : pQ.phase ≠ ProcPhase.entering := by
    rw [hphase]
    decide
  have hnotf : pQ.phase ≠ ProcPhase.finished := by
    rw [hphase]
    decide
  have hnotx : pQ.phase ≠ ProcPhase.executing := by
    rw [hphase]
    decide
  have hnotg : pQ.phase ≠ ProcPhase.granted := by
    rw [hphase]
    decide
  have hgds : (stX.procs.set i pQ).getD i defaultProc = pQ :=
    getD_set_self stX.procs i hi pQ defaultProc
  have hgdn : ∀ j, j ≠ i →
      (stX.procs.set i pQ).getD j defaultProc =
        stX.procs.getD j defaultProc :=
    fun j hj => getD_set_ne stX.procs i j (fun h2 => hj h2.symm) pQ
      defaultProc
  have hlen2 : (stX.procs.set i pQ).length = stX.procs.length := by simp
  have hscongr := stepIdx_set_congr stX.procs i pQ hi hstepIdx
  have hSOQ : StepOk w pQ := by
    refine ⟨step, ?_, hopid, ?_⟩
    · rw [hstepIdx]
      exact hget
    · rw [hcur]
      exact hop
  have hbusy : ∀ d, busySum (stX.event_log ++ [ev]) d =
      busySum stX.event_log d := by
    intro d
    rw [busySum_append, if_neg (fun hc => hevC hc.2), add_zero]
  have hexec : ∀ d, execSum stX.clock (stX.procs.set i pQ) d =
      execSum stX.clock (stX.procs.set i defaultProc) d :=
    fun d => execSum_mask stX.clock stX.procs i pQ d hi
      (execAcc_of_not_exec stX.clock d pQ hnotx)
  have hactm : ∀ d, activeCount (stX.procs.set i pQ) d =
      activeCount (stX.procs.set i defaultProc) d :=
    fun d => activeCount_mask stX.procs i pQ d hi
      (activeInd_of_inactive d pQ hnotg hnotx)
  refine ⟨⟨?_, ?_, ?_, ?_, ?_, ?_, ?_, ?_, ?_, ?_, ?_, ?_, ?_, ?_, ?_, ?_,
    ?_, ?_⟩, hlen2, ?_⟩
  · exact aset_keys_nodup _ _ _ hM.res_keys_nodup
  · intro dev hdev
    exact (alookup_aset_isSome _ _ _ _).mpr
      (Or.inr (hM.res_cover dev hdev))
  · intro d r hdr
    rcases (mem_aset_nodup stX.resources op_def.device_id
        { res with queue := res.queue ++ [i] } (d, r)
        hM.res_keys_nodup).mp hdr with heq | ⟨hold, -⟩
    · rw [Prod.mk.injEq] at heq
      obtain ⟨rfl, rfl⟩ := heq
      obtain ⟨dev, hdev, hd, hc⟩ := hM.res_entries _ res hmem
      exact ⟨dev, hdev, hd, hc⟩
    · exact hM.res_entries d r hold
  · intro d r hdr
    rcases (mem_aset_nodup stX.resources op_def.device_id
        { res with queue := res.queue ++ [i] } (d, r)
        hM.res_keys_nodup).mp hdr with heq | ⟨hold, -⟩
    · rw [Prod.mk.injEq] at heq
      obtain ⟨rfl, rfl⟩ := heq
      exact hM.res_cap_pos _ res hmem
    · exact hM.res_cap_pos d r hold
  · intro d r hdr
    rcases (mem_aset_nodup stX.resources op_def.device_id
        { res with queue := res.queue ++ [i] } (d, r)
        hM.res_keys_nodup).mp hdr with heq | ⟨hold, -⟩
    · rw [Prod.mk.injEq] at heq
      obtain ⟨rfl, rfl⟩ := heq
      exact hM.res_users_le _ res hmem
    · exact hM.res_users_le d r hold
  · intro d r hdr hqne
    rcases (mem_aset_nodup stX.resources op_def.device_id
        { res with queue := res.queue ++ [i] } (d, r)
        hM.res_keys_nodup).mp hdr with heq | ⟨hold, -⟩
    · rw [Prod.mk.injEq] at heq
      obtain ⟨rfl, rfl⟩ := heq
      exact Nat.le_antisymm (hM.res_users_le _ res hmem)
        (Nat.not_lt.mp hncap)
    · exact hM.res_queue_full d r hold hqne
  · intro d r hdr
    rcases (mem_aset_nodup stX.resources op_def.device_id
        { res with queue := res.queue ++ [i] } (d, r)
        hM.res_keys_nodup).mp hdr with heq | ⟨hold, -⟩
    · rw [Prod.mk.injEq] at heq
      obtain ⟨rfl, rfl⟩ := heq
      show res.users = activeCount (stX.procs.set i pQ) op_def.device_id
      rw [hactm]
      exact hM.res_users_eq _ res hmem
    · show r.users = activeCount (stX.procs.set i pQ) d
      rw [hactm]
      exact hM.res_users_eq d r hold
  · intro d r hdr j hjq
    rcases (mem_aset_nodup stX.resources op_def.device_id
        { res with queue := res.queue ++ [i] } (d, r)
        hM.res_keys_nodup).mp hdr with heq | ⟨hold, -⟩
    · rw [Prod.mk.injEq] at heq
      obtain ⟨rfl, rfl⟩ := heq
      rcases List.mem_append.mp hjq with hjq2 | hjq2
      · obtain ⟨hne, hjl, hq, hdev2, hqs, hSO, hlt3⟩ :=
          hM.queue_elems _ res hmem j hjq2
        refine ⟨?_, ?_, ?_, ?_, ?_, ?_⟩
        · show j < (stX.procs.set i pQ).length
          rw [hlen2]
          exact hjl
        · show ((stX.procs.set i pQ).getD j defaultProc).phase = _
          rw [hgdn j hne]
          exact hq
        · show ((stX.procs.set i pQ).getD j
              defaultProc).cur_op.device_id = _
          rw [hgdn j hne]
          exact hdev2
        · show ((stX.procs.set i pQ).getD j defaultProc).queue_start ≤
            stX.clock
          rw [hgdn j hne]
          exact hqs
        · show StepOk w ((stX.procs.set i pQ).getD j defaultProc)
          rw [hgdn j hne]
          exact hSO
        · show ((stX.procs.set i pQ).getD j defaultProc).stepIdx <
            w.base_sequence.length
          rw [hgdn j hne]
          exact hlt3
      · rw [List.mem_singleton.mp hjq2]
        refine ⟨?_, ?_, ?_, ?_, ?_, ?_⟩
        · show i < (stX.procs.set i pQ).length
          rw [hlen2]
          exact hi
        · show ((stX.procs.set i pQ).getD i defaultProc).phase = _
          rw [hgds]
          exact hphase
        · show ((stX.procs.set i pQ).getD i
              defaultProc).cur_op.device_id = _
          rw [hgds, hcur]
        · show ((stX.procs.set i pQ).getD i defaultProc).queue_start ≤
            stX.clock
          rw [hgds, hqs0]
        · show StepOk w ((stX.procs.set i pQ).getD i defaultProc)
          rw [hgds]
          exact hSOQ
        · show ((stX.procs.set i pQ).getD i defaultProc).stepIdx <
            w.base_sequence.length
          rw [hgds, hstepIdx]
          exact hidx
    · obtain ⟨hne, hjl, hq, hdev2, hqs, hSO, hlt3⟩ :=
        hM.queue_elems d r hold j hjq
      refine ⟨?_, ?_, ?_, ?_, ?_, ?_⟩
      · show j < (stX.procs.set i pQ).length
        rw [hlen2]
        exact hjl
      · show ((stX.procs.set i pQ).getD j defaultProc).phase = _
        rw [hgdn j hne]
        exact hq
      · show ((stX.procs.set i pQ).getD j defaultProc).cur_op.device_id = _
        rw [hgdn j hne]
        exact hdev2
      · show ((stX.procs.set i pQ).getD j defaultProc).queue_start ≤
          stX.clock
        rw [hgdn j hne]
        exact hqs
      · show StepOk w ((stX.procs.set i pQ).getD j defaultProc)
        rw [hgdn j hne]
        exact hSO
      · show ((stX.procs.set i pQ).getD j defaultProc).stepIdx <
          w.base_sequence.length
        rw [hgdn j hne]
        exact hlt3
  · intro e2 he2
    obtain ⟨hne, hAM⟩ := hM.act_matches e2 he2
    exact ActMatches_congr w stX _ e2 hlen2.symm (hgdn _ hne) hAM
  · intro j hj
    have hj2 : j < stX.procs.length := by simpa using hj
    show felTokens stX.fel j +
      queueTokens (aset stX.resources op_def.device_id
        { res with queue := res.queue ++ [i] }) j =
      if ((stX.procs.set i pQ).getD j defaultProc).phase =
        ProcPhase.finished then 0 else 1
    have hqtok := queueTokens_aset stX.resources op_def.device_id res
      { res with queue := res.queue ++ [i] } j hres hM.res_keys_nodup
    dsimp only at hqtok
    rw [List.count_append] at hqtok
    by_cases hji : j = i
    · have hc1 : List.count j [i] = 1 := by
        rw [hji]
        simp
      rw [hc1] at hqtok
      rw [hji, hgds, if_neg hnotf]
      rw [hji] at hqtok
      have h0 := hM.tok_i
      rw [pidCount_eq] at h0
      omega
    · have hc0 : List.count j [i] = 0 := by
        rw [List.count_eq_zero]
        intro hc
        exact hji (List.mem_singleton.mp hc)
      rw [hc0] at hqtok
      rw [hgdn j hji]
      have h0 := hM.tok_m j hj2 hji
      rw [pidCount_eq] at h0
      by_cases hfin : (stX.procs.getD j defaultProc).phase =
        ProcPhase.finished
      · rw [if_pos hfin] at h0 ⊢
        omega
      · rw [if_neg hfin] at h0 ⊢
        omega
  · intro j hj k hk
    have hj2 : j < stX.procs.length := by simpa using hj
    by_cases hji : j = i
    · subst hji
      rw [hgds] at hk
      rw [hstepIdx] at hk
      exact hM.steps_resolvable j hj2 k hk
    · rw [hgdn j hji] at hk
      exact hM.steps_resolvable j hj2 k hk
  · intro j hj hfin
    have hj2 : j < stX.procs.length := by simpa using hj
    by_cases hji : j = i
    · subst hji
      rw [hgds] at hfin
      exact absurd hfin hnotf
    · rw [hgdn j hji] at hfin ⊢
      exact hM.finished_m j hj2 hji hfin
  · intro j hj
    have hj2 : j < stX.procs.length := by simpa using hj
    by_cases hji : j = i
    · subst hji
      rw [hgds, hsid]
      exact hM.proc_sid j hj2
    · rw [hgdn j hji]
      exact hM.proc_sid j hj2
  · intro k
    constructor
    · intro h2
      rcases (hM.start_mem k).mp h2 with hk | ⟨j, hjl, hjne, hph, hk⟩
      · refine ⟨i, ?_, ?_, hk⟩
        · rw [hlen2]
          exact hi
        · rw [hgds]
          exact hnotent
      · refine ⟨j, ?_, ?_, hk⟩
        · rw [hlen2]
          exact hjl
        · rw [hgdn j hjne]
          exact hph
    · rintro ⟨j, hjl, hph, hk⟩
      rw [hlen2] at hjl
      apply (hM.start_mem k).mpr
      by_cases hji : j = i
      · subst hji
        exact Or.inl hk
      · rw [hgdn j hji] at hph
        exact Or.inr ⟨j, hjl, hji, hph, hk⟩
  · intro k
    constructor
    · intro h2
      obtain ⟨j, hjl, hjne, hfin, hk⟩ := (hM.end_mem k).mp h2
      refine ⟨j, ?_, ?_, hk⟩
      · rw [hlen2]
        exact hjl
      · rw [hgdn j hjne]
        exact hfin
    · rintro ⟨j, hjl, hfin, hk⟩
      rw [hlen2] at hjl
      by_cases hji : j = i
      · subst hji
        rw [hgds] at hfin
        exact absurd hfin hnotf
      · rw [hgdn j hji] at hfin
        exact (hM.end_mem k).mpr ⟨j, hjl, hji, hfin, hk⟩
  · exact hM.end_keys_nodup
  · intro ev2 hev2
    rcases List.mem_append.mp hev2 with h2 | h2
    · exact hM.log_dur_nonneg ev2 h2
    · rw [List.mem_singleton.mp h2]
      exact hdur
  · intro d r hdr
    rcases (mem_aset_nodup stX.resources op_def.device_id
        { res with queue := res.queue ++ [i] } (d, r)
        hM.res_keys_nodup).mp hdr with heq | ⟨hold, -⟩
    · rw [Prod.mk.injEq] at heq
      obtain ⟨rfl, rfl⟩ := heq
      show busySum (stX.event_log ++ [ev]) op_def.device_id +
        execSum stX.clock (stX.procs.set i pQ) op_def.device_id ≤
        (res.capacity : ℚ) * stX.clock
      rw [hbusy, hexec]
      exact hM.util_bound _ res hmem
    · show busySum (stX.event_log ++ [ev]) d +
        execSum stX.clock (stX.procs.set i pQ) d ≤
        (r.capacity : ℚ) * stX.clock
      rw [hbusy, hexec]
      exact hM.util_bound d r hold
  · show Phi w _ = Phi w stX + _
    rw [Phi_eq, Phi_eq]
    dsimp only
    rw [felW_congr _ _ _ _ hscongr, queueW_congr _ _ _ _ hscongr]
    have hq := queueW_aset w.base_sequence.length stX.procs
      stX.resources op_def.device_id res
      { res with queue := res.queue ++ [i] } hres hM.res_keys_nodup
    dsimp only at hq
    rw [List.map_append, List.sum_append, List.map_cons, List.map_nil,
      List.sum_cons, List.sum_nil, Nat.add_zero] at hq
    omega

/-- `beginStep` (either branch) from the between-steps invariant. -/
theorem begin_preserves (w : Workflow) (stX st2 : EngineState) (i : ℕ)
    (hb : beginStep w stX i = Except.ok st2) (hM : MidInv w stX i)
    (hidx : (stX.procs.getD i defaultProc).stepIdx <
      w.base_sequence.length) :
    EngInv w st2 ∧ st2.procs.length = stX.procs.length ∧
      Phi w st2 = Phi w stX +
        tokW w.base_sequence.length
          ((stX.procs.getD i defaultProc).stepIdx) := by
  unfold beginStep at hb
  dsimp only at hb
  rcases hget : w.base_sequence.get? (getProc stX i).stepIdx with _ | step
  · simp only [hget] at hb
    exact absurd hb (by simp)
  simp only [hget] at hb
  rcases hop : findOp w step.operation_id with _ | op_def
  · simp only [hop] at hb
    exact absurd hb (by simp)
  simp only [hop] at hb
  rcases hres : alookup stX.resources op_def.device_id with _ | res
  · simp only [hres] at hb
    exact absurd hb (by simp)
  simp only [hres] at hb
  rcases hmk : mkSimulationEvent stX.clock ("QUEUED")
      (getProc stX i).sample_id step.operation_id op_def.device_id 0 0
      (res.queue.length : ℤ) ("") with e | ev
  · simp only [hmk] at hb
    exact absurd hb (by simp)
  simp only [hmk] at hb
  have hev := mkSimulationEvent_ok_eq _ _ _ _ _ _ _ _ _ _ hmk
  subst hev
  by_cases hcap : res.users < res.capacity
  · rw [if_pos hcap] at hb
    injection hb with hb2
    refine begin_grant_inv w stX st2 i step op_def res _ _ hM hidx hget
      hop hres hcap ?_ ?_ rfl (hb2.symm.trans rfl)
    · intro hc
      simp at hc
    · exact le_refl 0
  · rw [if_neg hcap] at hb
    injection hb with hb2
    refine begin_queue_inv w stX st2 i step op_def res _ _ hM hidx hget
      hop hres hcap ?_ ?_ rfl (hb2.symm.trans rfl)
    · intro hc
      simp at hc
    · exact le_refl 0

/-- `advanceProc` from the between-steps invariant: the full invariant
holds afterwards and the measure grows by at most one token weight. -/
theorem advance_preserves (w : Workflow) (stX st2 : EngineState) (i : ℕ)
    (hM : MidInv w stX i) (hadv : advanceProc w stX i = Except.ok st2) :
    EngInv w st2 ∧ st2.procs.length = stX.procs.length ∧
      Phi w st2 ≤ Phi w stX +
        tokW w.base_sequence.length
          ((stX.procs.getD i defaultProc).stepIdx) := by
  unfold advanceProc at hadv
  by_cases hlt : (getProc stX i).stepIdx < w.base_sequence.length
  · rw [if_pos hlt] at hadv
    obtain ⟨h1, h2, h3⟩ := begin_preserves w stX st2 i hadv hM hlt
    exact ⟨h1, h2, le_of_eq h3⟩
  · rw [if_neg hlt] at hadv
    injection hadv with hadv2
    obtain ⟨h1, h2, h3⟩ := finish_preserves w stX i hM hlt
    rw [hadv2] at h1 h2 h3
    exact ⟨h1, h2, by rw [h3]; exact Nat.le_add_right _ _⟩

/-- Popping an `init`/`entered` activation of an entering process and
recording its start time establishes the between-steps invariant, and
accounts for exactly the popped activation's weight. -/
theorem pop_entering_MidInv (w : Workflow) (st stM : EngineState)
    (e : FelEntry) (rest : List FelEntry) (i : ℕ)
    (hfel : st.fel = e :: rest) (hpid : actPid e.act = i)
    (hE : EngInv w st) (hT : TimeInv st)
    (hph : (st.procs.getD i defaultProc).phase = ProcPhase.entering)
    (hstep0 : (st.procs.getD i defaultProc).stepIdx = 0)
    (hstM : stM = { st with
      clock := e.time,
      fel := rest,
      sample_start_times := aset st.sample_start_times
        (st.procs.getD i defaultProc).sample_id e.time }) :
    MidInv w stM i ∧ stM.procs.length = st.procs.length ∧
      (stM.procs.getD i defaultProc).stepIdx = 0 ∧
      Phi w st = actW w.base_sequence.length st.procs e.act + Phi w stM := by
  subst hstM
  have hemem : e ∈ st.fel := by
    rw [hfel]
    exact List.mem_cons_self e rest
  have hilen : i < st.procs.length := by
    have h2 := (hE.act_matches e hemem).1
    rw [hpid] at h2
    exact h2
  have hdt : st.clock ≤ e.time := hT.2.2.1 e hemem
  have htok := hE.tok_count i hilen
  rw [if_neg (by rw [hph]; decide)] at htok
  rw [pidCount_eq, hfel, felTokens_cons, hpid, if_pos rfl] at htok
  have hfel0 : felTokens rest i = 0 := by omega
  have hqt0 : queueTokens st.resources i = 0 := by omega
  have hACdef : ∀ d, activeCount (st.procs.set i defaultProc) d =
      activeCount st.procs d := by
    intro d
    have h1 := activeCount_set st.procs i defaultProc d hilen
    rw [activeInd_default,
      activeInd_of_inactive d _ (by rw [hph]; decide)
        (by rw [hph]; decide)] at h1
    omega
  refine ⟨⟨hilen, hE.res_keys_nodup, hE.res_cover, hE.res_entries,
    hE.res_cap_pos, hE.res_users_le, hE.res_queue_full, ?_, ?_, ?_, ?_,
    ?_, hE.steps_resolvable, ?_, ?_, hE.proc_sid, ?_, ?_,
    hE.end_keys_nodup, hE.log_dur_nonneg, ?_⟩, rfl, hstep0, ?_⟩
  · intro d r hdr
    show r.users = activeCount (st.procs.set i defaultProc) d
    rw [hACdef]
    exact hE.res_users_eq d r hdr
  · intro d r hdr j hjq
    obtain ⟨hjl, hq, hdev, hqs, hSO, hlt3⟩ := hE.queue_elems d r hdr j hjq
    have hji : j ≠ i := fun hc =>
      (queueTokens_eq_zero st.resources i hqt0 d r hdr) (hc ▸ hjq)
    exact ⟨hji, hjl, hq, hdev, le_trans hqs hdt, hSO, hlt3⟩
  · intro e2 he2
    have he2b : e2 ∈ st.fel := by
      rw [hfel]
      exact List.mem_cons_of_mem e he2
    exact ⟨felTokens_eq_zero rest i hfel0 e2 he2, hE.act_matches e2 he2b⟩
  · show pidCount _ i = 0
    rw [pidCount_eq]
    show felTokens rest i + queueTokens st.resources i = 0
    omega
  · intro j hjl hji
    have h0 := hE.tok_count j hjl
    rw [pidCount_eq, hfel, felTokens_cons, hpid,
      if_neg (fun hc => hji hc.symm)] at h0
    show pidCount _ j = _
    rw [pidCount_eq]
    show felTokens rest j + queueTokens st.resources j = _
    by_cases hfin : (st.procs.getD j defaultProc).phase =
      ProcPhase.finished
    · rw [if_pos hfin] at h0 ⊢
      omega
    · rw [if_neg hfin] at h0 ⊢
      omega
  · show (st.procs.getD i defaultProc).stepIdx ≤ w.base_sequence.length
    rw [hstep0]
    exact Nat.zero_le _
  · intro j hjl hji hfin
    exact hE.finished_idx j hjl hfin
  · intro k
    have hsid := hE.proc_sid i hilen
    show (alookup (aset st.sample_start_times
      (st.procs.getD i defaultProc).sample_id e.time) k).isSome ↔ _
    rw [alookup_aset_isSome]
    constructor
    · rintro (hk | h2)
      · left
        rw [hk, hsid]
      · obtain ⟨j, hjl, hph2, hk⟩ := (hE.start_mem k).mp h2
        right
        refine ⟨j, hjl, ?_, hph2, hk⟩
        intro hji
        rw [hji] at hph2
        exact hph2 hph
    · rintro (hk | ⟨j, hjl, hji, hph2, hk⟩)
      · left
        rw [hk, hsid]
      · exact Or.inr ((hE.start_mem k).mpr ⟨j, hjl, hph2, hk⟩)
  · intro k
    constructor
    · intro h2
      obtain ⟨j, hjl, hfin, hk⟩ := (hE.end_mem k).mp h2
      refine ⟨j, hjl, ?_, hfin, hk⟩
      intro hji
      rw [hji] at hfin
      exact absurd hfin (by rw [hph]; decide)
    · rintro ⟨j, hjl, hji, hfin, hk⟩
      exact (hE.end_mem k).mpr ⟨j, hjl, hfin, hk⟩
  · intro d r hdr
    have hb := hE.util_bound d r hdr
    have hshift := execSum_clock_shift st.clock e.time st.procs d
    have hmask : execSum e.time (st.procs.set i defaultProc) d =
        execSum e.time st.procs d := by
      have h1 := execSum_set e.time st.procs i defaultProc d hilen
      rw [execAcc_default,
        execAcc_of_not_exec e.time d _ (by rw [hph]; decide)] at h1
      linarith
    have hcnt : execCount st.procs d ≤ r.capacity :=
      le_trans (execCount_le_activeCount st.procs d)
        (by rw [← hE.res_users_eq d r hdr]; exact hE.res_users_le d r hdr)
    have hcntQ : (execCount st.procs d : ℚ) * (e.time - st.clock) ≤
        (r.capacity : ℚ) * (e.time - st.clock) :=
      mul_le_mul_of_nonneg_right (by exact_mod_cast hcnt) (by linarith)
    have hexpand : (r.capacity : ℚ) * e.time =
        (r.capacity : ℚ) * st.clock +
          (r.capacity : ℚ) * (e.time - st.clock) := by ring
    show busySum st.event_log d +
      execSum e.time (st.procs.set i defaultProc) d ≤
      (r.capacity : ℚ) * e.time
    rw [hmask, hshift, hexpand]
    linarith
  · rw [Phi_eq, Phi_eq]
    dsimp only
    rw [hfel, felW_cons]
    omega

theorem actW_congr_pid (S : ℕ) (p1 p2 : List ProcState) (a : Activation)
    (h : (p1.getD (actPid a) defaultProc).stepIdx =
      (p2.getD (actPid a) defaultProc).stepIdx) :
    actW S p1 a = actW S p2 a := by
  cases a with
  | init i =>
      dsimp only [actPid] at h
      show tokW S (p1.getD i defaultProc).stepIdx + 2 =
        tokW S (p2.getD i defaultProc).stepIdx + 2
      rw [h]
  | entered i =>
      dsimp only [actPid] at h
      show tokW S (p1.getD i defaultProc).stepIdx + 1 =
        tokW S (p2.getD i defaultProc).stepIdx + 1
      rw [h]
  | acquired i =>
      dsimp only [actPid] at h
      show tokW S (p1.getD i defaultProc).stepIdx =
        tokW S (p2.getD i defaultProc).stepIdx
      rw [h]
  | opDone i =>
      dsimp only [actPid] at h
      show tokW S (p1.getD i defaultProc).stepIdx - 1 =
        tokW S (p2.getD i defaultProc).stepIdx - 1
      rw [h]

theorem felW_congr_mem (S : ℕ) (p1 p2 : List ProcState)
    (fel : List FelEntry)
    (h : ∀ e ∈ fel, (p1.getD (actPid e.act) defaultProc).stepIdx =
      (p2.getD (actPid e.act) defaultProc).stepIdx) :
    felW S p1 fel = felW S p2 fel := by
  unfold felW
  congr 1
  exact List.map_congr_left
    (fun e he => actW_congr_pid S p1 p2 e.act (h e he))

theorem queueW_congr_mem (S : ℕ) (p1 p2 : List ProcState)
    (res : List (String × ResourceState))
    (h : ∀ dr ∈ res, ∀ j ∈ dr.2.queue,
      (p1.getD j defaultProc).stepIdx = (p2.getD j defaultProc).stepIdx) :
    queueW S p1 res = queueW S p2 res := by
  unfold queueW
  congr 1
  refine List.map_congr_left (fun dr hdr => ?_)
  congr 1
  exact List.map_congr_left (fun j hj => by rw [h dr hdr j hj])

/-- Popping an `opDone` activation when nobody waits on the device:
the `COMPLETE` event is logged, the slot is released and the loop index
advanced, re-establishing the between-steps invariant. -/
theorem opdone_release_MidInv (w : Workflow) (st stM : EngineState)
    (e : FelEntry) (rest : List FelEntry) (i : ℕ) (res : ResourceState)
    (ev : SimulationEvent) (pI : ProcState)
    (hfel : st.fel = e :: rest) (hact : e.act = Activation.opDone i)
    (hE : EngInv w st) (hT : TimeInv st)
    (hres : alookup st.resources
      (st.procs.getD i defaultProc).cur_op.device_id = some res)
    (hq : res.queue = [])
    (hevC : ev.device_id = (st.procs.getD i defaultProc).cur_op.device_id)
    (hevT : ev.event_type = ("COMPLETE"))
    (hevD : ev.duration = (st.procs.getD i defaultProc).duration)
    (hpI : pI = { st.procs.getD i defaultProc with
      stepIdx := (st.procs.getD i defaultProc).stepIdx + 1 })
    (hstM : stM = { st with
      clock := e.time,
      fel := rest,
      resources := aset st.resources
        (st.procs.getD i defaultProc).cur_op.device_id
        { res with users := res.users - 1, queue := [] },
      procs := st.procs.set i pI,
      event_log := st.event_log ++ [ev] }) :
    MidInv w stM i ∧ stM.procs.length = st.procs.length ∧
      (stM.procs.getD i defaultProc).stepIdx =
        (st.procs.getD i defaultProc).stepIdx + 1 ∧
      (st.procs.getD i defaultProc).stepIdx < w.base_sequence.length ∧
      Phi w st = actW w.base_sequence.length st.procs e.act + Phi w stM := by
  subst hstM
  have hemem : e ∈ st.fel := by
    rw [hfel]
    exact List.mem_cons_self e rest
  have hdt : st.clock ≤ e.time := hT.2.2.1 e hemem
  have hAM := hE.act_matches e hemem
  unfold ActMatches at hAM
  rw [hact] at hAM
  dsimp only [actPid] at hAM
  obtain ⟨hilen, hphase, heqt, hwt0, hdur0, hSO, hltS⟩ := hAM
  have hmem : ((st.procs.getD i defaultProc).cur_op.device_id, res) ∈
      st.resources :=
    alookup_mem st.resources _ res hres
  have htok := hE.tok_count i hilen
  rw [if_neg (by rw [hphase]; decide)] at htok
  rw [pidCount_eq, hfel, felTokens_cons, hact] at htok
  dsimp only [actPid] at htok
  rw [if_pos rfl] at htok
  have hfel0 : felTokens rest i = 0 := by omega
  have hqt0 : queueTokens st.resources i = 0 := by omega
  have hiq := queueTokens_eq_zero st.resources i hqt0
  have hfne := felTokens_eq_zero rest i hfel0
  have hpIstep : pI.stepIdx = (st.procs.getD i defaultProc).stepIdx + 1 :=
    by rw [hpI]
  have hpIphase : pI.phase = ProcPhase.executing := by
    rw [hpI]
    exact hphase
  have hpIsid : pI.sample_id = (st.procs.getD i defaultProc).sample_id :=
    by rw [hpI]
  have hgds : (st.procs.set i pI).getD i defaultProc = pI :=
    getD_set_self st.procs i hilen pI defaultProc
  have hgdn : ∀ j, j ≠ i →
      (st.procs.set i pI).getD j defaultProc =
        st.procs.getD j defaultProc :=
    fun j hj => getD_set_ne st.procs i j (fun h2 => hj h2.symm) pI
      defaultProc
  have hlen2 : (st.procs.set i pI).length = st.procs.length := by simp
  have hind1 : activeInd (st.procs.getD i defaultProc).cur_op.device_id
      (st.procs.getD i defaultProc) = 1 := by
    unfold activeInd
    rw [if_pos ⟨Or.inr hphase, rfl⟩]
  refine ⟨⟨?_, ?_, ?_, ?_, ?_, ?_, ?_, ?_, ?_, ?_, ?_, ?_, ?_, ?_, ?_, ?_,
    ?_, ?_, ?_, ?_, ?_⟩, hlen2, by rw [hgds, hpIstep], hltS, ?_⟩
  · show i < (st.procs.set i pI).length
    rw [hlen2]
    exact hilen
  · exact aset_keys_nodup _ _ _ hE.res_keys_nodup
  · intro dev hdev
    exact (alookup_aset_isSome _ _ _ _).mpr
      (Or.inr (hE.res_cover dev hdev))
  · intro d r hdr
    rcases (mem_aset_nodup st.resources _ { res with users := res.users - 1, queue := [] }
        (d, r) hE.res_keys_nodup).mp hdr with heq | ⟨hold, -⟩
    · rw [Prod.mk.injEq] at heq
      obtain ⟨rfl, rfl⟩ := heq
      obtain ⟨dev, hdev, hd, hc⟩ := hE.res_entries _ res hmem
      exact ⟨dev, hdev, hd, hc⟩
    · exact hE.res_entries d r hold
  · intro d r hdr
    rcases (mem_aset_nodup st.resources _ { res with users := res.users - 1, queue := [] }
        (d, r) hE.res_keys_nodup).mp hdr with heq | ⟨hold, -⟩
    · rw [Prod.mk.injEq] at heq
      obtain ⟨rfl, rfl⟩ := heq
      exact hE.res_cap_pos _ res hmem
    · exact hE.res_cap_pos d r hold
  · intro d r hdr
    rcases (mem_aset_nodup st.resources _ { res with users := res.users - 1, queue := [] }
        (d, r) hE.res_keys_nodup).mp hdr with heq | ⟨hold, -⟩
    · rw [Prod.mk.injEq] at heq
      obtain ⟨rfl, rfl⟩ := heq
      exact le_trans (Nat.sub_le res.users 1) (hE.res_users_le _ res hmem)
    · exact hE.res_users_le d r hold
  · intro d r hdr hqne
    rcases (mem_aset_nodup st.resources _ { res with users := res.users - 1, queue := [] }
        (d, r) hE.res_keys_nodup).mp hdr with heq | ⟨hold, -⟩
    · rw [Prod.mk.injEq] at heq
      obtain ⟨rfl, rfl⟩ := heq
      exact absurd rfl hqne
    · exact hE.res_queue_full d r hold hqne
  · intro d r hdr
    have h2 := activeCount_set st.procs i defaultProc d hilen
    rw [activeInd_default] at h2
    rcases (mem_aset_nodup st.resources _ { res with users := res.users - 1, queue := [] }
        (d, r) hE.res_keys_nodup).mp hdr with heq | ⟨hold, hne2⟩
    · rw [Prod.mk.injEq] at heq
      obtain ⟨rfl, rfl⟩ := heq
      have husers := hE.res_users_eq _ res hmem
      rw [hind1] at h2
      show res.users - 1 = activeCount ((st.procs.set i pI).set i
        defaultProc) _
      rw [List.set_set]
      omega
    · have hind0 : activeInd d (st.procs.getD i defaultProc) = 0 := by
        unfold activeInd
        rw [if_neg]
        rintro ⟨-, h3⟩
        exact hne2 h3.symm
      have husers := hE.res_users_eq d r hold
      rw [hind0] at h2
      show r.users = activeCount ((st.procs.set i pI).set i defaultProc) d
      rw [List.set_set]
      omega
  · intro d r hdr j hjq
    rcases (mem_aset_nodup st.resources _ { res with users := res.users - 1, queue := [] }
        (d, r) hE.res_keys_nodup).mp hdr with heq | ⟨hold, -⟩
    · rw [Prod.mk.injEq] at heq
      obtain ⟨rfl, rfl⟩ := heq
      exact absurd hjq (List.not_mem_nil j)
    · obtain ⟨hjl, hq2, hdev, hqs, hSO2, hlt3⟩ :=
        hE.queue_elems d r hold j hjq
      have hji : j ≠ i := fun hc => (hiq d r hold) (hc ▸ hjq)
      refine ⟨hji, ?_, ?_, ?_, ?_, ?_, ?_⟩
      · show j < (st.procs.set i pI).length
        rw [hlen2]
        exact hjl
      · show ((st.procs.set i pI).getD j defaultProc).phase = _
        rw [hgdn j hji]
        exact hq2
      · show ((st.procs.set i pI).getD j defaultProc).cur_op.device_id = _
        rw [hgdn j hji]
        exact hdev
      · show ((st.procs.set i pI).getD j defaultProc).queue_start ≤ e.time
        rw [hgdn j hji]
        exact le_trans hqs hdt
      · show StepOk w ((st.procs.set i pI).getD j defaultProc)
        rw [hgdn j hji]
        exact hSO2
      · show ((st.procs.set i pI).getD j defaultProc).stepIdx <
          w.base_sequence.length
        rw [hgdn j hji]
        exact hlt3
  · intro e2 he2
    have he2b : e2 ∈ st.fel := by
      rw [hfel]
      exact List.mem_cons_of_mem e he2
    have hne := hfne e2 he2
    exact ⟨hne, ActMatches_congr w st _ e2 hlen2.symm (hgdn _ hne)
      (hE.act_matches e2 he2b)⟩
  · show pidCount _ i = 0
    rw [pidCount_eq]
    show felTokens rest i + queueTokens (aset st.resources _
      { res with users := res.users - 1, queue := [] }) i = 0
    have hqtok := queueTokens_aset st.resources
      (st.procs.getD i defaultProc).cur_op.device_id res
      { res with users := res.users - 1, queue := [] } i hres hE.res_keys_nodup
    dsimp only at hqtok
    rw [hq] at hqtok
    omega
  · intro j hjl hji
    have hjl2 : j < st.procs.length := by simpa using hjl
    have h0 := hE.tok_count j hjl2
    rw [pidCount_eq, hfel, felTokens_cons, hact] at h0
    dsimp only [actPid] at h0
    rw [if_neg (fun hc => hji hc.symm)] at h0
    show pidCount _ j = _
    rw [pidCount_eq]
    show felTokens rest j + queueTokens (aset st.resources _
      { res with users := res.users - 1, queue := [] }) j =
      if ((st.procs.set i pI).getD j defaultProc).phase =
        ProcPhase.finished then 0 else 1
    have hqtok := queueTokens_aset st.resources
      (st.procs.getD i defaultProc).cur_op.device_id res
      { res with users := res.users - 1, queue := [] } j hres hE.res_keys_nodup
    dsimp only at hqtok
    rw [hq] at hqtok
    rw [hgdn j hji]
    by_cases hfin : (st.procs.getD j defaultProc).phase =
      ProcPhase.finished
    · rw [if_pos hfin] at h0 ⊢
      omega
    · rw [if_neg hfin] at h0 ⊢
      omega
  · intro j hjl k hk
    have hjl2 : j < st.procs.length := by simpa using hjl
    by_cases hji : j = i
    · subst hji
      rw [hgds, hpIstep] at hk
      rcases Nat.lt_succ_iff_lt_or_eq.mp hk with hk2 | hk2
      · exact hE.steps_resolvable j hjl2 k hk2
      · obtain ⟨step1, hget1, hopid1, hfind1⟩ := hSO
        subst hk2
        exact ⟨step1, hget1, by rw [hfind1]; rfl⟩
    · rw [hgdn j hji] at hk
      exact hE.steps_resolvable j hjl2 k hk
  · show ((st.procs.set i pI).getD i defaultProc).stepIdx ≤
      w.base_sequence.length
    rw [hgds, hpIstep]
    omega
  · intro j hjl hji hfin
    have hjl2 : j < st.procs.length := by simpa using hjl
    rw [hgdn j hji] at hfin ⊢
    exact hE.finished_idx j hjl2 hfin
  · intro j hjl
    have hjl2 : j < st.procs.length := by simpa using hjl
    by_cases hji : j = i
    · subst hji
      rw [hgds, hpIsid]
      exact hE.proc_sid j hjl2
    · rw [hgdn j hji]
      exact hE.proc_sid j hjl2
  · intro k
    constructor
    · intro h2
      rcases (hE.start_mem k).mp h2 with ⟨j, hjl, hph2, hk⟩
      by_cases hji : j = i
      · subst hji
        left
        exact hk
      · right
        refine ⟨j, ?_, hji, ?_, hk⟩
        · rw [hlen2]
          exact hjl
        · rw [hgdn j hji]
          exact hph2
    · rintro (hk | ⟨j, hjl, hji, hph2, hk⟩)
      · refine (hE.start_mem k).mpr ⟨i, hilen, ?_, hk⟩
        rw [hphase]
        decide
      · rw [hlen2] at hjl
        rw [hgdn j hji] at hph2
        exact (hE.start_mem k).mpr ⟨j, hjl, hph2, hk⟩
  · intro k
    constructor
    · intro h2
      obtain ⟨j, hjl, hfin, hk⟩ := (hE.end_mem k).mp h2
      have hji : j ≠ i := by
        intro hc
        rw [hc] at hfin
        exact absurd hfin (by rw [hphase]; decide)
      refine ⟨j, ?_, hji, ?_, hk⟩
      · rw [hlen2]
        exact hjl
      · rw [hgdn j hji]
        exact hfin
    · rintro ⟨j, hjl, hji, hfin, hk⟩
      rw [hlen2] at hjl
      rw [hgdn j hji] at hfin
      exact (hE.end_mem k).mpr ⟨j, hjl, hfin, hk⟩
  · exact hE.end_keys_nodup
  · intro ev2 hev2
    rcases List.mem_append.mp hev2 with h2 | h2
    · exact hE.log_dur_nonneg ev2 h2
    · rw [List.mem_singleton.mp h2, hevD]
      exact hdur0
  · intro d r hdr
    have hmaskeq : execSum e.time (st.procs.set i defaultProc) d +
        execAcc e.time d (st.procs.getD i defaultProc) =
        execSum e.time st.procs d := by
      have h1 := execSum_set e.time st.procs i defaultProc d hilen
      rw [execAcc_default] at h1
      linarith
    have hδ : (if ev.device_id = d ∧ ev.event_type = ("COMPLETE")
        then ev.duration else 0) =
        execAcc e.time d (st.procs.getD i defaultProc) := by
      by_cases hd : (st.procs.getD i defaultProc).cur_op.device_id = d
      · rw [if_pos ⟨hevC.trans hd, hevT⟩]
        unfold execAcc
        rw [if_pos ⟨hphase, hd⟩, hevD]
        linarith
      · rw [if_neg (fun hc => hd (hevC.symm.trans hc.1))]
        unfold execAcc
        rw [if_neg (fun hc => hd hc.2)]
    have hshift := execSum_clock_shift st.clock e.time st.procs d
    rcases (mem_aset_nodup st.resources _ { res with users := res.users - 1, queue := [] }
        (d, r) hE.res_keys_nodup).mp hdr with heq | ⟨hold, -⟩
    · rw [Prod.mk.injEq] at heq
      obtain ⟨rfl, rfl⟩ := heq
      have hb := hE.util_bound _ res hmem
      have hcnt : execCount st.procs _ ≤ res.capacity :=
        le_trans (execCount_le_activeCount st.procs _)
          (by rw [← hE.res_users_eq _ res hmem]
              exact hE.res_users_le _ res hmem)
      have hcntQ : (execCount st.procs
            (st.procs.getD i defaultProc).cur_op.device_id : ℚ) *
            (e.time - st.clock) ≤
          (res.capacity : ℚ) * (e.time - st.clock) :=
        mul_le_mul_of_nonneg_right (by exact_mod_cast hcnt)
          (by linarith)
      have hexpand : (res.capacity : ℚ) * e.time =
          (res.capacity : ℚ) * st.clock +
            (res.capacity : ℚ) * (e.time - st.clock) := by ring
      show busySum (st.event_log ++ [ev]) _ +
        execSum e.time ((st.procs.set i pI).set i defaultProc) _ ≤
        (res.capacity : ℚ) * e.time
      rw [List.set_set, busySum_append, hδ, hexpand]
      linarith
    · have hb := hE.util_bound d r hold
      have hcnt : execCount st.procs d ≤ r.capacity :=
        le_trans (execCount_le_activeCount st.procs d)
          (by rw [← hE.res_users_eq d r hold]
              exact hE.res_users_le d r hold)
      have hcntQ : (execCount st.procs d : ℚ) * (e.time - st.clock) ≤
          (r.capacity : ℚ) * (e.time - st.clock) :=
        mul_le_mul_of_nonneg_right (by exact_mod_cast hcnt)
          (by linarith)
      have hexpand : (r.capacity : ℚ) * e.time =
          (r.capacity : ℚ) * st.clock +
            (r.capacity : ℚ) * (e.time - st.clock) := by ring
      show busySum (st.event_log ++ [ev]) d +
        execSum e.time ((st.procs.set i pI).set i defaultProc) d ≤
        (r.capacity : ℚ) * e.time
      rw [List.set_set, busySum_append, hδ, hexpand]
      linarith
  · rw [Phi_eq, Phi_eq]
    dsimp only
    rw [hfel, felW_cons]
    have hfc : felW w.base_sequence.length (st.procs.set i pI) rest =
        felW w.base_sequence.length st.procs rest := by
      refine felW_congr_mem _ _ _ rest (fun e2 he2 => ?_)
      have hne := hfne e2 he2
      rw [getD_set_ne st.procs i (actPid e2.act)
        (fun hc => hne hc.symm) pI defaultProc]
    have hqc : queueW w.base_sequence.length (st.procs.set i pI)
        (aset st.resources (st.procs.getD i defaultProc).cur_op.device_id
          { res with users := res.users - 1, queue := [] }) =
        queueW w.base_sequence.length st.procs
          (aset st.resources (st.procs.getD i defaultProc).cur_op.device_id
            { res with users := res.users - 1, queue := [] }) := by
      refine queueW_congr_mem _ _ _ _ (fun dr hdr j hj => ?_)
      rcases (mem_aset_nodup st.resources _
          { res with users := res.users - 1, queue := [] } dr
          hE.res_keys_nodup).mp hdr with heq | ⟨hold, -⟩
      · rw [heq] at hj
        exact absurd hj (List.not_mem_nil j)
      · have holdp : (dr.1, dr.2) ∈ st.resources := by
          rw [Prod.mk.eta]
          exact hold
        have hji : j ≠ i := fun hc => (hiq dr.1 dr.2 holdp) (hc ▸ hj)
        rw [getD_set_ne st.procs i j (fun hc => hji hc.symm) pI
          defaultProc]
    rw [hfc, hqc]
    have hqa := queueW_aset w.base_sequence.length st.procs st.resources
      (st.procs.getD i defaultProc).cur_op.device_id res
      { res with users := res.users - 1, queue := [] } hres hE.res_keys_nodup
    dsimp only at hqa
    rw [hq] at hqa
    omega

/-- If all queue tokens of `x` fit inside entry `(d0, r0)`, no other
entry's queue holds `x`. -/
theorem queueTokens_other (res : List (String × ResourceState))
    (d0 : String) (r0 : ResourceState) (x : ℕ) :
    (res.map Prod.fst).Nodup → (d0, r0) ∈ res →
    queueTokens res x ≤ r0.queue.count x →
    ∀ d r, (d, r) ∈ res → d ≠ d0 → x ∉ r.queue := by
  induction res with
  | nil =>
      intro _ hmem
      exact absurd hmem (List.not_mem_nil _)
  | cons q rest ih =>
      intro hnd hmem htot
      have hqt : queueTokens (q :: rest) x =
          q.2.queue.count x + queueTokens rest x := by
        unfold queueTokens
        rw [List.map_cons, List.sum_cons]
      rw [hqt] at htot
      simp only [List.map_cons, List.nodup_cons] at hnd
      rcases List.mem_cons.mp hmem with hq0 | hq0
      · intro d r hdr hdne
        rcases List.mem_cons.mp hdr with hdr2 | hdr2
        · exact absurd (congrArg Prod.fst (hdr2.trans hq0.symm)) hdne
        · have hq2 : q.2 = r0 := congrArg Prod.snd hq0.symm
          rw [hq2] at htot
          exact queueTokens_eq_zero rest x (by omega) d r hdr2
      · have hle := List.single_le_sum
          (fun (n : ℕ) (_ : n ∈ rest.map (fun dr => dr.2.queue.count x)) =>
            Nat.zero_le n)
          (r0.queue.count x)
          (List.mem_map_of_mem (fun dr => dr.2.queue.count x) hq0)
        intro d r hdr hdne
        rcases List.mem_cons.mp hdr with hdr2 | hdr2
        · have hzero : q.2.queue.count x = 0 := by
            have hle2 : r0.queue.count x ≤ queueTokens rest x := hle
            omega
          have hr : r = q.2 := congrArg Prod.snd hdr2
          rw [hr]
          exact List.count_eq_zero.mp hzero
        · have hle2 : r0.queue.count x ≤ queueTokens rest x := hle
          exact ih hnd.2 hq0 (by omega) d r hdr2 hdne

/-- Popping an `opDone` activation when the FIFO queue is non-empty:
the head is granted the freed slot and rescheduled at the same instant;
the finishing process advances its loop index.  The between-steps
invariant is re-established. -/
theorem opdone_grant_MidInv (w : Workflow) (st stM : EngineState)
    (e : FelEntry) (rest : List FelEntry) (i h : ℕ) (t : List ℕ)
    (res : ResourceState) (ev : SimulationEvent) (phG pI : ProcState)
    (hfel : st.fel = e :: rest) (hact : e.act = Activation.opDone i)
    (hE : EngInv w st) (hT : TimeInv st)
    (hres : alookup st.resources
      (st.procs.getD i defaultProc).cur_op.device_id = some res)
    (hq : res.queue = h :: t)
    (hevC : ev.device_id = (st.procs.getD i defaultProc).cur_op.device_id)
    (hevT : ev.event_type = ("COMPLETE"))
    (hevD : ev.duration = (st.procs.getD i defaultProc).duration)
    (hpg : phG = { st.procs.getD h defaultProc with
      phase := ProcPhase.granted })
    (hpI : pI = { (st.procs.set h phG).getD i defaultProc with
      stepIdx := (st.procs.getD i defaultProc).stepIdx + 1 })
    (hstM : stM = { st with
      clock := e.time,
      seqCounter := st.seqCounter + 1,
      fel := felInsert ({ time := e.time,
                          seq := st.seqCounter,
                          act := Activation.acquired h } : FelEntry) rest,
      resources := aset st.resources
        (st.procs.getD i defaultProc).cur_op.device_id
        { res with queue := t },
      procs := (st.procs.set h phG).set i pI,
      event_log := st.event_log ++ [ev] }) :
    MidInv w stM i ∧ stM.procs.length = st.procs.length ∧
      (stM.procs.getD i defaultProc).stepIdx =
        (st.procs.getD i defaultProc).stepIdx + 1 ∧
      (st.procs.getD i defaultProc).stepIdx < w.base_sequence.length ∧
      Phi w st = actW w.base_sequence.length st.procs e.act + Phi w stM := by
  subst hstM
  have hemem : e ∈ st.fel := by
    rw [hfel]
    exact List.mem_cons_self e rest
  have hdt : st.clock ≤ e.time := hT.2.2.1 e hemem
  have hAM := hE.act_matches e hemem
  unfold ActMatches at hAM
  rw [hact] at hAM
  dsimp only [actPid] at hAM
  obtain ⟨hilen, hphase, heqt, hwt0, hdur0, hSO, hltS⟩ := hAM
  have hmem : ((st.procs.getD i defaultProc).cur_op.device_id, res) ∈
      st.resources :=
    alookup_mem st.resources _ res hres
  have htok := hE.tok_count i hilen
  rw [if_neg (by rw [hphase]; decide)] at htok
  rw [pidCount_eq, hfel, felTokens_cons, hact] at htok
  dsimp only [actPid] at htok
  rw [if_pos rfl] at htok
  have hfel0 : felTokens rest i = 0 := by omega
  have hqt0 : queueTokens st.resources i = 0 := by omega
  have hiq := queueTokens_eq_zero st.resources i hqt0
  have hfne := felTokens_eq_zero rest i hfel0
  have hhmemq : h ∈ res.queue := by
    rw [hq]
    exact List.mem_cons_self h t
  obtain ⟨hhlen, hhq, hhdev, hhqs, hhSO, hhlt⟩ :=
    hE.queue_elems _ res hmem h hhmemq
  have hhi : h ≠ i := fun hc => (hiq _ res hmem) (hc ▸ hhmemq)
  have htokh := hE.tok_count h hhlen
  rw [if_neg (by rw [hhq]; decide)] at htokh
  rw [pidCount_eq, hfel, felTokens_cons, hact] at htokh
  dsimp only [actPid] at htokh
  rw [if_neg (fun hc => hhi hc.symm)] at htokh
  have hcount_le : res.queue.count h ≤ queueTokens st.resources h :=
    List.single_le_sum
      (fun (n : ℕ)
        (_ : n ∈ st.resources.map (fun dr => dr.2.queue.count h)) =>
        Nat.zero_le n)
      (res.queue.count h)
      (List.mem_map_of_mem (fun dr => dr.2.queue.count h) hmem)
  have hcq : res.queue.count h = t.count h + 1 := by
    rw [hq, List.count_cons]
    simp
  have hfelh : felTokens rest h = 0 := by omega
  have hfneh := felTokens_eq_zero rest h hfelh
  have hht : h ∉ t := by
    have h2 : t.count h = 0 := by omega
    exact List.count_eq_zero.mp h2
  have hother : ∀ d r, (d, r) ∈ st.resources →
      d ≠ (st.procs.getD i defaultProc).cur_op.device_id → h ∉ r.queue :=
    queueTokens_other st.resources _ res h hE.res_keys_nodup hmem
      (by omega)
  have hit : i ∉ t := fun hc => (hiq _ res hmem)
    (by rw [hq]; exact List.mem_cons_of_mem h hc)
  have hphGphase : phG.phase = ProcPhase.granted := by rw [hpg]
  have hphGstep : phG.stepIdx = (st.procs.getD h defaultProc).stepIdx :=
    by rw [hpg]
  have hphGqs : phG.queue_start =
      (st.procs.getD h defaultProc).queue_start := by rw [hpg]
  have hphGsid : phG.sample_id =
      (st.procs.getD h defaultProc).sample_id := by rw [hpg]
  have hphGopid : phG.cur_opid =
      (st.procs.getD h defaultProc).cur_opid := by rw [hpg]
  have hphGcur : phG.cur_op = (st.procs.getD h defaultProc).cur_op := by
    rw [hpg]
  have hbase : (st.procs.set h phG).getD i defaultProc =
      st.procs.getD i defaultProc :=
    getD_set_ne st.procs h i hhi phG defaultProc
  have hpI2 : pI = { st.procs.getD i defaultProc with
      stepIdx := (st.procs.getD i defaultProc).stepIdx + 1 } := by
    rw [hpI, hbase]
  have hpIstep : pI.stepIdx = (st.procs.getD i defaultProc).stepIdx + 1 :=
    by rw [hpI2]
  have hpIphase : pI.phase = ProcPhase.executing := by
    rw [hpI2]
    exact hphase
  have hpIsid : pI.sample_id = (st.procs.getD i defaultProc).sample_id :=
    by rw [hpI2]
  have hilen2 : i < (st.procs.set h phG).length := by simpa using hilen
  have hlen2 : ((st.procs.set h phG).set i pI).length =
      st.procs.length := by simp
  have hgdi : ((st.procs.set h phG).set i pI).getD i defaultProc = pI :=
    getD_set_self (st.procs.set h phG) i hilen2 pI defaultProc
  have hgdh : ((st.procs.set h phG).set i pI).getD h defaultProc = phG := by
    rw [getD_set_ne (st.procs.set h phG) i h (fun hc => hhi hc.symm) pI
      defaultProc]
    exact getD_set_self st.procs h hhlen phG defaultProc
  have hgdo : ∀ j, j ≠ i → j ≠ h →
      ((st.procs.set h phG).set i pI).getD j defaultProc =
        st.procs.getD j defaultProc := by
    intro j hji hjh
    rw [getD_set_ne (st.procs.set h phG) i j (fun hc => hji hc.symm) pI
      defaultProc]
    exact getD_set_ne st.procs h j (fun hc => hjh hc.symm) phG defaultProc
  have hSOG : StepOk w phG := by
    obtain ⟨s2, hg2, ho2, hf2⟩ := hhSO
    refine ⟨s2, ?_, ?_, ?_⟩
    · rw [hphGstep]
      exact hg2
    · rw [hphGopid]
      exact ho2
    · rw [hphGcur]
      exact hf2
  refine ⟨⟨?_, ?_, ?_, ?_, ?_, ?_, ?_, ?_, ?_, ?_, ?_, ?_, ?_, ?_, ?_, ?_,
    ?_, ?_, ?_, ?_, ?_⟩, hlen2, by rw [hgdi, hpIstep], hltS, ?_⟩
  · show i < ((st.procs.set h phG).set i pI).length
    rw [hlen2]
    exact hilen
  · exact aset_keys_nodup _ _ _ hE.res_keys_nodup
  · intro dev hdev
    exact (alookup_aset_isSome _ _ _ _).mpr
      (Or.inr (hE.res_cover dev hdev))
  · intro d r hdr
    rcases (mem_aset_nodup st.resources _ { res with queue := t }
        (d, r) hE.res_keys_nodup).mp hdr with heq | ⟨hold, -⟩
    · rw [Prod.mk.injEq] at heq
      obtain ⟨rfl, rfl⟩ := heq
      obtain ⟨dev, hdev, hd, hc⟩ := hE.res_entries _ res hmem
      exact ⟨dev, hdev, hd, hc⟩
    · exact hE.res_entries d r hold
  · intro d r hdr
    rcases (mem_aset_nodup st.resources _ { res with queue := t }
        (d, r) hE.res_keys_nodup).mp hdr with heq | ⟨hold, -⟩
    · rw [Prod.mk.injEq] at heq
      obtain ⟨rfl, rfl⟩ := heq
      exact hE.res_cap_pos _ res hmem
    · exact hE.res_cap_pos d r hold
  · intro d r hdr
    rcases (mem_aset_nodup st.resources _ { res with queue := t }
        (d, r) hE.res_keys_nodup).mp hdr with heq | ⟨hold, -⟩
    · rw [Prod.mk.injEq] at heq
      obtain ⟨rfl, rfl⟩ := heq
      exact hE.res_users_le _ res hmem
    · exact hE.res_users_le d r hold
  · intro d r hdr hqne
    rcases (mem_aset_nodup st.resources _ { res with queue := t }
        (d, r) hE.res_keys_nodup).mp hdr with heq | ⟨hold, -⟩
    · rw [Prod.mk.injEq] at heq
      obtain ⟨rfl, rfl⟩ := heq
      exact hE.res_queue_full _ res hmem (by rw [hq]; simp)
    · exact hE.res_queue_full d r hold hqne
  · intro d r hdr
    have hA1 := activeCount_set (st.procs.set h phG) i defaultProc d
      hilen2
    rw [activeInd_default, hbase] at hA1
    have hA2 := activeCount_set st.procs h phG d hhlen
    rw [activeInd_of_inactive d _ (by rw [hhq]; decide)
      (by rw [hhq]; decide)] at hA2
    rcases (mem_aset_nodup st.resources _ { res with queue := t }
        (d, r) hE.res_keys_nodup).mp hdr with heq | ⟨hold, hne2⟩
    · rw [Prod.mk.injEq] at heq
      obtain ⟨rfl, rfl⟩ := heq
      have husers := hE.res_users_eq _ res hmem
      have hindp : activeInd (st.procs.getD i defaultProc).cur_op.device_id
          (st.procs.getD i defaultProc) = 1 := by
        unfold activeInd
        rw [if_pos ⟨Or.inr hphase, rfl⟩]
      have hindg : activeInd (st.procs.getD i defaultProc).cur_op.device_id
          phG = 1 := by
        unfold activeInd
        rw [if_pos ⟨Or.inl hphGphase, by rw [hphGcur]; exact hhdev⟩]
      rw [hindp] at hA1
      rw [hindg] at hA2
      show res.users = activeCount (((st.procs.set h phG).set i pI).set i
        defaultProc) _
      rw [List.set_set]
      omega
    · have hindp : activeInd d (st.procs.getD i defaultProc) = 0 := by
        unfold activeInd
        rw [if_neg]
        rintro ⟨-, h3⟩
        exact hne2 h3.symm
      have hindg : activeInd d phG = 0 := by
        unfold activeInd
        rw [if_neg]
        rintro ⟨-, h3⟩
        rw [hphGcur, hhdev] at h3
        exact hne2 h3.symm
      have husers := hE.res_users_eq d r hold
      rw [hindp] at hA1
      rw [hindg] at hA2
      show r.users = activeCount (((st.procs.set h phG).set i pI).set i
        defaultProc) d
      rw [List.set_set]
      omega
  · intro d r hdr j hjq
    rcases (mem_aset_nodup st.resources _ { res with queue := t }
        (d, r) hE.res_keys_nodup).mp hdr with heq | ⟨hold, hne2⟩
    · rw [Prod.mk.injEq] at heq
      obtain ⟨rfl, rfl⟩ := heq
      have hjt : j ∈ t := hjq
      have hjres : j ∈ res.queue := by
        rw [hq]
        exact List.mem_cons_of_mem h hjt
      obtain ⟨hjl, hq2, hdev2, hqs2, hSO2, hlt3⟩ :=
        hE.queue_elems _ res hmem j hjres
      have hji : j ≠ i := fun hc => (hiq _ res hmem) (hc ▸ hjres)
      have hjh : j ≠ h := fun hc => hht (hc ▸ hjt)
      refine ⟨hji, ?_, ?_, ?_, ?_, ?_, ?_⟩
      · show j < ((st.procs.set h phG).set i pI).length
        rw [hlen2]
        exact hjl
      · show (((st.procs.set h phG).set i pI).getD j defaultProc).phase = _
        rw [hgdo j hji hjh]
        exact hq2
      · show (((st.procs.set h phG).set i pI).getD j
            defaultProc).cur_op.device_id = _
        rw [hgdo j hji hjh]
        exact hdev2
      · show (((st.procs.set h phG).set i pI).getD j
            defaultProc).queue_start ≤ e.time
        rw [hgdo j hji hjh]
        exact le_trans hqs2 hdt
      · show StepOk w (((st.procs.set h phG).set i pI).getD j defaultProc)
        rw [hgdo j hji hjh]
        exact hSO2
      · show (((st.procs.set h phG).set i pI).getD j
            defaultProc).stepIdx < w.base_sequence.length
        rw [hgdo j hji hjh]
        exact hlt3
    · obtain ⟨hjl, hq2, hdev2, hqs2, hSO2, hlt3⟩ :=
        hE.queue_elems d r hold j hjq
      have hji : j ≠ i := fun hc => (hiq d r hold) (hc ▸ hjq)
      have hjh : j ≠ h := fun hc => (hother d r hold hne2) (hc ▸ hjq)
      refine ⟨hji, ?_, ?_, ?_, ?_, ?_, ?_⟩
      · show j < ((st.procs.set h phG).set i pI).length
        rw [hlen2]
        exact hjl
      · show (((st.procs.set h phG).set i pI).getD j defaultProc).phase = _
        rw [hgdo j hji hjh]
        exact hq2
      · show (((st.procs.set h phG).set i pI).getD j
            defaultProc).cur_op.device_id = _
        rw [hgdo j hji hjh]
        exact hdev2
      · show (((st.procs.set h phG).set i pI).getD j
            defaultProc).queue_start ≤ e.time
        rw [hgdo j hji hjh]
        exact le_trans hqs2 hdt
      · show StepOk w (((st.procs.set h phG).set i pI).getD j defaultProc)
        rw [hgdo j hji hjh]
        exact hSO2
      · show (((st.procs.set h phG).set i pI).getD j
            defaultProc).stepIdx < w.base_sequence.length
        rw [hgdo j hji hjh]
        exact hlt3
  · intro e2 he2
    rcases (mem_felInsert e2 _ rest).mp he2 with rfl | he3
    · refine ⟨hhi, ?_, ?_⟩
      · show h < ((st.procs.set h phG).set i pI).length
        rw [hlen2]
        exact hhlen
      · show (((st.procs.set h phG).set i pI).getD h defaultProc).phase =
            ProcPhase.granted ∧
          (((st.procs.set h phG).set i pI).getD h
            defaultProc).queue_start ≤ e.time ∧
          StepOk w (((st.procs.set h phG).set i pI).getD h defaultProc) ∧
          (((st.procs.set h phG).set i pI).getD h defaultProc).stepIdx <
            w.base_sequence.length
        rw [hgdh]
        refine ⟨hphGphase, ?_, hSOG, ?_⟩
        · rw [hphGqs]
          exact le_trans hhqs hdt
        · rw [hphGstep]
          exact hhlt
    · have hne_i := hfne e2 he3
      have hne_h := hfneh e2 he3
      exact ⟨hne_i, ActMatches_congr w st _ e2 hlen2.symm
        (hgdo _ hne_i hne_h) (hE.act_matches e2 (by
          rw [hfel]
          exact List.mem_cons_of_mem e he3))⟩
  · show pidCount _ i = 0
    rw [pidCount_eq]
    show felTokens (felInsert ({ time := e.time,
                                 seq := st.seqCounter,
                                 act := Activation.acquired h } : FelEntry)
        rest) i +
      queueTokens (aset st.resources _ { res with queue := t }) i = 0
    rw [felTokens_felInsert, felTokens_cons]
    have hqtok := queueTokens_aset st.resources
      (st.procs.getD i defaultProc).cur_op.device_id res
      { res with queue := t } i hres hE.res_keys_nodup
    dsimp only [actPid] at *
    rw [if_neg hhi]
    have hcnt_i : res.queue.count i = 0 := by
      rw [List.count_eq_zero]
      exact hiq _ res hmem
    have hcnt_it : t.count i = 0 := by
      rw [List.count_eq_zero]
      exact hit
    omega
  · intro j hjl hji
    have hjl2 : j < st.procs.length := by simpa using hjl
    have h0 := hE.tok_count j hjl2
    rw [pidCount_eq, hfel, felTokens_cons, hact] at h0
    dsimp only [actPid] at h0
    rw [if_neg (fun hc => hji hc.symm)] at h0
    show pidCount _ j = _
    rw [pidCount_eq]
    show felTokens (felInsert ({ time := e.time,
                                 seq := st.seqCounter,
                                 act := Activation.acquired h } : FelEntry)
        rest) j +
      queueTokens (aset st.resources _ { res with queue := t }) j =
      if (((st.procs.set h phG).set i pI).getD j defaultProc).phase =
        ProcPhase.finished then 0 else 1
    rw [felTokens_felInsert, felTokens_cons]
    have hqtok := queueTokens_aset st.resources
      (st.procs.getD i defaultProc).cur_op.device_id res
      { res with queue := t } j hres hE.res_keys_nodup
    dsimp only [actPid] at *
    have hcountq : res.queue.count j = t.count j +
        (if h = j then 1 else 0) := by
      rw [hq, List.count_cons]
      by_cases hjh : h = j
      · rw [if_pos hjh, if_pos (by rw [hjh]; exact beq_self_eq_true j)]
      · rw [if_neg hjh, if_neg]
        intro hc
        rw [beq_iff_eq] at hc
        exact hjh hc
    by_cases hjh : j = h
    · rw [if_pos hjh.symm]
      rw [hjh, hgdh, if_neg (by rw [hphGphase]; decide)]
      rw [hjh] at h0 hqtok hcountq
      rw [if_neg (by rw [hhq]; decide)] at h0
      rw [if_pos rfl] at hcountq
      omega
    · rw [if_neg (fun hc => hjh hc.symm)]
      rw [if_neg (fun hc => hjh hc.symm)] at hcountq
      rw [hgdo j hji hjh]
      by_cases hfin : (st.procs.getD j defaultProc).phase =
        ProcPhase.finished
      · rw [if_pos hfin] at h0 ⊢
        omega
      · rw [if_neg hfin] at h0 ⊢
        omega
  · intro j hjl k hk
    have hjl2 : j < st.procs.length := by simpa using hjl
    by_cases hji : j = i
    · subst hji
      rw [hgdi, hpIstep] at hk
      rcases Nat.lt_succ_iff_lt_or_eq.mp hk with hk2 | hk2
      · exact hE.steps_resolvable j hjl2 k hk2
      · obtain ⟨step1, hget1, hopid1, hfind1⟩ := hSO
        subst hk2
        exact ⟨step1, hget1, by rw [hfind1]; rfl⟩
    · by_cases hjh : j = h
      · subst hjh
        rw [hgdh, hphGstep] at hk
        exact hE.steps_resolvable j hjl2 k hk
      · rw [hgdo j hji hjh] at hk
        exact hE.steps_resolvable j hjl2 k hk
  · show (((st.procs.set h phG).set i pI).getD i defaultProc).stepIdx ≤
      w.base_sequence.length
    rw [hgdi, hpIstep]
    omega
  · intro j hjl hji hfin
    have hjl2 : j < st.procs.length := by simpa using hjl
    by_cases hjh : j = h
    · subst hjh
      rw [hgdh] at hfin
      exact absurd hfin (by rw [hphGphase]; decide)
    · rw [hgdo j hji hjh] at hfin ⊢
      exact hE.finished_idx j hjl2 hfin
  · intro j hjl
    have hjl2 : j < st.procs.length := by simpa using hjl
    by_cases hji : j = i
    · subst hji
      rw [hgdi, hpIsid]
      exact hE.proc_sid j hjl2
    · by_cases hjh : j = h
      · subst hjh
        rw [hgdh, hphGsid]
        exact hE.proc_sid j hjl2
      · rw [hgdo j hji hjh]
        exact hE.proc_sid j hjl2
  · intro k
    constructor
    · intro h2
      rcases (hE.start_mem k).mp h2 with ⟨j, hjl, hph2, hk⟩
      by_cases hji : j = i
      · subst hji
        left
        exact hk
      · right
        refine ⟨j, ?_, hji, ?_, hk⟩
        · rw [hlen2]
          exact hjl
        · by_cases hjh : j = h
          · subst hjh
            rw [hgdh, hphGphase]
            decide
          · rw [hgdo j hji hjh]
            exact hph2
    · rintro (hk | ⟨j, hjl, hji, hph2, hk⟩)
      · refine (hE.start_mem k).mpr ⟨i, hilen, ?_, hk⟩
        rw [hphase]
        decide
      · rw [hlen2] at hjl
        by_cases hjh : j = h
        · subst hjh
          refine (hE.start_mem k).mpr ⟨j, hjl, ?_, hk⟩
          rw [hhq]
          decide
        · rw [hgdo j hji hjh] at hph2
          exact (hE.start_mem k).mpr ⟨j, hjl, hph2, hk⟩
  · intro k
    constructor
    · intro h2
      obtain ⟨j, hjl, hfin, hk⟩ := (hE.end_mem k).mp h2
      have hji : j ≠ i := by
        intro hc
        rw [hc] at hfin
        exact absurd hfin (by rw [hphase]; decide)
      have hjh : j ≠ h := by
        intro hc
        rw [hc] at hfin
        exact absurd hfin (by rw [hhq]; decide)
      refine ⟨j, ?_, hji, ?_, hk⟩
      · rw [hlen2]
        exact hjl
      · rw [hgdo j hji hjh]
        exact hfin
    · rintro ⟨j, hjl, hji, hfin, hk⟩
      rw [hlen2] at hjl
      by_cases hjh : j = h
      · subst hjh
        rw [hgdh] at hfin
        exact absurd hfin (by rw [hphGphase]; decide)
      · rw [hgdo j hji hjh] at hfin
        exact (hE.end_mem k).mpr ⟨j, hjl, hfin, hk⟩
  · exact hE.end_keys_nodup
  · intro ev2 hev2
    rcases List.mem_append.mp hev2 with h2 | h2
    · exact hE.log_dur_nonneg ev2 h2
    · rw [List.mem_singleton.mp h2, hevD]
      exact hdur0
  · intro d r hdr
    have hmask2 : execSum e.time (st.procs.set h phG) d =
        execSum e.time st.procs d := by
      have h1 := execSum_set e.time st.procs h phG d hhlen
      rw [execAcc_of_not_exec e.time d _ (by rw [hhq]; decide),
        execAcc_of_not_exec e.time d phG
          (by rw [hphGphase]; decide)] at h1
      linarith
    have hδ : (if ev.device_id = d ∧ ev.event_type = ("COMPLETE")
        then ev.duration else 0) =
        execAcc e.time d (st.procs.getD i defaultProc) := by
      by_cases hd : (st.procs.getD i defaultProc).cur_op.device_id = d
      · rw [if_pos ⟨hevC.trans hd, hevT⟩]
        unfold execAcc
        rw [if_pos ⟨hphase, hd⟩, hevD]
        linarith
      · rw [if_neg (fun hc => hd (hevC.symm.trans hc.1))]
        unfold execAcc
        rw [if_neg (fun hc => hd hc.2)]
    have hshift := execSum_clock_shift st.clock e.time st.procs d
    have hmaskfin : execSum e.time
        ((st.procs.set h phG).set i defaultProc) d +
        execAcc e.time d (st.procs.getD i defaultProc) =
        execSum e.time st.procs d := by
      have h1 := execSum_set e.time (st.procs.set h phG) i defaultProc d
        hilen2
      rw [hbase, execAcc_default] at h1
      linarith
    rcases (mem_aset_nodup st.resources _ { res with queue := t }
        (d, r) hE.res_keys_nodup).mp hdr with heq | ⟨hold, -⟩
    · rw [Prod.mk.injEq] at heq
      obtain ⟨rfl, rfl⟩ := heq
      have hb := hE.util_bound _ res hmem
      have hcnt : execCount st.procs _ ≤ res.capacity :=
        le_trans (execCount_le_activeCount st.procs _)
          (by rw [← hE.res_users_eq _ res hmem]
              exact hE.res_users_le _ res hmem)
      have hcntQ : (execCount st.procs
            (st.procs.getD i defaultProc).cur_op.device_id : ℚ) *
            (e.time - st.clock) ≤
          (res.capacity : ℚ) * (e.time - st.clock) :=
        mul_le_mul_of_nonneg_right (by exact_mod_cast hcnt)
          (by linarith)
      have hexpand : (res.capacity : ℚ) * e.time =
          (res.capacity : ℚ) * st.clock +
            (res.capacity : ℚ) * (e.time - st.clock) := by ring
      show busySum (st.event_log ++ [ev]) _ +
        execSum e.time (((st.procs.set h phG).set i pI).set i
          defaultProc) _ ≤ (res.capacity : ℚ) * e.time
      rw [List.set_set, busySum_append, hδ, hexpand]
      linarith
    · have hb := hE.util_bound d r hold
      have hcnt : execCount st.procs d ≤ r.capacity :=
        le_trans (execCount_le_activeCount st.procs d)
          (by rw [← hE.res_users_eq d r hold]
              exact hE.res_users_le d r hold)
      have hcntQ : (execCount st.procs d : ℚ) * (e.time - st.clock) ≤
          (r.capacity : ℚ) * (e.time - st.clock) :=
        mul_le_mul_of_nonneg_right (by exact_mod_cast hcnt)
          (by linarith)
      have hexpand : (r.capacity : ℚ) * e.time =
          (r.capacity : ℚ) * st.clock +
            (r.capacity : ℚ) * (e.time - st.clock) := by ring
      show busySum (st.event_log ++ [ev]) d +
        execSum e.time (((st.procs.set h phG).set i pI).set i
          defaultProc) d ≤ (r.capacity : ℚ) * e.time
      rw [List.set_set, busySum_append, hδ, hexpand]
      linarith
  · rw [Phi_eq, Phi_eq]
    dsimp only
    rw [hfel, felW_cons, felW_felInsert, felW_cons]
    have hactW : actW w.base_sequence.length
        ((st.procs.set h phG).set i pI) (Activation.acquired h) =
        tokW w.base_sequence.length
          ((st.procs.getD h defaultProc).stepIdx) := by
      show tokW w.base_sequence.length
        (((st.procs.set h phG).set i pI).getD h defaultProc).stepIdx = _
      rw [hgdh, hphGstep]
    have hfc : felW w.base_sequence.length
        ((st.procs.set h phG).set i pI) rest =
        felW w.base_sequence.length st.procs rest := by
      refine felW_congr_mem _ _ _ rest (fun e2 he2 => ?_)
      rw [hgdo (actPid e2.act) (hfne e2 he2) (hfneh e2 he2)]
    have hqc : queueW w.base_sequence.length
        ((st.procs.set h phG).set i pI)
        (aset st.resources (st.procs.getD i defaultProc).cur_op.device_id
          { res with queue := t }) =
        queueW w.base_sequence.length st.procs
          (aset st.resources
            (st.procs.getD i defaultProc).cur_op.device_id
            { res with queue := t }) := by
      refine queueW_congr_mem _ _ _ _ (fun dr hdr j hj => ?_)
      rcases (mem_aset_nodup st.resources _ { res with queue := t } dr
          hE.res_keys_nodup).mp hdr with heq | ⟨hold, hne2⟩
      · rw [heq] at hj
        have hjt : j ∈ t := hj
        have hji : j ≠ i := fun hc => hit (hc ▸ hjt)
        have hjh : j ≠ h := fun hc => hht (hc ▸ hjt)
        rw [hgdo j hji hjh]
      · have holdp : (dr.1, dr.2) ∈ st.resources := by
          rw [Prod.mk.eta]
          exact hold
        have hji : j ≠ i := fun hc => (hiq dr.1 dr.2 holdp) (hc ▸ hj)
        have hjh : j ≠ h := fun hc =>
          (hother dr.1 dr.2 holdp hne2) (hc ▸ hj)
        rw [hgdo j hji hjh]
    rw [hactW, hfc, hqc]
    have hqa := queueW_aset w.base_sequence.length st.procs st.resources
      (st.procs.getD i defaultProc).cur_op.device_id res
      { res with queue := t } hres hE.res_keys_nodup
    dsimp only at hqa
    rw [hq, List.map_cons, List.sum_cons] at hqa
    omega

/-- Popping an `acquired` activation: the `START` event is logged, the
operation duration is drawn and the process turns to executing with its
completion scheduled.  The full invariant is preserved and the measure
strictly decreases. -/
theorem acquired_inv (w : Workflow) (st st2 : EngineState)
    (e : FelEntry) (rest : List FelEntry) (i : ℕ)
    (ev : SimulationEvent) (dur : ℚ) (g2 : Rng) (pX : ProcState)
    (hfel : st.fel = e :: rest) (hact : e.act = Activation.acquired i)
    (hE : EngInv w st) (hT : TimeInv st)
    (hdurnn : 0 ≤ dur)
    (hevC : ev.event_type ≠ ("COMPLETE")) (hevD : 0 ≤ ev.duration)
    (hpX : pX = { st.procs.getD i defaultProc with
      wait_time := e.time - (st.procs.getD i defaultProc).queue_start,
      duration := dur, phase := ProcPhase.executing })
    (hst : st2 = { st with
      clock := e.time,
      seqCounter := st.seqCounter + 1,
      fel := felInsert ({ time := e.time + dur,
                          seq := st.seqCounter,
                          act := Activation.opDone i } : FelEntry) rest,
      procs := st.procs.set i pX,
      event_log := st.event_log ++ [ev],
      rng := g2 }) :
    EngInv w st2 ∧ st2.procs.length = st.procs.length ∧
      Phi w st2 < Phi w st := by
  subst hst
  have hemem : e ∈ st.fel := by
    rw [hfel]
    exact List.mem_cons_self e rest
  have hdt : st.clock ≤ e.time := hT.2.2.1 e hemem
  have hAM := hE.act_matches e hemem
  unfold ActMatches at hAM
  rw [hact] at hAM
  dsimp only [actPid] at hAM
  obtain ⟨hilen, hphase, hqs, hSO, hltS⟩ := hAM
  have htok := hE.tok_count i hilen
  rw [if_neg (by rw [hphase]; decide)] at htok
  rw [pidCount_eq, hfel, felTokens_cons, hact] at htok
  dsimp only [actPid] at htok
  rw [if_pos rfl] at htok
  have hfel0 : felTokens rest i = 0 := by omega
  have hqt0 : queueTokens st.resources i = 0 := by omega
  have hiq := queueTokens_eq_zero st.resources i hqt0
  have hfne := felTokens_eq_zero rest i hfel0
  have hpXphase : pX.phase = ProcPhase.executing := by rw [hpX]
  have hpXstep : pX.stepIdx = (st.procs.getD i defaultProc).stepIdx := by
    rw [hpX]
  have hpXqs : pX.queue_start =
      (st.procs.getD i defaultProc).queue_start := by rw [hpX]
  have hpXwt : pX.wait_time =
      e.time - (st.procs.getD i defaultProc).queue_start := by rw [hpX]
  have hpXdur : pX.duration = dur := by rw [hpX]
  have hpXsid : pX.sample_id = (st.procs.getD i defaultProc).sample_id :=
    by rw [hpX]
  have hpXopid : pX.cur_opid = (st.procs.getD i defaultProc).cur_opid :=
    by rw [hpX]
  have hpXcur : pX.cur_op = (st.procs.getD i defaultProc).cur_op := by
    rw [hpX]
  have hgds : (st.procs.set i pX).getD i defaultProc = pX :=
    getD_set_self st.procs i hilen pX defaultProc
  have hgdn : ∀ j, j ≠ i →
      (st.procs.set i pX).getD j defaultProc =
        st.procs.getD j defaultProc :=
    fun j hj => getD_set_ne st.procs i j (fun h2 => hj h2.symm) pX
      defaultProc
  have hlen2 : (st.procs.set i pX).length = st.procs.length := by simp
  have hscongr := stepIdx_set_congr st.procs i pX hilen hpXstep
  have hSOX : StepOk w pX := by
    obtain ⟨s2, hg2, ho2, hf2⟩ := hSO
    refine ⟨s2, ?_, ?_, ?_⟩
    · rw [hpXstep]
      exact hg2
    · rw [hpXopid]
      exact ho2
    · rw [hpXcur]
      exact hf2
  have hindeq : ∀ d, activeInd d pX =
      activeInd d (st.procs.getD i defaultProc) := by
    intro d
    unfold activeInd
    by_cases hd : (st.procs.getD i defaultProc).cur_op.device_id = d
    · rw [if_pos ⟨Or.inr hpXphase, by rw [hpXcur]; exact hd⟩,
        if_pos ⟨Or.inl hphase, hd⟩]
    · rw [if_neg, if_neg]
      · rintro ⟨-, h3⟩
        exact hd h3
      · rintro ⟨-, h3⟩
        rw [hpXcur] at h3
        exact hd h3
  have hAccX : ∀ d, execAcc e.time d pX = 0 := by
    intro d
    unfold execAcc
    by_cases h2 : pX.phase = ProcPhase.executing ∧
      pX.cur_op.device_id = d
    · rw [if_pos h2, hpXqs, hpXwt]
      ring
    · rw [if_neg h2]
  have hbusy : ∀ d, busySum (st.event_log ++ [ev]) d =
      busySum st.event_log d := by
    intro d
    rw [busySum_append, if_neg (fun hc => hevC hc.2), add_zero]
  refine ⟨⟨hE.res_keys_nodup, hE.res_cover, hE.res_entries,
    hE.res_cap_pos, hE.res_users_le, hE.res_queue_full, ?_, ?_, ?_, ?_,
    ?_, ?_, ?_, ?_, ?_, hE.end_keys_nodup, ?_, ?_⟩, hlen2, ?_⟩
  · intro d r hdr
    have h1 := activeCount_set st.procs i pX d hilen
    rw [hindeq d] at h1
    show r.users = activeCount (st.procs.set i pX) d
    have h2 := hE.res_users_eq d r hdr
    omega
  · intro d r hdr j hjq
    obtain ⟨hjl, hq2, hdev, hqs2, hSO2, hlt3⟩ :=
      hE.queue_elems d r hdr j hjq
    have hji : j ≠ i := fun hc => (hiq d r hdr) (hc ▸ hjq)
    refine ⟨?_, ?_, ?_, ?_, ?_, ?_⟩
    · show j < (st.procs.set i pX).length
      rw [hlen2]
      exact hjl
    · show ((st.procs.set i pX).getD j defaultProc).phase = _
      rw [hgdn j hji]
      exact hq2
    · show ((st.procs.set i pX).getD j defaultProc).cur_op.device_id = _
      rw [hgdn j hji]
      exact hdev
    · show ((st.procs.set i pX).getD j defaultProc).queue_start ≤ e.time
      rw [hgdn j hji]
      exact le_trans hqs2 hdt
    · show StepOk w ((st.procs.set i pX).getD j defaultProc)
      rw [hgdn j hji]
      exact hSO2
    · show ((st.procs.set i pX).getD j defaultProc).stepIdx <
        w.base_sequence.length
      rw [hgdn j hji]
      exact hlt3
  · intro e2 he2
    rcases (mem_felInsert e2 _ rest).mp he2 with rfl | he3
    · refine ⟨?_, ?_⟩
      · show i < (st.procs.set i pX).length
        rw [hlen2]
        exact hilen
      · show ((st.procs.set i pX).getD i defaultProc).phase =
            ProcPhase.executing ∧
          e.time + dur =
            ((st.procs.set i pX).getD i defaultProc).queue_start +
            ((st.procs.set i pX).getD i defaultProc).wait_time +
            ((st.procs.set i pX).getD i defaultProc).duration ∧
          0 ≤ ((st.procs.set i pX).getD i defaultProc).wait_time ∧
          0 ≤ ((st.procs.set i pX).getD i defaultProc).duration ∧
          StepOk w ((st.procs.set i pX).getD i defaultProc) ∧
          ((st.procs.set i pX).getD i defaultProc).stepIdx <
            w.base_sequence.length
        rw [hgds]
        refine ⟨hpXphase, ?_, ?_, ?_, hSOX, ?_⟩
        · rw [hpXqs, hpXwt, hpXdur]
          ring
        · rw [hpXwt]
          linarith
        · rw [hpXdur]
          exact hdurnn
        · rw [hpXstep]
          exact hltS
    · have hne := hfne e2 he3
      exact ActMatches_congr w st _ e2 hlen2.symm (hgdn _ hne)
        (hE.act_matches e2 (by
          rw [hfel]
          exact List.mem_cons_of_mem e he3))
  · intro j hj
    have hj2 : j < st.procs.length := by simpa using hj
    show felTokens (felInsert ({ time := e.time + dur,
                                 seq := st.seqCounter,
                                 act := Activation.opDone i } : FelEntry)
        rest) j + queueTokens st.resources j =
      if ((st.procs.set i pX).getD j defaultProc).phase =
        ProcPhase.finished then 0 else 1
    rw [felTokens_felInsert, felTokens_cons]
    dsimp only [actPid]
    by_cases hji : j = i
    · rw [if_pos hji.symm, hji, hgds,
        if_neg (by rw [hpXphase]; decide)]
      omega
    · rw [if_neg (fun hc => hji hc.symm), hgdn j hji]
      have h0 := hE.tok_count j hj2
      rw [pidCount_eq, hfel, felTokens_cons, hact] at h0
      dsimp only [actPid] at h0
      rw [if_neg (fun hc => hji hc.symm)] at h0
      by_cases hfin : (st.procs.getD j defaultProc).phase =
        ProcPhase.finished
      · rw [if_pos hfin] at h0 ⊢
        omega
      · rw [if_neg hfin] at h0 ⊢
        omega
  · intro j hj k hk
    have hj2 : j < st.procs.length := by simpa using hj
    by_cases hji : j = i
    · subst hji
      rw [hgds, hpXstep] at hk
      exact hE.steps_resolvable j hj2 k hk
    · rw [hgdn j hji] at hk
      exact hE.steps_resolvable j hj2 k hk
  · intro j hj hfin
    have hj2 : j < st.procs.length := by simpa using hj
    by_cases hji : j = i
    · subst hji
      rw [hgds] at hfin
      exact absurd hfin (by rw [hpXphase]; decide)
    · rw [hgdn j hji] at hfin ⊢
      exact hE.finished_idx j hj2 hfin
  · intro j hj
    have hj2 : j < st.procs.length := by simpa using hj
    by_cases hji : j = i
    · subst hji
      rw [hgds, hpXsid]
      exact hE.proc_sid j hj2
    · rw [hgdn j hji]
      exact hE.proc_sid j hj2
  · intro k
    constructor
    · intro h2
      obtain ⟨j, hjl, hph2, hk⟩ := (hE.start_mem k).mp h2
      refine ⟨j, ?_, ?_, hk⟩
      · rw [hlen2]
        exact hjl
      · by_cases hji : j = i
        · subst hji
          rw [hgds, hpXphase]
          decide
        · rw [hgdn j hji]
          exact hph2
    · rintro ⟨j, hjl, hph2, hk⟩
      rw [hlen2] at hjl
      by_cases hji : j = i
      · subst hji
        refine (hE.start_mem k).mpr ⟨j, hjl, ?_, hk⟩
        rw [hphase]
        decide
      · rw [hgdn j hji] at hph2
        exact (hE.start_mem k).mpr ⟨j, hjl, hph2, hk⟩
  · intro k
    constructor
    · intro h2
      obtain ⟨j, hjl, hfin, hk⟩ := (hE.end_mem k).mp h2
      have hji : j ≠ i := by
        intro hc
        rw [hc] at hfin
        exact absurd hfin (by rw [hphase]; decide)
      refine ⟨j, ?_, ?_, hk⟩
      · rw [hlen2]
        exact hjl
      · rw [hgdn j hji]
        exact hfin
    · rintro ⟨j, hjl, hfin, hk⟩
      rw [hlen2] at hjl
      by_cases hji : j = i
      · subst hji
        rw [hgds] at hfin
        exact absurd hfin (by rw [hpXphase]; decide)
      · rw [hgdn j hji] at hfin
        exact (hE.end_mem k).mpr ⟨j, hjl, hfin, hk⟩
  · intro ev2 hev2
    rcases List.mem_append.mp hev2 with h2 | h2
    · exact hE.log_dur_nonneg ev2 h2
    · rw [List.mem_singleton.mp h2]
      exact hevD
  · intro d r hdr
    have hb := hE.util_bound d r hdr
    have hmask : execSum e.time (st.procs.set i pX) d =
        execSum e.time st.procs d := by
      have h1 := execSum_set e.time st.procs i pX d hilen
      rw [hAccX d,
        execAcc_of_not_exec e.time d _ (by rw [hphase]; decide)] at h1
      linarith
    have hshift := execSum_clock_shift st.clock e.time st.procs d
    have hcnt : execCount st.procs d ≤ r.capacity :=
      le_trans (execCount_le_activeCount st.procs d)
        (by rw [← hE.res_users_eq d r hdr]
            exact hE.res_users_le d r hdr)
    have hcntQ : (execCount st.procs d : ℚ) * (e.time - st.clock) ≤
        (r.capacity : ℚ) * (e.time - st.clock) :=
      mul_le_mul_of_nonneg_right (by exact_mod_cast hcnt) (by linarith)
    have hexpand : (r.capacity : ℚ) * e.time =
        (r.capacity : ℚ) * st.clock +
          (r.capacity : ℚ) * (e.time - st.clock) := by ring
    show busySum (st.event_log ++ [ev]) d +
      execSum e.time (st.procs.set i pX) d ≤ (r.capacity : ℚ) * e.time
    rw [hbusy, hmask, hshift, hexpand]
    linarith
  · rw [Phi_eq, Phi_eq]
    dsimp only
    rw [hfel, felW_cons, felW_felInsert, felW_cons]
    have hactW2 : actW w.base_sequence.length (st.procs.set i pX)
        (Activation.opDone i) =
        tokW w.base_sequence.length
          ((st.procs.getD i defaultProc).stepIdx) - 1 := by
      show tokW w.base_sequence.length
        ((st.procs.set i pX).getD i defaultProc).stepIdx - 1 = _
      rw [hgds, hpXstep]
    have hactW1 : actW w.base_sequence.length st.procs e.act =
        tokW w.base_sequence.length
          ((st.procs.getD i defaultProc).stepIdx) := by
      rw [hact]
      rfl
    rw [hactW1, hactW2, felW_congr _ _ _ _ hscongr,
      queueW_congr _ _ _ _ hscongr]
    have htw : tokW w.base_sequence.length
        ((st.procs.getD i defaultProc).stepIdx) =
        2 * (w.base_sequence.length -
          (st.procs.getD i defaultProc).stepIdx) := rfl
    omega

/-- Popping an `init` activation whose sample has a positive entry
delay: the process is rescheduled as `entered` after the delay, and the
measure strictly decreases. -/
theorem reenter_inv (w : Workflow) (st st2 : EngineState)
    (e : FelEntry) (rest : List FelEntry) (i : ℕ)
    (hfel : st.fel = e :: rest) (hact : e.act = Activation.init i)
    (hE : EngInv w st) (hT : TimeInv st)
    (hst : st2 = { st with
      clock := e.time,
      seqCounter := st.seqCounter + 1,
      fel := felInsert ({ time := e.time +
                            (st.procs.getD i defaultProc).entry_time,
                          seq := st.seqCounter,
                          act := Activation.entered i } : FelEntry)
        rest }) :
    EngInv w st2 ∧ st2.procs.length = st.procs.length ∧
      Phi w st2 < Phi w st := by
  subst hst
  have hemem : e ∈ st.fel := by
    rw [hfel]
    exact List.mem_cons_self e rest
  have hdt : st.clock ≤ e.time := hT.2.2.1 e hemem
  have hAM := hE.act_matches e hemem
  unfold ActMatches at hAM
  rw [hact] at hAM
  dsimp only [actPid] at hAM
  obtain ⟨hilen, hph, hstep0⟩ := hAM
  refine ⟨⟨hE.res_keys_nodup, hE.res_cover, hE.res_entries,
    hE.res_cap_pos, hE.res_users_le, hE.res_queue_full,
    hE.res_users_eq, ?_, ?_, ?_, hE.steps_resolvable, hE.finished_idx,
    hE.proc_sid, hE.start_mem, hE.end_mem, hE.end_keys_nodup,
    hE.log_dur_nonneg, ?_⟩, rfl, ?_⟩
  · intro d r hdr j hjq
    obtain ⟨hjl, hq2, hdev, hqs2, hSO2, hlt3⟩ :=
      hE.queue_elems d r hdr j hjq
    exact ⟨hjl, hq2, hdev, le_trans hqs2 hdt, hSO2, hlt3⟩
  · intro e2 he2
    rcases (mem_felInsert e2 _ rest).mp he2 with rfl | he3
    · refine ⟨hilen, ?_⟩
      show (st.procs.getD i defaultProc).phase = ProcPhase.entering ∧
        (st.procs.getD i defaultProc).stepIdx = 0
      exact ⟨hph, hstep0⟩
    · exact hE.act_matches e2 (by
        rw [hfel]
        exact List.mem_cons_of_mem e he3)
  · intro j hj
    have h0 := hE.tok_count j hj
    rw [pidCount_eq, hfel, felTokens_cons, hact] at h0
    dsimp only [actPid] at h0
    show pidCount _ j = _
    rw [pidCount_eq]
    show felTokens (felInsert ({ time := e.time +
                                   (st.procs.getD i
                                     defaultProc).entry_time,
                                 seq := st.seqCounter,
                                 act := Activation.entered i } : FelEntry)
        rest) j + queueTokens st.resources j = _
    rw [felTokens_felInsert, felTokens_cons]
    dsimp only [actPid]
    exact h0
  · intro d r hdr
    have hb := hE.util_bound d r hdr
    have hshift := execSum_clock_shift st.clock e.time st.procs d
    have hcnt : execCount st.procs d ≤ r.capacity :=
      le_trans (execCount_le_activeCount st.procs d)
        (by rw [← hE.res_users_eq d r hdr]
            exact hE.res_users_le d r hdr)
    have hcntQ : (execCount st.procs d : ℚ) * (e.time - st.clock) ≤
        (r.capacity : ℚ) * (e.time - st.clock) :=
      mul_le_mul_of_nonneg_right (by exact_mod_cast hcnt) (by linarith)
    have hexpand : (r.capacity : ℚ) * e.time =
        (r.capacity : ℚ) * st.clock +
          (r.capacity : ℚ) * (e.time - st.clock) := by ring
    show busySum st.event_log d + execSum e.time st.procs d ≤
      (r.capacity : ℚ) * e.time
    rw [hshift, hexpand]
    linarith
  · rw [Phi_eq, Phi_eq]
    dsimp only
    rw [hfel, felW_cons, felW_felInsert, felW_cons]
    have h1 : actW w.base_sequence.length st.procs e.act =
        tokW w.base_sequence.length
          ((st.procs.getD i defaultProc).stepIdx) + 2 := by
      rw [hact]
      rfl
    have h2 : actW w.base_sequence.length st.procs
        (Activation.entered i) =
        tokW w.base_sequence.length
          ((st.procs.getD i defaultProc).stepIdx) + 1 := rfl
    rw [h1, h2]
    omega

/-- One successful iteration of the event loop preserves the scheduler
invariant, keeps the process population, and strictly decreases the
termination measure. -/
theorem step_preserves (w : Workflow) (st st2 : EngineState)
    (e : FelEntry) (rest : List FelEntry)
    (hfel : st.fel = e :: rest)
    (hh : handleActivation w e.act
      { st with clock := e.time, fel := rest } = Except.ok st2)
    (hE : EngInv w st) (hT : TimeInv st) :
    EngInv w st2 ∧ st2.procs.length = st.procs.length ∧
      Phi w st2 < Phi w st := by
  have hemem : e ∈ st.fel := by
    rw [hfel]
    exact List.mem_cons_self e rest
  rcases hact : e.act with pid | pid | pid | pid
  · -- init
    rw [hact] at hh
    unfold handleActivation at hh
    dsimp only at hh
    by_cases hentry :
      (getProc { st with clock := e.time, fel := rest } pid).entry_time > 0
    · rw [if_pos hentry] at hh
      injection hh with hb2
      exact reenter_inv w st st2 e rest pid hfel hact hE hT
        (hb2.symm.trans rfl)
    · rw [if_neg hentry] at hh
      unfold procBegin at hh
      dsimp only at hh
      have hAM := hE.act_matches e hemem
      unfold ActMatches at hAM
      rw [hact] at hAM
      dsimp only [actPid] at hAM
      obtain ⟨hilen, hph, hstep0⟩ := hAM
      obtain ⟨hM, hlenM, hstepM, hPhiEq⟩ :=
        pop_entering_MidInv w st _ e rest pid hfel (by rw [hact]; rfl) hE hT
          hph hstep0 rfl
      obtain ⟨h1, h2, h3⟩ := advance_preserves w _ st2 pid hM hh
      rw [hstepM] at h3
      refine ⟨h1, h2.trans hlenM, ?_⟩
      have hA : actW w.base_sequence.length st.procs e.act =
          tokW w.base_sequence.length 0 + 2 := by
        rw [hact]
        show tokW w.base_sequence.length
          ((st.procs.getD pid defaultProc).stepIdx) + 2 = _
        rw [hstep0]
      rw [hA] at hPhiEq
      omega
  · -- entered
    rw [hact] at hh
    unfold handleActivation at hh
    unfold procBegin at hh
    dsimp only at hh
    have hAM := hE.act_matches e hemem
    unfold ActMatches at hAM
    rw [hact] at hAM
    dsimp only [actPid] at hAM
    obtain ⟨hilen, hph, hstep0⟩ := hAM
    obtain ⟨hM, hlenM, hstepM, hPhiEq⟩ :=
      pop_entering_MidInv w st _ e rest pid hfel (by rw [hact]; rfl) hE hT
        hph hstep0 rfl
    obtain ⟨h1, h2, h3⟩ := advance_preserves w _ st2 pid hM hh
    rw [hstepM] at h3
    refine ⟨h1, h2.trans hlenM, ?_⟩
    have hA : actW w.base_sequence.length st.procs e.act =
        tokW w.base_sequence.length 0 + 1 := by
      rw [hact]
      show tokW w.base_sequence.length
        ((st.procs.getD pid defaultProc).stepIdx) + 1 = _
      rw [hstep0]
    rw [hA] at hPhiEq
    omega
  · -- acquired
    rw [hact] at hh
    unfold handleActivation at hh
    dsimp only at hh
    rcases hmk : mkSimulationEvent e.time ("START")
        (getProc { st with clock := e.time, fel := rest } pid).sample_id
        (getProc { st with clock := e.time, fel := rest } pid).cur_opid
        (getProc { st with clock := e.time, fel := rest }
          pid).cur_op.device_id 0
        (e.time - (getProc { st with clock := e.time, fel := rest }
          pid).queue_start) 0 ("") with e1 | ev
    · simp only [hmk] at hh
      exact absurd hh (by simp)
    simp only [hmk] at hh
    rcases hsamp : sample_timing
        (getProc { st with clock := e.time, fel := rest }
          pid).cur_op.timing
        (pushEvent { st with clock := e.time, fel := rest } ev).rng
        with e1 | vg
    · simp only [hsamp] at hh
      exact absurd hh (by simp)
    obtain ⟨dur, g2⟩ := vg
    simp only [hsamp] at hh
    by_cases hneg : dur < 0
    · rw [if_pos hneg] at hh
      exact absurd hh (by simp)
    rw [if_neg hneg] at hh
    injection hh with hb2
    have hev := mkSimulationEvent_ok_eq _ _ _ _ _ _ _ _ _ _ hmk
    subst hev
    refine acquired_inv w st st2 e rest pid _ dur g2 _ hfel hact hE hT
      (not_lt.mp hneg) ?_ ?_ rfl (hb2.symm.trans rfl)
    · intro hc
      simp at hc
    · exact le_refl 0
  · -- opDone
    rw [hact] at hh
    unfold handleActivation at hh
    dsimp only at hh
    rcases hmk : mkSimulationEvent e.time ("COMPLETE")
        (getProc { st with clock := e.time, fel := rest } pid).sample_id
        (getProc { st with clock := e.time, fel := rest } pid).cur_opid
        (getProc { st with clock := e.time, fel := rest }
          pid).cur_op.device_id
        (getProc { st with clock := e.time, fel := rest } pid).duration
        (getProc { st with clock := e.time, fel := rest } pid).wait_time
        0 ("") with e1 | ev
    · simp only [hmk] at hh
      exact absurd hh (by simp)
    simp only [hmk] at hh
    have hev := mkSimulationEvent_ok_eq _ _ _ _ _ _ _ _ _ _ hmk
    have hevT : ev.event_type = ("COMPLETE") := by rw [hev]
    have hevC : ev.device_id =
        (st.procs.getD pid defaultProc).cur_op.device_id := by
      rw [hev]
      rfl
    have hevD : ev.duration = (st.procs.getD pid defaultProc).duration := by
      rw [hev]
      rfl
    rcases hres : alookup (pushEvent
        { st with clock := e.time, fel := rest } ev).resources
        (getProc { st with clock := e.time, fel := rest }
          pid).cur_op.device_id with e1 | res
    · simp only [hres] at hh
      exact absurd hh (by simp)
    simp only [hres] at hh
    have hres2 : alookup st.resources
        (st.procs.getD pid defaultProc).cur_op.device_id = some res := hres
    rcases hq : res.queue with _ | ⟨hd, tl⟩
    · simp only [hq] at hh
      obtain ⟨hM, hlenM, hstepM, hltS2, hPhiEq⟩ :=
        opdone_release_MidInv w st _ e rest pid res ev _ hfel hact hE hT
          hres2 hq hevC hevT hevD rfl rfl
      obtain ⟨h1, h2, h3⟩ := advance_preserves w _ st2 pid hM hh
      rw [hstepM] at h3
      refine ⟨h1, h2.trans hlenM, ?_⟩
      have hA : actW w.base_sequence.length st.procs e.act =
          tokW w.base_sequence.length
            ((st.procs.getD pid defaultProc).stepIdx) - 1 := by
        rw [hact]
        rfl
      rw [hA] at hPhiEq
      have ht1 : tokW w.base_sequence.length
          ((st.procs.getD pid defaultProc).stepIdx) =
          2 * (w.base_sequence.length -
            (st.procs.getD pid defaultProc).stepIdx) := rfl
      have ht2 : tokW w.base_sequence.length
          ((st.procs.getD pid defaultProc).stepIdx + 1) =
          2 * (w.base_sequence.length -
            ((st.procs.getD pid defaultProc).stepIdx + 1)) := rfl
      omega
    · simp only [hq] at hh
      obtain ⟨hM, hlenM, hstepM, hltS2, hPhiEq⟩ :=
        opdone_grant_MidInv w st _ e rest pid hd tl res ev _ _ hfel hact
          hE hT hres2 hq hevC hevT hevD rfl rfl rfl
      obtain ⟨h1, h2, h3⟩ := advance_preserves w _ st2 pid hM hh
      rw [hstepM] at h3
      refine ⟨h1, h2.trans hlenM, ?_⟩
      have hA : actW w.base_sequence.length st.procs e.act =
          tokW w.base_sequence.length
            ((st.procs.getD pid defaultProc).stepIdx) - 1 := by
        rw [hact]
        rfl
      rw [hA] at hPhiEq
      have ht1 : tokW w.base_sequence.length
          ((st.procs.getD pid defaultProc).stepIdx) =
          2 * (w.base_sequence.length -
            (st.procs.getD pid defaultProc).stepIdx) := rfl
      have ht2 : tokW w.base_sequence.length
          ((st.procs.getD pid defaultProc).stepIdx + 1) =
          2 * (w.base_sequence.length -
            ((st.procs.getD pid defaultProc).stepIdx + 1)) := rfl
      omega

theorem rngNext_nonneg (g : Rng) : 0 ≤ (rngNext g).1 := by
  unfold rngNext
  dsimp only
  exact div_nonneg (Nat.cast_nonneg _) (by norm_num)

/-- A valid timing spec never raises and never returns a negative
duration. -/
theorem sample_timing_ok (tm : TimingModel) (g : Rng)
    (hv : TimingValid tm) :
    ∃ d g2, sample_timing tm g = Except.ok (d, g2) ∧ 0 ≤ d := by
  cases tm with
  | fixed v =>
      have h1 : sample_fixed v = Except.ok v := by
        unfold sample_fixed
        rw [if_neg (not_lt.mpr hv)]
      unfold sample_timing
      dsimp only
      rw [h1]
      exact ⟨v, g, rfl, hv⟩
  | triangular mn md mx =>
      obtain ⟨h0, h1, h2⟩ := hv
      unfold sample_timing sample_triangular
      dsimp only
      rw [if_neg (not_lt.mpr h0), if_neg (not_lt.mpr (le_trans h0 h1)),
        if_neg (not_lt.mpr (le_trans h0 (le_trans h1 h2))),
        if_neg (not_not_intro ⟨h1, h2⟩)]
      by_cases heq : mn = mx
      · rw [if_pos heq]
        exact ⟨mn, g, rfl, h0⟩
      · rw [if_neg heq]
        refine ⟨_, _, rfl, ?_⟩
        have hu : 0 ≤ (rngNext g).1 := rngNext_nonneg g
        have hmx : mn ≤ mx := le_trans h1 h2
        have h3 : 0 ≤ (rngNext g).1 * (mx - mn) :=
          mul_nonneg hu (by linarith)
        linarith
  | exponential m =>
      unfold sample_timing sample_exponential
      dsimp only
      rw [if_neg (not_le.mpr hv)]
      exact ⟨_, _, rfl, mul_nonneg (le_of_lt hv) (rngNext_nonneg g)⟩
  | unsupported s => exact hv.elim

/-- Event construction succeeds whenever the field invariants hold. -/
theorem mkSimulationEvent_ok_of (t : ℚ) (ty sid oid did : String)
    (du wt : ℚ) (ql : ℤ) (no : String)
    (h1 : 0 ≤ t)
    (h2 : ty ∈ (["QUEUED", "START", "COMPLETE", "RELEASED"] : List String))
    (h3 : 0 ≤ du) (h4 : 0 ≤ wt) (h5 : 0 ≤ ql) :
    ∃ ev, mkSimulationEvent t ty sid oid did du wt ql no =
      Except.ok ev := by
  unfold mkSimulationEvent
  rw [if_neg (not_lt.mpr h1), if_neg (not_not_intro h2),
    if_neg (not_lt.mpr h3), if_neg (not_lt.mpr h4),
    if_neg (not_lt.mpr h5)]
  exact ⟨_, rfl⟩

/-- `advanceProc` cannot raise when the workflow is validator-clean and
every device has its resource. -/
theorem advance_ok (w : Workflow) (stM : EngineState) (i : ℕ)
    (hwf : WfWorkflow w)
    (hcov : ∀ dev ∈ w.devices,
      (alookup stM.resources dev.device_id).isSome)
    (hclock : 0 ≤ stM.clock) :
    ∃ st2, advanceProc w stM i = Except.ok st2 := by
  unfold advanceProc
  by_cases hlt : (getProc stM i).stepIdx < w.base_sequence.length
  · rw [if_pos hlt]
    unfold beginStep
    dsimp only
    rcases hget : w.base_sequence.get? (getProc stM i).stepIdx
        with _ | step
    · rw [List.get?_eq_none] at hget
      omega
    dsimp only
    have hstepmem : step ∈ w.base_sequence := List.get?_mem hget
    rcases hop : findOp w step.operation_id with _ | op_def
    · have h2 := hwf.1 step hstepmem
      rw [hop] at h2
      exact absurd h2 (by simp)
    dsimp only
    obtain ⟨hopmem, -⟩ := findOp_mem w step.operation_id op_def hop
    obtain ⟨dev, hdev, hdevid⟩ := hwf.2.1 op_def hopmem
    rcases hres : alookup stM.resources op_def.device_id with _ | res
    · have h2 := hcov dev hdev
      rw [hdevid, hres] at h2
      exact absurd h2 (by simp)
    dsimp only
    obtain ⟨ev, hmk⟩ := mkSimulationEvent_ok_of stM.clock ("QUEUED")
      (getProc stM i).sample_id step.operation_id op_def.device_id 0 0
      (res.queue.length : ℤ) ("") hclock (by decide) (le_refl 0)
      (le_refl 0) (Int.ofNat_nonneg _)
    rw [hmk]
    dsimp only
    by_cases hcap : res.users < res.capacity
    · rw [if_pos hcap]
      exact ⟨_, rfl⟩
    · rw [if_neg hcap]
      exact ⟨_, rfl⟩
  · rw [if_neg hlt]
    exact ⟨_, rfl⟩

/-- One iteration of the event loop cannot raise when the workflow is
validator-clean and the invariants hold. -/
theorem step_ok (w : Workflow) (st : EngineState) (e : FelEntry)
    (rest : List FelEntry) (hfel : st.fel = e :: rest)
    (hwf : WfWorkflow w) (hE : EngInv w st) (hT : TimeInv st) :
    ∃ st2, handleActivation w e.act
      { st with clock := e.time, fel := rest } = Except.ok st2 := by
  have hemem : e ∈ st.fel := by
    rw [hfel]
    exact List.mem_cons_self e rest
  have hclock : (0 : ℚ) ≤ e.time := le_trans hT.1 (hT.2.2.1 e hemem)
  rcases hact : e.act with pid | pid | pid | pid
  · -- init
    unfold handleActivation
    dsimp only
    by_cases hentry :
      (getProc { st with clock := e.time, fel := rest } pid).entry_time > 0
    · rw [if_pos hentry]
      exact ⟨_, rfl⟩
    · rw [if_neg hentry]
      unfold procBegin
      dsimp only
      exact advance_ok w _ pid hwf (fun dev hdev => hE.res_cover dev hdev)
        hclock
  · -- entered
    unfold handleActivation
    unfold procBegin
    dsimp only
    exact advance_ok w _ pid hwf (fun dev hdev => hE.res_cover dev hdev)
      hclock
  · -- acquired
    have hAM := hE.act_matches e hemem
    unfold ActMatches at hAM
    rw [hact] at hAM
    dsimp only [actPid] at hAM
    obtain ⟨hilen, hphase, hqs, hSO, hltS⟩ := hAM
    unfold handleActivation
    dsimp only
    obtain ⟨ev, hmk⟩ := mkSimulationEvent_ok_of e.time ("START")
      (getProc { st with clock := e.time, fel := rest } pid).sample_id
      (getProc { st with clock := e.time, fel := rest } pid).cur_opid
      (getProc { st with clock := e.time, fel := rest }
        pid).cur_op.device_id 0
      (e.time - (getProc { st with clock := e.time, fel := rest }
        pid).queue_start) 0 ("") hclock (by decide) (le_refl 0)
      (by
        show (0 : ℚ) ≤ e.time - (st.procs.getD pid defaultProc).queue_start
        linarith)
      (le_refl 0)
    rw [hmk]
    dsimp only
    obtain ⟨step1, hget1, hopid1, hfind1⟩ := hSO
    obtain ⟨hopmem, -⟩ := findOp_mem w step1.operation_id _ hfind1
    have hval := hwf.2.2.2.1 _ hopmem
    obtain ⟨dur, g2, hsamp, hdurnn⟩ := sample_timing_ok
      (getProc { st with clock := e.time, fel := rest } pid).cur_op.timing
      (pushEvent { st with clock := e.time, fel := rest } ev).rng hval
    rw [hsamp]
    dsimp only
    rw [if_neg (not_lt.mpr hdurnn)]
    exact ⟨_, rfl⟩
  · -- opDone
    have hAM := hE.act_matches e hemem
    unfold ActMatches at hAM
    rw [hact] at hAM
    dsimp only [actPid] at hAM
    obtain ⟨hilen, hphase, heqt, hwt0, hdur0, hSO, hltS⟩ := hAM
    unfold handleActivation
    dsimp only
    obtain ⟨ev, hmk⟩ := mkSimulationEvent_ok_of e.time ("COMPLETE")
      (getProc { st with clock := e.time, fel := rest } pid).sample_id
      (getProc { st with clock := e.time, fel := rest } pid).cur_opid
      (getProc { st with clock := e.time, fel := rest }
        pid).cur_op.device_id
      (getProc { st with clock := e.time, fel := rest } pid).duration
      (getProc { st with clock := e.time, fel := rest } pid).wait_time
      0 ("") hclock (by decide) hdur0 hwt0 (le_refl 0)
    rw [hmk]
    dsimp only
    obtain ⟨step1, hget1, hopid1, hfind1⟩ := hSO
    obtain ⟨hopmem, -⟩ := findOp_mem w step1.operation_id _ hfind1
    obtain ⟨dev, hdev, hdevid⟩ := hwf.2.1 _ hopmem
    rcases hres : alookup (pushEvent
        { st with clock := e.time, fel := rest } ev).resources
        (getProc { st with clock := e.time, fel := rest }
          pid).cur_op.device_id with e1 | res
    · have h2 := hE.res_cover dev hdev
      have hres2 : alookup st.resources
          (st.procs.getD pid defaultProc).cur_op.device_id = none := hres
      rw [hdevid, hres2] at h2
      exact absurd h2 (by simp)
    dsimp only
    rcases hq : res.queue with _ | ⟨hd, tl⟩
    · dsimp only
      refine advance_ok w _ pid hwf ?_ hclock
      intro dev2 hdev2
      show (alookup (aset st.resources _ _) dev2.device_id).isSome
      exact (alookup_aset_isSome _ _ _ _).mpr
        (Or.inr (hE.res_cover dev2 hdev2))
    · dsimp only
      refine advance_ok w _ pid hwf ?_ hclock
      intro dev2 hdev2
      show (alookup (aset st.resources _ _) dev2.device_id).isSome
      exact (alookup_aset_isSome _ _ _ _).mpr
        (Or.inr (hE.res_cover dev2 hdev2))

/-- The loop drains the event list without error given enough fuel,
preserving both invariants. -/
theorem runLoop_none_total (w : Workflow) (hwf : WfWorkflow w) (fuel : ℕ) :
    ∀ st : EngineState, EngInv w st → TimeInv st → Phi w st < fuel →
    ∃ st2, runLoop w none fuel st = Except.ok st2 ∧
      EngInv w st2 ∧ TimeInv st2 ∧ st2.fel = [] ∧
      st2.procs.length = st.procs.length := by
  induction fuel with
  | zero =>
      intro st _ _ h
      exact absurd h (by omega)
  | succ fuel ih =>
      intro st hE hT hPhi
      rcases hfel : st.fel with _ | ⟨e, rest⟩
      · refine ⟨st, ?_, hE, hT, hfel, rfl⟩
        rw [runLoop_succ, hfel]
      · obtain ⟨stN, hh⟩ := step_ok w st e rest hfel hwf hE hT
        obtain ⟨hE2, hlen2, hlt⟩ :=
          step_preserves w st stN e rest hfel hh hE hT
        have hT2 : TimeInv stN :=
          (handleActivation_TimeInv w e.act _ stN hh
            (TimeInv_pop st e rest hfel hT)).1
        obtain ⟨st2, hrun, h1, h2, h3, h4⟩ := ih stN hE2 hT2 (by omega)
        refine ⟨st2, ?_, h1, h2, h3, h4.trans hlen2⟩
        rw [runLoop_succ, hfel]
        dsimp only
        rw [hh]
        exact hrun

/-- With an empty future-event list the invariant forces every process
to have finished: an unfinished process would still hold a pending
token, which could only sit in some resource queue, but a non-empty
queue implies a full resource, hence some holder, whose own token would
again need a queue slot — contradicting that queued processes have phase
`queued`. -/
theorem all_finished_of_fel_nil (w : Workflow) (st : EngineState)
    (hE : EngInv w st) (hfel : st.fel = []) :
    ∀ i, i < st.procs.length →
      (st.procs.getD i defaultProc).phase = ProcPhase.finished := by
  have hnof : ∀ j, felTokens st.fel j = 0 := by
    intro j
    rw [hfel]
    rfl
  have hnoq : ∀ j, j < st.procs.length →
      (st.procs.getD j defaultProc).phase ≠ ProcPhase.finished →
      ∃ d r, (d, r) ∈ st.resources ∧ j ∈ r.queue := by
    intro j hj hph
    have h1 := hE.tok_count j hj
    rw [if_neg hph, pidCount_eq, hnof j, Nat.zero_add] at h1
    exact queueTokens_pos st.resources j (by omega)
  intro i hi
  by_contra hph
  obtain ⟨d, r, hdr, hiq⟩ := hnoq i hi hph
  have hqne : r.queue ≠ [] := List.ne_nil_of_mem hiq
  have hfull := hE.res_queue_full d r hdr hqne
  have hcap := hE.res_cap_pos d r hdr
  have husers := hE.res_users_eq d r hdr
  have hac : activeCount st.procs d ≠ 0 := by omega
  obtain ⟨j, hj, hjph, hjd⟩ := activeCount_pos_exists st.procs d hac
  have hjnf : (st.procs.getD j defaultProc).phase ≠ ProcPhase.finished := by
    rcases hjph with h2 | h2 <;> rw [h2] <;> exact fun hc =>
      ProcPhase.noConfusion hc
  obtain ⟨d2, r2, hdr2, hjq⟩ := hnoq j hj hjnf
  have hq2 := (hE.queue_elems d2 r2 hdr2 j hjq).2.1
  rcases hjph with h2 | h2 <;> rw [h2] at hq2 <;>
    exact ProcPhase.noConfusion hq2

/-- With every process finished, the end-times dict has exactly one
entry per process. -/
theorem end_times_length (w : Workflow) (st : EngineState)
    (hE : EngInv w st)
    (hfin : ∀ i, i < st.procs.length →
      (st.procs.getD i defaultProc).phase = ProcPhase.finished) :
    st.sample_end_times.length = st.procs.length := by
  have hmem : ∀ k, k ∈ st.sample_end_times.map Prod.fst ↔
      k ∈ (List.range st.procs.length).map sampleIdOf := by
    intro k
    have h1 : (alookup st.sample_end_times k).isSome ↔
        k ∈ st.sample_end_times.map Prod.fst := by
      rw [Option.isSome_iff_ne_none, Ne, alookup_eq_none]
      exact not_not
    rw [← h1, hE.end_mem]
    constructor
    · rintro ⟨i, hi, -, rfl⟩
      exact List.mem_map_of_mem sampleIdOf (List.mem_range.mpr hi)
    · intro h2
      obtain ⟨i, hi, rfl⟩ := List.mem_map.mp h2
      exact ⟨i, List.mem_range.mp hi, hfin i (List.mem_range.mp hi), rfl⟩
  have hperm : List.Perm (st.sample_end_times.map Prod.fst)
      ((List.range st.procs.length).map sampleIdOf) :=
    (List.perm_ext_iff_of_nodup hE.end_keys_nodup
      ((List.nodup_range _).map sampleIdOf_inj)).mpr hmem
  have hlen := hperm.length_eq
  rw [List.length_map, List.length_map, List.length_range] at hlen
  exact hlen

/-- No executing process means no accrued busy time. -/
theorem execSum_eq_zero_of (c : ℚ) (procs : List ProcState) (d : String)
    (h : ∀ p ∈ procs, p.phase ≠ ProcPhase.executing) :
    execSum c procs d = 0 := by
  unfold execSum
  apply List.sum_eq_zero
  intro x hx
  obtain ⟨p, hp, rfl⟩ := List.mem_map.mp hx
  rw [if_neg]
  rintro ⟨h2, -⟩
  exact h p hp h2

/-- No granted or executing process means no resource holders. -/
theorem activeCount_eq_zero_of (procs : List ProcState) (d : String)
    (h : ∀ p ∈ procs, p.phase ≠ ProcPhase.granted ∧
      p.phase ≠ ProcPhase.executing) :
    activeCount procs d = 0 := by
  unfold activeCount
  apply List.sum_eq_zero
  intro x hx
  obtain ⟨p, hp, rfl⟩ := List.mem_map.mp hx
  rw [if_neg]
  rintro ⟨h2 | h2, -⟩
  · exact (h p hp).1 h2
  · exact (h p hp).2 h2

/-- Under unique device ids, `initialize_resources` is the device list
itself, keyed by id, with empty occupancy. -/
theorem init_resources_eq (w : Workflow)
    (hn : (w.devices.map Device.device_id).Nodup) :
    init_resources w = w.devices.map (fun d => (d.device_id,
      ({ capacity := d.resource_capacity, users := 0, queue := [] } :
        ResourceState))) := by
  unfold init_resources
  exact foldl_aset_eq_map Device.device_id
    (fun d => ({ capacity := d.resource_capacity, users := 0, queue := [] } : ResourceState))
    w.devices hn

/-- The summary constructor succeeds when every validated field is in
range. -/
theorem mkSimulationSummary_ok (s : SimulationSummary)
    (h1 : 0 ≤ s.total_simulation_time) (h2 : 0 ≤ s.num_samples_completed)
    (h3 : 0 ≤ s.num_samples_failed) (h4 : 0 ≤ s.total_throughput)
    (h5 : ∀ p ∈ s.device_utilization, 0 ≤ p.2 ∧ p.2 ≤ 1) :
    mkSimulationSummary s = Except.ok s := by
  unfold mkSimulationSummary
  rw [if_neg (not_lt.mpr h1), if_neg (not_lt.mpr h2),
    if_neg (not_lt.mpr h3), if_neg (not_lt.mpr h4)]
  have hfind : s.device_utilization.find?
      (fun p => ¬ (0 ≤ p.2 ∧ p.2 ≤ 1)) = none := by
    rw [List.find?_eq_none]
    intro p hp
    simp only [decide_eq_true_eq]
    exact not_not_intro (h5 p hp)
  rw [hfind]

/-- Closed form of the per-device utilization. -/
theorem deviceUtilizationFor_eq (log : List SimulationEvent) (d : String)
    (cap : ℕ) (T : ℚ) :
    deviceUtilizationFor log d cap T =
      if (cap : ℚ) * T > 0 then busySum log d / ((cap : ℚ) * T)
      else 0 := rfl

theorem busySum_nonneg (log : List SimulationEvent) (d : String)
    (h : ∀ ev ∈ log, 0 ≤ ev.duration) : 0 ≤ busySum log d := by
  unfold busySum
  apply List.sum_nonneg
  intro x hx
  obtain ⟨ev, hev, rfl⟩ := List.mem_map.mp hx
  exact h ev (List.mem_of_mem_filter hev)

/-- At a drained final state the statistics aggregation succeeds, and
`num_samples_completed` counts the end-time entries. -/
theorem computeSummary_ok (w : Workflow) (st : EngineState)
    (hwf : WfWorkflow w) (hE : EngInv w st) (hT : TimeInv st)
    (hfin : ∀ p ∈ st.procs, p.phase = ProcPhase.finished) :
    ∃ s, computeSummary w st = Except.ok s ∧
      s.num_samples_completed = (st.sample_end_times.length : ℤ) := by
  have hexec : ∀ d, execSum st.clock st.procs d = 0 := by
    intro d
    apply execSum_eq_zero_of
    intro p hp
    rw [hfin p hp]
    exact fun hc => ProcPhase.noConfusion hc
  have hutil : ∀ dev ∈ w.devices,
      0 ≤ deviceUtilizationFor st.event_log dev.device_id
        dev.resource_capacity st.clock ∧
      deviceUtilizationFor st.event_log dev.device_id
        dev.resource_capacity st.clock ≤ 1 := by
    intro dev hdev
    obtain ⟨r, hr⟩ :=
      Option.isSome_iff_exists.mp (hE.res_cover dev hdev)
    have hmem := alookup_mem _ _ _ hr
    obtain ⟨dev2, hdev2, hid2, hcap2⟩ :=
      hE.res_entries dev.device_id r hmem
    have hdeveq : dev2 = dev :=
      List.inj_on_of_nodup_map hwf.2.2.2.2 hdev2 hdev hid2.symm
    have hcap : r.capacity = dev.resource_capacity := by
      rw [hcap2, hdeveq]
    have hub := hE.util_bound dev.device_id r hmem
    rw [hexec dev.device_id, hcap] at hub
    have h0 : 0 ≤ busySum st.event_log dev.device_id :=
      busySum_nonneg _ _ hE.log_dur_nonneg
    rw [deviceUtilizationFor_eq]
    by_cases hpos : (dev.resource_capacity : ℚ) * st.clock > 0
    · rw [if_pos hpos]
      constructor
      · exact div_nonneg h0 (le_of_lt hpos)
      · rw [div_le_one hpos]
        linarith
    · rw [if_neg hpos]
      exact ⟨le_refl 0, by norm_num⟩
  have hdu : w.devices.foldl (fun acc d => aset acc d.device_id
      (deviceUtilizationFor st.event_log d.device_id d.resource_capacity
        st.clock)) [] =
      w.devices.map (fun d => (d.device_id,
        deviceUtilizationFor st.event_log d.device_id d.resource_capacity
          st.clock)) :=
    foldl_aset_eq_map Device.device_id
      (fun d => deviceUtilizationFor st.event_log d.device_id
        d.resource_capacity st.clock) w.devices hwf.2.2.2.2
  unfold computeSummary
  dsimp only
  refine ⟨_, mkSimulationSummary_ok _ hT.1 (Int.ofNat_nonneg _)
    (le_refl 0) ?_ ?_, rfl⟩
  · by_cases hpos : st.clock > 0
    · rw [if_pos hpos]
      exact div_nonneg (by positivity) (le_of_lt hpos)
    · rw [if_neg hpos]
  · intro p hp
    rw [hdu] at hp
    obtain ⟨dev, hdev, rfl⟩ := List.mem_map.mp hp
    exact hutil dev hdev

/-- The engine's start state satisfies the scheduler invariant and the
time invariant, with the termination measure within the supplied fuel. -/
theorem init_state_inv (w : Workflow) (procs : List ProcState)
    (st0 : EngineState) (g : Rng) (hwf : WfWorkflow w)
    (hph : ∀ p ∈ procs, p.phase = ProcPhase.entering ∧ p.stepIdx = 0)
    (hsid : ∀ i, i < procs.length →
      (procs.getD i defaultProc).sample_id = sampleIdOf i)
    (hst : st0 = { clock := 0,
                    seqCounter := procs.length,
                    fel := (List.range procs.length).map
                      (fun i => { time := 0, seq := i, act := Activation.init i }),
                    resources := init_resources w,
                    procs := procs,
                    event_log := [],
                    sample_start_times := [],
                    sample_end_times := [],
                    rng := g }) :
    EngInv w st0 ∧ TimeInv st0 ∧
      Phi w st0 ≤ procs.length * (2 * w.base_sequence.length + 2) := by
  subst hst
  have hres := init_resources_eq w hwf.2.2.2.2
  have hgetmem : ∀ i, i < procs.length →
      procs.getD i defaultProc ∈ procs := by
    intro i hi
    rw [List.getD_eq_getElem?_getD, List.getElem?_eq_getElem hi]
    exact List.getElem_mem _
  have hkeys : ((w.devices.map (fun d => (d.device_id,
      ({ capacity := d.resource_capacity, users := 0, queue := [] } : ResourceState)))).map Prod.fst).Nodup := by
    rw [List.map_map]
    exact hwf.2.2.2.2
  have hentry : ∀ d r, (d, r) ∈ init_resources w →
      ∃ dev ∈ w.devices, dev.device_id = d ∧
        ({ capacity := dev.resource_capacity, users := 0, queue := [] } : ResourceState) = r := by
    intro d r hdr
    rw [hres] at hdr
    obtain ⟨dev, hdev, heq⟩ := List.mem_map.mp hdr
    rw [Prod.mk.injEq] at heq
    exact ⟨dev, hdev, heq.1, heq.2⟩
  have hnotexec : ∀ p ∈ procs, p.phase ≠ ProcPhase.executing := by
    intro p hp
    rw [(hph p hp).1]
    exact fun hc => ProcPhase.noConfusion hc
  have hfelmap : (((List.range procs.length).map
      (fun i => ({ time := 0, seq := i, act := Activation.init i } : FelEntry))).map
        (fun e => actPid e.act)) = List.range procs.length := by
    rw [List.map_map]
    show (List.range procs.length).map (fun i => i) = _
    exact List.map_id _
  refine ⟨⟨?_, ?_, ?_, ?_, ?_, ?_, ?_, ?_, ?_, ?_, ?_, ?_, ?_, ?_, ?_, ?_, ?_, ?_⟩, ?_, ?_⟩
  · -- res_keys_nodup
    dsimp only
    rw [hres]
    exact hkeys
  · -- res_cover
    intro dev hdev
    dsimp only
    rw [hres, alookup_of_mem_nodup _ dev.device_id
      ({ capacity := dev.resource_capacity, users := 0, queue := [] } : ResourceState)
      (List.mem_map_of_mem (fun d => (d.device_id, ({ capacity := d.resource_capacity, users := 0, queue := [] } : ResourceState))) hdev) hkeys]
    rfl
  · -- res_entries
    intro d r hdr
    obtain ⟨dev, hdev, h1, h2⟩ := hentry d r hdr
    refine ⟨dev, hdev, h1.symm, ?_⟩
    rw [← h2]
  · -- res_cap_pos
    intro d r hdr
    obtain ⟨dev, hdev, h1, h2⟩ := hentry d r hdr
    rw [← h2]
    exact hwf.2.2.1 dev hdev
  · -- res_users_le
    intro d r hdr
    obtain ⟨dev, hdev, h1, h2⟩ := hentry d r hdr
    rw [← h2]
    exact Nat.zero_le _
  · -- res_queue_full
    intro d r hdr hne
    obtain ⟨dev, hdev, h1, h2⟩ := hentry d r hdr
    rw [← h2] at hne
    exact absurd rfl hne
  · -- res_users_eq
    intro d r hdr
    obtain ⟨dev, hdev, h1, h2⟩ := hentry d r hdr
    rw [← h2]
    show 0 = activeCount procs d
    refine (activeCount_eq_zero_of procs d ?_).symm
    intro p hp
    rw [(hph p hp).1]
    exact ⟨fun hc => ProcPhase.noConfusion hc,
      fun hc => ProcPhase.noConfusion hc⟩
  · -- queue_elems
    intro d r hdr i hiq
    obtain ⟨dev, hdev, h1, h2⟩ := hentry d r hdr
    rw [← h2] at hiq
    exact absurd hiq (List.not_mem_nil i)
  · -- act_matches
    intro e he
    obtain ⟨j, hj, rfl⟩ := List.mem_map.mp he
    have hj2 := List.mem_range.mp hj
    refine ⟨hj2, ?_⟩
    show (procs.getD j defaultProc).phase = ProcPhase.entering ∧
      (procs.getD j defaultProc).stepIdx = 0
    exact hph _ (hgetmem j hj2)
  · -- tok_count
    intro i hi
    have hp := hph _ (hgetmem i hi)
    rw [if_neg (by rw [hp.1]; exact fun hc => ProcPhase.noConfusion hc)]
    rw [pidCount_eq]
    have hf : felTokens (((List.range procs.length).map
        (fun i => ({ time := 0, seq := i, act := Activation.init i } : FelEntry)))) i = 1 := by
      unfold felTokens
      rw [hfelmap]
      exact List.count_eq_one_of_mem (List.nodup_range _)
        (List.mem_range.mpr hi)
    have hq : queueTokens (init_resources w) i = 0 := by
      unfold queueTokens
      rw [hres, List.map_map]
      apply List.sum_eq_zero
      intro x hx
      obtain ⟨dev, hdev, rfl⟩ := List.mem_map.mp hx
      rfl
    rw [hf, hq]
  · -- steps_resolvable
    intro i hi k hk
    have hp := hph _ (hgetmem i hi)
    rw [hp.2] at hk
    exact absurd hk (Nat.not_lt_zero k)
  · -- finished_idx
    intro i hi hfin
    have hp := hph _ (hgetmem i hi)
    rw [hp.1] at hfin
    exact ProcPhase.noConfusion hfin
  · -- proc_sid
    exact hsid
  · -- start_mem
    intro k
    constructor
    · intro h
      exact Bool.noConfusion h
    · rintro ⟨i, hi, hne, rfl⟩
      exact absurd (hph _ (hgetmem i hi)).1 hne
  · -- end_mem
    intro k
    constructor
    · intro h
      exact Bool.noConfusion h
    · rintro ⟨i, hi, hfin, rfl⟩
      rw [(hph _ (hgetmem i hi)).1] at hfin
      exact ProcPhase.noConfusion hfin
  · -- end_keys_nodup
    exact List.nodup_nil
  · -- log_dur_nonneg
    intro ev hev
    exact absurd hev (List.not_mem_nil ev)
  · -- util_bound
    intro d r hdr
    show busySum [] d + execSum 0 procs d ≤ (r.capacity : ℚ) * 0
    rw [execSum_eq_zero_of 0 procs d hnotexec, mul_zero]
    norm_num
    rfl
  · -- TimeInv
    refine ⟨le_refl 0, ?_, ?_, List.Pairwise.nil, ?_⟩
    · exact List.pairwise_map.mpr
        (pairwise_of_total (fun a b => le_refl 0) _)
    · intro f hf
      obtain ⟨i, _, rfl⟩ := List.mem_map.mp hf
      exact le_refl 0
    · intro ev hev
      exact absurd hev (List.not_mem_nil ev)
  · -- Phi bound
    rw [Phi_eq]
    dsimp only
    have hqW : queueW w.base_sequence.length procs (init_resources w) = 0 := by
      unfold queueW
      rw [hres, List.map_map]
      apply List.sum_eq_zero
      intro x hx
      obtain ⟨dev, hdev, rfl⟩ := List.mem_map.mp hx
      rfl
    have hfW : felW w.base_sequence.length procs
        (((List.range procs.length).map
          (fun i => ({ time := 0, seq := i, act := Activation.init i } : FelEntry)))) ≤
        procs.length * (2 * w.base_sequence.length + 2) := by
      unfold felW
      have h2 := List.sum_le_card_nsmul
        ((((List.range procs.length).map
          (fun i => ({ time := 0, seq := i, act := Activation.init i } : FelEntry))).map
            (fun e => actW w.base_sequence.length procs e.act)))
        (2 * w.base_sequence.length + 2) ?_
      · rwa [List.length_map, List.length_map, List.length_range,
          smul_eq_mul] at h2
      · intro x hx
        obtain ⟨e, he, rfl⟩ := List.mem_map.mp hx
        obtain ⟨j, hj, rfl⟩ := List.mem_map.mp he
        show tokW w.base_sequence.length
          ((procs.getD j defaultProc).stepIdx) + 2 ≤
          2 * w.base_sequence.length + 2
        unfold tokW
        omega
    have hsum := Nat.add_le_add hfW (Nat.le_of_eq hqW)
    rw [Nat.add_zero] at hsum
    exact hsum

/-- C10: for every validator-clean workflow and scenario with no
`max_simulation_time` set, `run()` terminates successfully, every
launched sample has both a recorded start timestamp and a recorded end
timestamp, and the summary's `num_samples_completed` equals the number
of samples generated from the entry pattern. -/
theorem run_no_cutoff_completes_all_samples (w : Workflow) (sc : Scenario)
    (g0 : Rng) (entries : List (String × ℚ))
    (hwf : WfWorkflow w)
    (hmax : sc.simulation_config.max_simulation_time = none)
    (hentry : computeEntryTimes sc = Except.ok entries) :
    ∃ st summ, runEngine w sc g0 = Except.ok st ∧
      run w sc g0 = Except.ok (st.event_log, summ) ∧
      (∀ q ∈ entries, (alookup st.sample_start_times q.1).isSome ∧
        (alookup st.sample_end_times q.1).isSome) ∧
      summ.num_samples_completed = (entries.length : ℤ) := by
  have hshape : ∃ N, (List.range N).map
      (fun i => (sampleIdOf i, (0 : ℚ))) = entries := by
    unfold computeEntryTimes at hentry
    dsimp only at hentry
    by_cases hsupp : sc.sample_entry_pattern.pattern_type = "synchronized" ∨
      sc.sample_entry_pattern.pattern_type = "single"
    · rw [if_pos hsupp] at hentry
      injection hentry with h2
      exact ⟨_, h2⟩
    · rw [if_neg hsupp] at hentry
      exact absurd hentry (by simp)
  obtain ⟨N, hent⟩ := hshape
  subst hent
  have hplen : (((List.range N).map (fun i => (sampleIdOf i, (0 : ℚ)))).map
      (fun q => { defaultProc with
        sample_id := q.1, entry_time := q.2 })).length = N := by
    rw [List.length_map, List.length_map, List.length_range]
  have hph : ∀ p ∈ ((List.range N).map
      (fun i => (sampleIdOf i, (0 : ℚ)))).map (fun q => { defaultProc with
        sample_id := q.1, entry_time := q.2 }),
      p.phase = ProcPhase.entering ∧ p.stepIdx = 0 := by
    intro p hp
    obtain ⟨q, hq, rfl⟩ := List.mem_map.mp hp
    exact ⟨rfl, rfl⟩
  have hsid : ∀ i, i < (((List.range N).map
      (fun i => (sampleIdOf i, (0 : ℚ)))).map (fun q => { defaultProc with
        sample_id := q.1, entry_time := q.2 })).length →
      ((((List.range N).map (fun i => (sampleIdOf i, (0 : ℚ)))).map
        (fun q => { defaultProc with
          sample_id := q.1, entry_time := q.2 })).getD i
            defaultProc).sample_id = sampleIdOf i := by
    intro i hi
    rw [List.getD_eq_getElem?_getD, List.getElem?_eq_getElem hi]
    show (((((List.range N).map (fun i => (sampleIdOf i, (0 : ℚ)))).map
      (fun q => ({ defaultProc with
        sample_id := q.1, entry_time := q.2 } : ProcState)))[i]).sample_id) =
      sampleIdOf i
    rw [List.getElem_map, List.getElem_map, List.getElem_range]
  obtain ⟨hE0, hT0, hPhi0⟩ := init_state_inv w
    (((List.range N).map (fun i => (sampleIdOf i, (0 : ℚ)))).map
      (fun q => { defaultProc with
        sample_id := q.1, entry_time := q.2 })) _
    (match sc.simulation_config.random_seed with
      | some seed => set_random_seed g0 seed
      | none => g0) hwf hph hsid rfl
  obtain ⟨stF, hrun, hEF, hTF, hfelF, hlenF⟩ :=
    runLoop_none_total w hwf (engineFuel w (((List.range N).map
      (fun i => (sampleIdOf i, (0 : ℚ)))).map (fun q => { defaultProc with
        sample_id := q.1, entry_time := q.2 })).length) _ hE0 hT0
      (by unfold engineFuel; omega)
  have hre : runEngine w sc g0 = Except.ok stF := by
    unfold runEngine
    rw [hentry]
    dsimp only
    rw [hmax]
    exact hrun
  have hfin := all_finished_of_fel_nil w stF hEF hfelF
  have hlen2 : stF.procs.length = N := by
    rw [hlenF]
    exact hplen
  have hfinp : ∀ p ∈ stF.procs, p.phase = ProcPhase.finished := by
    intro p hp
    obtain ⟨⟨i, hi⟩, hg⟩ := List.mem_iff_get.mp hp
    have h2 := hfin i hi
    rw [List.getD_eq_getElem?_getD, List.getElem?_eq_getElem hi] at h2
    rw [← hg]
    exact h2
  obtain ⟨stS, hcs, hnum⟩ := computeSummary_ok w stF hwf hEF hTF hfinp
  have hendlen := end_times_length w stF hEF hfin
  have hrune : run w sc g0 = Except.ok (stF.event_log, stS) := by
    unfold run
    rw [hre]
    dsimp only
    rw [hcs]
  refine ⟨stF, stS, hre, hrune, ?_, ?_⟩
  · intro q hq
    obtain ⟨i, hir, rfl⟩ := List.mem_map.mp hq
    have hi : i < stF.procs.length := by
      rw [hlen2]
      exact List.mem_range.mp hir
    constructor
    · exact (hEF.start_mem (sampleIdOf i)).mpr ⟨i, hi, by
        rw [hfin i hi]
        exact fun hc => ProcPhase.noConfusion hc, rfl⟩
    · exact (hEF.end_mem (sampleIdOf i)).mpr ⟨i, hi, hfin i hi, rfl⟩
  · rw [hnum, hendlen, hlen2, List.length_map, List.length_range]

/-- Witness for C10: the one-sample, one-operation example completes
its single sample with start and end recorded. -/
theorem run_no_cutoff_completes_all_samples_witness :
    ∃ st summ, runEngine wfOneOp scSingle ⟨0⟩ = Except.ok st ∧
      run wfOneOp scSingle ⟨0⟩ = Except.ok (st.event_log, summ) ∧
      (∀ q ∈ ([(("SAMPLE_000"), (0 : ℚ))] : List (String × ℚ)),
        (alookup st.sample_start_times q.1).isSome ∧
        (alookup st.sample_end_times q.1).isSome) ∧
      summ.num_samples_completed =
        ((([(("SAMPLE_000"), (0 : ℚ))] : List (String × ℚ))).length : ℤ) :=
  run_no_cutoff_completes_all_samples wfOneOp scSingle ⟨0⟩
    ([(("SAMPLE_000"), (0 : ℚ))])
    (by
      refine ⟨?_, ?_, ?_, ?_, ?_⟩
      · intro step hstep
        have h2 : step = stepOf ("S1") ("OP1") := List.mem_singleton.mp hstep
        subst h2
        with_unfolding_all decide
      · intro op hop
        have h2 : op = opFixed10 := List.mem_singleton.mp hop
        subst h2
        refine ⟨devFixed, List.mem_singleton.mpr rfl, ?_⟩
        with_unfolding_all decide
      · intro dev hdev
        have h2 : dev = devFixed := List.mem_singleton.mp hdev
        subst h2
        with_unfolding_all decide
      · intro op hop
        have h2 : op = opFixed10 := List.mem_singleton.mp hop
        subst h2
        show (0 : ℚ) ≤ 10
        norm_num
      · with_unfolding_all decide)
    rfl (by with_unfolding_all rfl)

/-- C4 (corrected): a step whose `operation_id` resolves to no
operation raises a fatal error at the moment the engine reaches it —
`beginStep` fails with the quoted message — and an engine error
propagates out of `run()` unchanged, so the caller receives no event
log or summary.  (Absence alone does not guarantee the error: see the
counterexample, where a `max_simulation_time` cutoff ends the run
before the dangling step is reached.) -/
theorem dangling_operation_fatal_when_reached :
    (∀ (w : Workflow) (st : EngineState) (pid : ℕ) (step : SequenceStep),
      w.base_sequence.get? (getProc st pid).stepIdx = some step →
      findOp w step.operation_id = none →
      beginStep w st pid = Except.error
        ("Operation '" ++ step.operation_id ++
          "' not found in workflow definition")) ∧
    (∀ (w : Workflow) (sc : Scenario) (g0 : Rng) (msg : String),
      runEngine w sc g0 = Except.error msg →
      run w sc g0 = Except.error msg) := by
  constructor
  · intro w st pid step hget hmiss
    unfold beginStep
    dsimp only
    rw [hget]
    dsimp only
    rw [hmiss]
  · intro w sc g0 msg hre
    unfold run
    rw [hre]

/-- Witness for C4: the dangling second step of `wfDangling` makes
`beginStep` fail with the quoted message, and the whole seeded
no-cutoff run on `wfDangling` propagates exactly that error. -/
theorem dangling_operation_fatal_when_reached_witness :
    beginStep wfDangling
      { clock := 10,
        seqCounter := 5,
        fel := [],
        resources := init_resources wfDangling,
        procs := [{ defaultProc with stepIdx := 1 }],
        event_log := [],
        sample_start_times := [],
        sample_end_times := [],
        rng := ⟨0⟩ } 0 =
      Except.error
        ("Operation '" ++ ("MISSING") ++
          "' not found in workflow definition") ∧
    run wfDangling scSingle ⟨0⟩ = Except.error
      ("Operation 'MISSING' not found in workflow definition") :=
  ⟨dangling_operation_fatal_when_reached.1 wfDangling
      { clock := 10,
        seqCounter := 5,
        fel := [],
        resources := init_resources wfDangling,
        procs := [{ defaultProc with stepIdx := 1 }],
        event_log := [],
        sample_start_times := [],
        sample_end_times := [],
        rng := ⟨0⟩ } 0 (stepOf ("S2") ("MISSING"))
      (by with_unfolding_all rfl) (by with_unfolding_all rfl),
    dangling_operation_fatal_when_reached.2 wfDangling scSingle ⟨0⟩
      ("Operation 'MISSING' not found in workflow definition")
      (by with_unfolding_all rfl)⟩

/-- C4 counterexample: `wfDangling`'s second step references an
operation id absent from the operations list, yet the run with
`max_simulation_time = 5` ends at the cutoff before reaching it — the
run raises no error and a full result is returned to the caller. -/
theorem dangling_operation_counterexample :
    (∃ step ∈ wfDangling.base_sequence,
      findOp wfDangling step.operation_id = none) ∧
    ∃ log summ, run wfDangling scSingleCut5 ⟨0⟩ =
      Except.ok (log, summ) := by
  constructor
  · exact ⟨stepOf ("S2") ("MISSING"), by with_unfolding_all decide,
      by with_unfolding_all rfl⟩
  · exact ⟨_, _, by with_unfolding_all rfl⟩

end InstrumentSim
